import Mathlib

/-!
Verovio object tree: node ownership, child mutation and functor traversal.

A shallow embedding of the `vrv::Object` tree (`include/vrv/object.h`) and of the
classes built on it (`src/tuning.cpp`, `src/runningelement.cpp`).

C++ objects live at addresses and refer to each other through pointers
(`m_parent`, `m_children`).  The embedding keeps that shape: an `ObjId` is an
address, a `Heap` maps every address to the `Object` stored there, a nullable
pointer is an `Option ObjId`.  Methods that mutate `this` or another object take
the heap and return the new heap.

A call that trips an `assert`, and a recursion that runs out of its fuel, do not
return a heap: they return a `Fault`.
-/

namespace Vrv

/-- The `ClassId` enumeration: a numeric tag. -/
abbrev ClassId := Nat

/-- The address of an object (`Object *`). -/
abbrev ObjId := Nat

/-- Why a call did not return normally. -/
inductive Fault where
  | assertFailed
  | outOfFuel
  | outOfBounds
  | divisionByZero
  deriving DecidableEq, Repr

/-- The data members of `vrv::Object` that the tree operations read and write:
`m_classId`, `m_children` (an ordered vector of pointers), `m_parent` (a pointer,
`none` for `NULL`) and the mutable flag `m_isModified`. -/
structure Object where
  m_classId : ClassId
  m_children : List ObjId
  m_parent : Option ObjId
  m_isModified : Bool
  deriving DecidableEq, Repr

/-- The store: the object found at each address. -/
abbrev Heap := ObjId → Object

/-- The assignment `x->m_parent = p`. -/
def Heap.setParent (h : Heap) (x : ObjId) (p : Option ObjId) : Heap :=
  Function.update h x { h x with m_parent := p }

/-- The assignment `x->m_children = l`. -/
def Heap.setChildren (h : Heap) (x : ObjId) (l : List ObjId) : Heap :=
  Function.update h x { h x with m_children := l }

/-- The assignment `x->m_isModified = b`. -/
def Heap.setModified (h : Heap) (x : ObjId) (b : Bool) : Heap :=
  Function.update h x { h x with m_isModified := b }

/-- `Object::GetParent`: `return m_parent;` -/
def GetParent (h : Heap) (self : ObjId) : Option ObjId := (h self).m_parent

/-- `Object::GetChildCount`: `return (int)m_children.size();` -/
def GetChildCount (h : Heap) (self : ObjId) : Int := ((h self).m_children.length : Int)

/-- `Object::IsModified`: `return m_isModified;` -/
def IsModified (h : Heap) (self : ObjId) : Bool := (h self).m_isModified

/-- `Object::GetClassId`: `return m_classId;` -/
def GetClassId (h : Heap) (self : ObjId) : ClassId := (h self).m_classId

/-- `Object::ResetParent`: `m_parent = NULL;` -/
def ResetParent (h : Heap) (self : ObjId) : Heap :=
  h.setParent self none

/-- Modelled from the spec: `Object::SetParent`, whose body is in object.cpp.
The header documents it as "Set the parent of the Object. The current parent is
expected to be NULL", and the specification makes attaching an already-parented
node a programming error that "must be rejected or asserted, never silently
reparented": a non-null current parent is an assertion failure, otherwise the
parent pointer is stored. -/
def SetParent (h : Heap) (self parent : ObjId) : Except Fault Heap :=
  match (h self).m_parent with
  | some _ => .error .assertFailed
  | none => .ok (h.setParent self (some parent))

/-- Modelled from the spec: `Object::Modify(bool modified = true)`, whose body is
in object.cpp.  The header documents it as "Mark the object and its parent (if
any) as modified", the specification as marking "the node and every ancestor":
a recursion up the parent pointers that sets `m_isModified` on the way back.
Clearing the flag (`modified = false`) touches the object alone.  The fuel
bounds the depth of the recursion. -/
def Modify : Nat → Heap → ObjId → Bool → Except Fault Heap
  | 0, _, _, _ => .error .outOfFuel
  | fuel + 1, h, self, modified =>
    match (h self).m_parent, modified with
    | some p, true =>
      match Modify fuel h p true with
      | .ok h1 => .ok (h1.setModified self true)
      | .error e => .error e
    | _, _ => .ok (h.setModified self modified)

/-- The linear search of `Object::GetChildIndex`, counting from `i`. -/
def childIndexFrom (child : ObjId) : List ObjId → Int → Int
  | [], _ => -1
  | x :: xs, i => if child = x then i else childIndexFrom child xs (i + 1)

/-- Modelled from the spec: `Object::GetChildIndex`, whose body is in object.cpp.
The header documents it as "Look for the Object in the children and return its
position (-1 if not found)". -/
def GetChildIndex (h : Heap) (self child : ObjId) : Int :=
  childIndexFrom child (h self).m_children 0

/-- `Tuning::AddChild` (tuning.cpp):
```
child->SetParent(this);
m_children.push_back(child);
Modify();
```
-/
def Tuning.AddChild (fuel : Nat) (h : Heap) (self child : ObjId) : Except Fault Heap :=
  match SetParent h child self with
  | .error e => .error e
  | .ok h1 =>
    Modify fuel (h1.setChildren self ((h1 self).m_children ++ [child])) self true

/-- Modelled from the spec: the base `Object::AddChild`, whose body is in
object.cpp.  The specification: it "fails (rejects) if the concrete node's
`IsSupportedChild` predicate refuses" the child, otherwise it "sets
`n.parent = self`" , appends and "marks self modified".  `IsSupportedChild` is
the virtual predicate of the concrete class; a rejected child leaves every
object as it was. -/
def Object.AddChild (IsSupportedChild : Heap → ObjId → ObjId → Bool) (fuel : Nat) (h : Heap)
    (self child : ObjId) : Except Fault Heap :=
  if IsSupportedChild h self child then
    match SetParent h child self with
    | .error e => .error e
    | .ok h1 =>
      Modify fuel (h1.setChildren self ((h1 self).m_children ++ [child])) self true
  else .ok h

/-- The node reached from `x` by following `m_parent` exactly `k` times
(`x` itself for `k = 0`), if the chain is that long. -/
def ancestorAt (h : Heap) : Nat → ObjId → Option ObjId
  | 0, x => some x
  | k + 1, x =>
    match (h x).m_parent with
    | some p => ancestorAt h k p
    | none => none

/-- A three-node store: node 0 is a root with the single child 1, node 1 is a
tuning with no children, every other address holds a parentless leaf.  No
modified flag is set. -/
def heapChain : Heap := fun i =>
  match i with
  | 0 => { m_classId := 7, m_children := [1], m_parent := none, m_isModified := false }
  | 1 => { m_classId := 9, m_children := [], m_parent := some 0, m_isModified := false }
  | _ => { m_classId := 5, m_children := [], m_parent := none, m_isModified := false }

/-! ## Class families -/

/-- The values of the `ClassId` enumerators that the code refers to by name.  The
enumeration itself is declared in vrvdef.h; its numeric values are taken as a
parameter. -/
structure ClassIds where
  CONTROL_ELEMENT : ClassId
  CONTROL_ELEMENT_max : ClassId
  EDITORIAL_ELEMENT : ClassId
  EDITORIAL_ELEMENT_max : ClassId
  LAYER_ELEMENT : ClassId
  LAYER_ELEMENT_max : ClassId
  PAGE_ELEMENT : ClassId
  PAGE_ELEMENT_max : ClassId
  RUNNING_ELEMENT : ClassId
  RUNNING_ELEMENT_max : ClassId
  SCOREDEF_ELEMENT : ClassId
  SCOREDEF_ELEMENT_max : ClassId
  SYSTEM_ELEMENT : ClassId
  SYSTEM_ELEMENT_max : ClassId
  TEXT_ELEMENT : ClassId
  TEXT_ELEMENT_max : ClassId
  REND : ClassId
  FIG : ClassId
  SPACE : ClassId

/-- `Object::IsEditorialElement`:
`return ((m_classId > EDITORIAL_ELEMENT) && (m_classId < EDITORIAL_ELEMENT_max));` -/
def IsEditorialElement (E : ClassIds) (h : Heap) (self : ObjId) : Bool :=
  decide (E.EDITORIAL_ELEMENT < (h self).m_classId) &&
    decide ((h self).m_classId < E.EDITORIAL_ELEMENT_max)

/-! ## Functor traversal -/

/-- The return code of a functor, as listed at `Functor::m_returnCode`. -/
inductive FunctorCode where
  | FUNCTOR_CONTINUE
  | FUNCTOR_SIBLINGS
  | FUNCTOR_STOP
  deriving DecidableEq, Repr

/-- `#define UNLIMITED_DEPTH -10000` -/
def UNLIMITED_DEPTH : Int := -10000

/-- `#define FORWARD true` -/
def FORWARD : Bool := true

/-- `#define BACKWARD false` -/
def BACKWARD : Bool := false

/-- A functor hook of the const traversal: called on an object with the parameter
block `σ` of its pass, it returns a code and the updated parameter block. -/
abbrev Hook (σ : Type) := σ → ObjId → FunctorCode × σ

/-- The children of an object in the order of the traversal: document order for
`FORWARD`, the reverse for `BACKWARD`. -/
def childrenInOrder (h : Heap) (direction : Bool) (self : ObjId) : List ObjId :=
  if direction then (h self).m_children else (h self).m_children.reverse

/-- Whether the filter lets the traversal reach an object; no filter accepts
everything. -/
def filtersAccept (filters : Option (ObjId → Bool)) (x : ObjId) : Bool :=
  match filters with
  | none => true
  | some f => f x

/-- The depth budget handed to the children of `self`, `none` when none is left.
`UNLIMITED_DEPTH` is the sentinel for no bound; an editorial element passes its
own budget on unchanged; any other object passes on one level less. -/
def childDeepness (E : ClassIds) (h : Heap) (self : ObjId) (deepness : Int) : Option Int :=
  if deepness = UNLIMITED_DEPTH then some UNLIMITED_DEPTH
  else if IsEditorialElement E h self then some deepness
  else if 0 < deepness then some (deepness - 1)
  else none

/-- The loop over the children inside `Process`: each child is processed in
turn, and a child that ends in `FUNCTOR_STOP` ends the loop with that code. -/
def processChildren {σ : Type} (rec : ObjId → σ → Except Fault (FunctorCode × σ)) :
    List ObjId → σ → Except Fault (FunctorCode × σ)
  | [], s => .ok (.FUNCTOR_CONTINUE, s)
  | c :: cs, s =>
    match rec c s with
    | .error e => .error e
    | .ok (.FUNCTOR_STOP, s1) => .ok (.FUNCTOR_STOP, s1)
    | .ok (_, s1) => processChildren rec cs s1

/-- The call of the end functor on an object: made when one is supplied and
`skipFirst` does not suppress it.  Only `FUNCTOR_STOP` is passed on. -/
def callEndFunctor {σ : Type} (endFunctor : Option (Hook σ)) (skipFirst : Bool) (self : ObjId)
    (s : σ) : FunctorCode × σ :=
  match endFunctor, skipFirst with
  | some f, false =>
    match f s self with
    | (.FUNCTOR_STOP, s1) => (.FUNCTOR_STOP, s1)
    | (_, s1) => (.FUNCTOR_CONTINUE, s1)
  | _, _ => (.FUNCTOR_CONTINUE, s)

/-- Modelled from the spec: `Object::Process`, whose body is in object.cpp, after
section 4.3 of the specification.  (1) Unless `skipFirst`, an object that the
filter refuses is neither called nor entered; otherwise the functor is called
and its code captured.  (2) `FUNCTOR_STOP` returns at once.  (3) On
`FUNCTOR_CONTINUE`, when depth budget remains, the children are processed in
the order of `direction`, and a `FUNCTOR_STOP` from a child is passed up.
(4) After the children, or after `FUNCTOR_SIBLINGS`, the end functor is called.
The value returned is the code seen by the caller: `FUNCTOR_STOP` or
`FUNCTOR_CONTINUE`.  The fuel bounds the depth of the recursion. -/
def Process {σ : Type} (E : ClassIds) (h : Heap) (functor : Hook σ)
    (endFunctor : Option (Hook σ)) (filters : Option (ObjId → Bool)) (direction : Bool) :
    Nat → Int → Bool → ObjId → σ → Except Fault (FunctorCode × σ)
  | 0, _, _, _, _ => .error .outOfFuel
  | fuel + 1, deepness, skipFirst, self, s =>
    if !skipFirst && !filtersAccept filters self then .ok (.FUNCTOR_CONTINUE, s)
    else
      match (if skipFirst then (FunctorCode.FUNCTOR_CONTINUE, s) else functor s self) with
      | (.FUNCTOR_STOP, s1) => .ok (.FUNCTOR_STOP, s1)
      | (.FUNCTOR_SIBLINGS, s1) => .ok (callEndFunctor endFunctor skipFirst self s1)
      | (.FUNCTOR_CONTINUE, s1) =>
        match childDeepness E h self deepness with
        | none => .ok (callEndFunctor endFunctor skipFirst self s1)
        | some d =>
          match processChildren (Process E h functor endFunctor filters direction fuel d false)
              (childrenInOrder h direction self) s1 with
          | .error e => .error e
          | .ok (.FUNCTOR_STOP, s2) => .ok (.FUNCTOR_STOP, s2)
          | .ok (_, s2) => .ok (callEndFunctor endFunctor skipFirst self s2)

/-- A hook together with the record of the objects it has been called on: the
parameter block is paired with the list of visited objects, in call order. -/
def traced {σ : Type} (f : Hook σ) : Hook (σ × List ObjId) :=
  fun st x => ((f st.1 x).1, ((f st.1 x).2, st.2 ++ [x]))

/-- An enumerator table for the examples: the editorial family is 100..110, the
text family 200..210, `REND` is 203 and `FIG` is 204. -/
def classIdsExample : ClassIds :=
  { CONTROL_ELEMENT := 20, CONTROL_ELEMENT_max := 60,
    EDITORIAL_ELEMENT := 100, EDITORIAL_ELEMENT_max := 110,
    LAYER_ELEMENT := 120, LAYER_ELEMENT_max := 170,
    PAGE_ELEMENT := 180, PAGE_ELEMENT_max := 185,
    RUNNING_ELEMENT := 186, RUNNING_ELEMENT_max := 192,
    SCOREDEF_ELEMENT := 193, SCOREDEF_ELEMENT_max := 199,
    SYSTEM_ELEMENT := 220, SYSTEM_ELEMENT_max := 230,
    TEXT_ELEMENT := 200, TEXT_ELEMENT_max := 210,
    REND := 203, FIG := 204, SPACE := 150 }

/-- A hook that answers `FUNCTOR_SIBLINGS` on the object `X`, `FUNCTOR_CONTINUE` on
every other object, and counts its calls. -/
def siblingsAt (X : ObjId) : Hook Nat :=
  fun s y => (if y = X then .FUNCTOR_SIBLINGS else .FUNCTOR_CONTINUE, s + 1)

/-- A hook that stops at every object and counts its calls. -/
def stopAlways : Hook Nat := fun s _ => (.FUNCTOR_STOP, s + 1)

/-- The document-order lists of a sequence of siblings, one after the other. -/
def preorderChildren (rec : ObjId → Except Fault (List ObjId)) :
    List ObjId → Except Fault (List ObjId)
  | [] => .ok []
  | c :: cs =>
    match rec c with
    | .error e => .error e
    | .ok a =>
      match preorderChildren rec cs with
      | .error e => .error e
      | .ok b => .ok (a ++ b)

/-- The objects of the subtree of `self` in the order of a depth-first walk:
`self` first, then the subtree of each child in the order of `direction`
(document order for `FORWARD`).  The fuel bounds the height of the subtree. -/
def preorder (h : Heap) (direction : Bool) : Nat → ObjId → Except Fault (List ObjId)
  | 0, _ => .error .outOfFuel
  | fuel + 1, self =>
    match preorderChildren (preorder h direction fuel) (childrenInOrder h direction self) with
    | .error e => .error e
    | .ok l => .ok (self :: l)

/-- A hook applied to the objects of a list in turn, up to and including the
first object on which it returns `FUNCTOR_STOP`. -/
def runHook {σ : Type} (f : Hook σ) : List ObjId → σ → FunctorCode × σ
  | [], s => (.FUNCTOR_CONTINUE, s)
  | y :: ys, s =>
    match f s y with
    | (.FUNCTOR_STOP, s1) => (.FUNCTOR_STOP, s1)
    | (_, s1) => runHook f ys s1

/-- The parameter block of the range search: the start object while it has not
been reached (`none` once inside the range) and the objects collected so far. -/
structure FindAllBetweenParams where
  m_start : Option ObjId
  m_elements : List ObjId
  deriving DecidableEq, Repr

/-- Modelled from the spec: the hook `Object::FindAllBetween`, whose body is in
object.cpp.  Section 4.2: every search is the traversal "with a purpose-built
hook", and this one "collects matches in document order beginning at `start` and
ending at `end` inclusive".  Before `start` is reached nothing is collected; from
`start` on every object that satisfies the comparison is appended; reaching
`end` stops the traversal. -/
def FindAllBetween (comparison : ObjId → Bool) (last : ObjId) : Hook FindAllBetweenParams :=
  fun params self =>
    if params.m_start ≠ none ∧ params.m_start ≠ some self then (.FUNCTOR_CONTINUE, params)
    else
      let elements :=
        if comparison self then params.m_elements ++ [self] else params.m_elements
      (if self = last then FunctorCode.FUNCTOR_STOP else FunctorCode.FUNCTOR_CONTINUE,
        { m_start := none, m_elements := elements })

/-- Modelled from the spec: `Object::FindAllDescendantsBetween`, whose body is in
object.cpp: the traversal of `self` with the hook `FindAllBetween`.  The header:
"Return all the objects matching the Comparison functor and being between start
and end in the tree. The start and end objects are included in the result set."
With `clear` the output list is emptied first. -/
def FindAllDescendantsBetween (E : ClassIds) (h : Heap) (fuel : Nat) (self : ObjId)
    (objects : List ObjId) (comparison : ObjId → Bool) (start last : ObjId) (clear : Bool)
    (depth : Int) : Except Fault (List ObjId) :=
  match Process E h (FindAllBetween comparison last) none none FORWARD fuel depth false self
      { m_start := some start, m_elements := if clear then [] else objects } with
  | .error e => .error e
  | .ok (_, params) => .ok params.m_elements

/-- A five-node tree: 10 has the children 11 and 14, and 11 has the children 12
and 13, so that the document order is 10, 11, 12, 13, 14. -/
def heapFive : Heap := fun i =>
  match i with
  | 10 => { m_classId := 1, m_children := [11, 14], m_parent := none, m_isModified := false }
  | 11 => { m_classId := 2, m_children := [12, 13], m_parent := some 10, m_isModified := false }
  | 12 => { m_classId := 3, m_children := [], m_parent := some 11, m_isModified := false }
  | 13 => { m_classId := 3, m_children := [], m_parent := some 11, m_isModified := false }
  | 14 => { m_classId := 3, m_children := [], m_parent := some 10, m_isModified := false }
  | _ => { m_classId := 0, m_children := [], m_parent := none, m_isModified := false }

/-- The proper descendants of an object: `Descendant h x d` when `d` is reached
from `x` through one or more child links. -/
inductive Descendant (h : Heap) : ObjId → ObjId → Prop where
  | child {x c : ObjId} : c ∈ (h x).m_children → Descendant h x c
  | step {x m d : ObjId} : Descendant h x m → d ∈ (h m).m_children → Descendant h x d

/-- The depth-first order of the subtree of `self` with everything below the
object `X` left out: `X` itself is listed, its children are not entered. -/
def prunedPreorder (h : Heap) (direction : Bool) (X : ObjId) :
    Nat → ObjId → Except Fault (List ObjId)
  | 0, _ => .error .outOfFuel
  | fuel + 1, self =>
    if self = X then .ok [self]
    else
      match preorderChildren (prunedPreorder h direction X fuel)
          (childrenInOrder h direction self) with
      | .error e => .error e
      | .ok l => .ok (self :: l)

/-! ## Moving and relinquishing children -/

/-- Modelled from the spec: `Object::Relinquish`, whose body is in object.cpp.
The header: "Give up ownership of the child at the idx position (NULL if not
found) ... The parent of the object will be set to NULL but the object will not
be removed."  The result is the child, or `none` for an index out of range, and
the store in which the parent pointer of the child is reset; the child sequence
is not touched. -/
def Relinquish (h : Heap) (self : ObjId) (idx : Int) : Option ObjId × Heap :=
  if idx < 0 then (none, h)
  else
    match (h self).m_children[idx.toNat]? with
    | none => (none, h)
    | some child => (some child, ResetParent h child)

/-- Modelled from the spec: `Object::ClearRelinquishedChildren`, whose body is in
object.cpp.  The header: "Removes all the children that were previously
relinquished. This has to be used when children are moved but then the parent
is not deleted."  A relinquished slot is recognised by the parent pointer of
the child, which no longer points to this object (it is null, or points to the
object the child was moved to); the other children stay, in their order. -/
def ClearRelinquishedChildren (h : Heap) (self : ObjId) : Heap :=
  h.setChildren self
    ((h self).m_children.filter (fun c => decide ((h c).m_parent = some self)))

/-- `Relinquish` called on each index of a list in turn. -/
def relinquishAll (h : Heap) (self : ObjId) (idxs : List Nat) : Heap :=
  idxs.foldl (fun (g : Heap) (i : Nat) => (Relinquish g self (i : Int)).2) h

/-- Modelled from the spec: `Object::MoveChildrenFrom`, whose body is in
object.cpp.  Section 4.1: it "bulk-transfers all of `source`'s children to self
(optionally at position `idx`); requires `self` and `source` share the same type
tag unless `allowTypeChange` is set; after the call `source` has no children".
A type mismatch fails the precondition check.  Every child of the source gets
this object as its parent; the children are appended to the child sequence of
this object for `idx = -1` and inserted at position `idx` otherwise; the child
sequence of the source is emptied. -/
def MoveChildrenFrom (h : Heap) (self sourceParent : ObjId) (idx : Int)
    (allowTypeChange : Bool) : Except Fault Heap :=
  if !allowTypeChange && decide ((h self).m_classId ≠ (h sourceParent).m_classId) then
    .error .assertFailed
  else
    let moved := (h sourceParent).m_children
    let own := (h self).m_children
    let h1 := moved.foldl (fun g c => g.setParent c (some self)) h
    let h2 := h1.setChildren sourceParent []
    .ok (h2.setChildren self
      (if idx = -1 then own ++ moved
       else own.take idx.toNat ++ moved ++ own.drop idx.toNat))

/-- Two sibling containers of the same class: 30 holds the children 32 and 33,
31 holds the children 34, 35 and 36. -/
def heapTwo : Heap := fun i =>
  match i with
  | 30 => { m_classId := 4, m_children := [32, 33], m_parent := none, m_isModified := false }
  | 31 => { m_classId := 4, m_children := [34, 35, 36], m_parent := none,
            m_isModified := false }
  | 32 => { m_classId := 3, m_children := [], m_parent := some 30, m_isModified := false }
  | 33 => { m_classId := 3, m_children := [], m_parent := some 30, m_isModified := false }
  | 34 => { m_classId := 3, m_children := [], m_parent := some 31, m_isModified := false }
  | 35 => { m_classId := 3, m_children := [], m_parent := some 31, m_isModified := false }
  | 36 => { m_classId := 3, m_children := [], m_parent := some 31, m_isModified := false }
  | _ => { m_classId := 0, m_children := [], m_parent := none, m_isModified := false }

/-! ## Cached child list -/

/-- Modelled from the spec: `Is(classId)`, the test of the type tag of an object
against one class id; it is declared outside object.h. -/
def Is (h : Heap) (self : ObjId) (classId : ClassId) : Bool :=
  decide ((h self).m_classId = classId)

/-- Modelled from the spec: `Object::GetFirstAncestor`, whose body is in
object.cpp.  The header: "Return the first ancestor of the specified type. The
maxSteps parameter limits the search to a certain number of level if not -1."
An upward walk along the parent pointers; the fuel bounds its length. -/
def GetFirstAncestor (h : Heap) (classId : ClassId) :
    Nat → ObjId → Int → Except Fault (Option ObjId)
  | 0, _, _ => .error .outOfFuel
  | fuel + 1, self, maxSteps =>
    if maxSteps = 0 then .ok none
    else
      match (h self).m_parent with
      | none => .ok none
      | some p =>
        if (h p).m_classId = classId then .ok (some p)
        else GetFirstAncestor h classId fuel p (if maxSteps = -1 then -1 else maxSteps - 1)

/-- `RunningElement::FilterList` (runningelement.cpp).  The loop walks the list
and erases an element in two cases: a `REND` that has a `REND` ancestor
("remove nested rend elements"), and anything that is neither a `REND` nor a
`FIG` ("Also remove anything that is not a fig"); every other element is kept
in place. -/
def RunningElement.FilterList (E : ClassIds) (fuel : Nat) (h : Heap) :
    List ObjId → Except Fault (List ObjId)
  | [] => .ok []
  | x :: xs =>
    if Is h x E.REND then
      match GetFirstAncestor h E.REND fuel x (-1) with
      | .error e => .error e
      | .ok (some _) => RunningElement.FilterList E fuel h xs
      | .ok none =>
        match RunningElement.FilterList E fuel h xs with
        | .error e => .error e
        | .ok l => .ok (x :: l)
    else if !Is h x E.FIG then RunningElement.FilterList E fuel h xs
    else
      match RunningElement.FilterList E fuel h xs with
      | .error e => .error e
      | .ok l => .ok (x :: l)

/-- Modelled from the spec: the hook behind `Object::FillFlatList`
(`AddLayerElementToFlatList`, body in object.cpp), which appends the visited
object to the flat list. -/
def AddLayerElementToFlatList : Hook (List ObjId) :=
  fun list self => (.FUNCTOR_CONTINUE, list ++ [self])

/-- Modelled from the spec: `Object::FillFlatList`, whose body is in object.cpp:
the "full depth-first flattening" of the subtree of an object, obtained by
running the traversal with the hook that appends each object. -/
def FillFlatList (E : ClassIds) (h : Heap) (fuel : Nat) (self : ObjId) (list : List ObjId) :
    Except Fault (List ObjId) :=
  match Process E h AddLayerElementToFlatList none none FORWARD fuel UNLIMITED_DEPTH false
      self list with
  | .error e => .error e
  | .ok (_, l) => .ok l

/-- The member `m_list` of the `ObjectListInterface` part of each object, `none`
as long as no list has been built. -/
abbrev ListCache := ObjId → Option (List ObjId)

/-- Modelled from the spec: `ObjectListInterface::ResetList`, whose body is in
object.cpp: the rebuild step of section 4.4, "full depth-first flattening of
`node`'s subtree followed by the node-specific filter predicate, clear
`modified`, and cache".  `FilterList` is the virtual filter of the concrete
class. -/
def ResetList (E : ClassIds) (FilterList : Heap → List ObjId → Except Fault (List ObjId))
    (fuel : Nat) (h : Heap) (cache : ListCache) (node : ObjId) :
    Except Fault (List ObjId × Heap × ListCache) :=
  match FillFlatList E h fuel node [] with
  | .error e => .error e
  | .ok flat =>
    match FilterList h flat with
    | .error e => .error e
    | .ok l => .ok (l, h.setModified node false, Function.update cache node (some l))

/-- Modelled from the spec: `ObjectListInterface::GetList`, whose body is in
object.cpp, after section 4.4: "if `node.modified` is false and a cached list
exists, return it; otherwise rebuild".  The result is the list together with
the store and the cache after the call. -/
def GetList (E : ClassIds) (FilterList : Heap → List ObjId → Except Fault (List ObjId))
    (fuel : Nat) (h : Heap) (cache : ListCache) (node : ObjId) :
    Except Fault (List ObjId × Heap × ListCache) :=
  match (h node).m_isModified, cache node with
  | false, some l => .ok (l, h, cache)
  | _, _ => ResetList E FilterList fuel h cache node

/-- A running element 20 with two children: the rend 21, which holds the nested
rend 22 and the text 23, and the fig 24.  The class ids are those of
`classIdsExample`; the running element is marked modified. -/
def heapRunning : Heap := fun i =>
  match i with
  | 20 => { m_classId := 187, m_children := [21, 24], m_parent := none, m_isModified := true }
  | 21 => { m_classId := 203, m_children := [22, 23], m_parent := some 20,
            m_isModified := true }
  | 22 => { m_classId := 203, m_children := [], m_parent := some 21, m_isModified := true }
  | 23 => { m_classId := 201, m_children := [], m_parent := some 21, m_isModified := true }
  | 24 => { m_classId := 204, m_children := [], m_parent := some 20, m_isModified := true }
  | _ => { m_classId := 0, m_children := [], m_parent := none, m_isModified := false }

/-! ## Detaching and sorting children -/

/-- Modelled from the spec: `Object::DetachChild`, whose body is in object.cpp.
The header: "Detach the child at the idx position (NULL if not found). The
parent pointer is set to NULL."  Section 4.1: it "removes and returns ownership
of the child at `idx`, sets its `parent` to null; returns 'not found' if `idx`
out of range".  The result is the child, or `none`, and the store after the
call. -/
def DetachChild (h : Heap) (self : ObjId) (idx : Int) : Option ObjId × Heap :=
  if idx < 0 then (none, h)
  else
    match (h self).m_children[idx.toNat]? with
    | none => (none, h)
    | some child =>
      (some child,
        (ResetParent h child).setChildren self ((h self).m_children.eraseIdx idx.toNat))

/-- The call `std::stable_sort(first, last, comp)` of the standard library on a
sequence: a merge sort, in which an element goes before another unless `comp`
puts the other strictly first. -/
def stable_sort (l : List ObjId) (comp : ObjId → ObjId → Bool) : List ObjId :=
  l.mergeSort (fun a b => !comp b a)

/-- `Object::StableSort` (object.h):
`std::stable_sort(m_children.begin(), m_children.end(), comp);` -/
def StableSort (h : Heap) (self : ObjId) (comp : ObjId → ObjId → Bool) : Heap :=
  h.setChildren self (stable_sort (h self).m_children comp)

/-- Modelled from the spec: `Object::SortChildren`, declared in object.h as
`void SortChildren(binaryComp comp);` with its body in object.cpp.  Section 4.1:
it "stable-sorts the child sequence in place".  The declared return type is
`void`: the call yields the store and no value. -/
def SortChildren (h : Heap) (self : ObjId) (comp : ObjId → ObjId → Bool) : Unit × Heap :=
  ((), StableSort h self comp)

/-- A strict weak ordering, the requirement of the standard library on `comp`:
irreflexive, transitive, and with a transitive incomparability. -/
structure StrictWeakOrder (comp : ObjId → ObjId → Bool) : Prop where
  irrefl : ∀ a, comp a a = false
  trans : ∀ a b c, comp a b = true → comp b c = true → comp a c = true
  incomp_trans : ∀ a b c, comp a b = false → comp b a = false → comp b c = false →
    comp c b = false → comp a c = false ∧ comp c a = false

/-- The comparison of two objects by their class id. -/
def compClassId (h : Heap) : ObjId → ObjId → Bool :=
  fun a b => decide ((h a).m_classId < (h b).m_classId)

/-- A container 40 whose children 41, 42, 43, 44 carry the class ids 5, 3, 5, 3,
and a container 45 whose children 46, 47 are already in the order of their class
ids. -/
def heapSort : Heap := fun i =>
  match i with
  | 40 => { m_classId := 1, m_children := [41, 42, 43, 44], m_parent := none,
            m_isModified := false }
  | 41 => { m_classId := 5, m_children := [], m_parent := some 40, m_isModified := false }
  | 42 => { m_classId := 3, m_children := [], m_parent := some 40, m_isModified := false }
  | 43 => { m_classId := 5, m_children := [], m_parent := some 40, m_isModified := false }
  | 44 => { m_classId := 3, m_children := [], m_parent := some 40, m_isModified := false }
  | 45 => { m_classId := 1, m_children := [46, 47], m_parent := none, m_isModified := false }
  | 46 => { m_classId := 3, m_children := [], m_parent := some 45, m_isModified := false }
  | 47 => { m_classId := 5, m_children := [], m_parent := some 45, m_isModified := false }
  | _ => { m_classId := 0, m_children := [], m_parent := none, m_isModified := false }

/-! ## Construction registry -/

/-- The two registries of `ObjectFactory` (object.h): `s_ctorsRegistry`, from the
element name to the constructor function, and `s_classIdsRegistry`, from the
element name to the class id.  A constructor function yields the content of the
object it allocates. -/
structure ObjectFactory where
  s_ctorsRegistry : String → Option (Unit → Object)
  s_classIdsRegistry : String → Option ClassId

/-- The factory before any registration. -/
def ObjectFactory.empty : ObjectFactory :=
  { s_ctorsRegistry := fun _ => none, s_classIdsRegistry := fun _ => none }

/-- Modelled from the spec: `ObjectFactory::Register`, whose body is in
object.cpp.  The header: "Add the name / constructor map entry to the static
register"; section 4.5: the registry "maps an external type name string to (a) a
numeric type tag and (b) a zero-argument factory function". -/
def ObjectFactory.Register (f : ObjectFactory) (name : String) (classId : ClassId)
    (function : Unit → Object) : ObjectFactory :=
  { s_ctorsRegistry := Function.update f.s_ctorsRegistry name (some function),
    s_classIdsRegistry := Function.update f.s_classIdsRegistry name (some classId) }

/-- Modelled from the spec: `ObjectFactory::Create`, whose body is in object.cpp.
The header: "Create the object from the MEI element string name by making a
lookup in the register"; section 4.5: it "returns a newly allocated default node
of the named variant, or a 'not found' result for unknown names". -/
def ObjectFactory.Create (f : ObjectFactory) (name : String) : Option Object :=
  match f.s_ctorsRegistry name with
  | some function => some (function ())
  | none => none

/-- Modelled from the spec: `ObjectFactory::GetClassId`, whose body is in
object.cpp.  The header: "Get the ClassId from the MEI element string name by
making a lookup in the register". -/
def ObjectFactory.GetClassId (f : ObjectFactory) (name : String) : Option ClassId :=
  f.s_classIdsRegistry name

/-- The constructor of `ClassRegistrar<T>` (object.h):
`ObjectFactory::GetInstance()->Register(name, classId, [](void) -> Object * { return new T(); });`
where `construct` stands for `new T()`. -/
def ClassRegistrar (construct : Unit → Object) (name : String) (classId : ClassId)
    (f : ObjectFactory) : ObjectFactory :=
  f.Register name classId (fun _ => construct ())

/-- `Space::Space() : LayerElement(SPACE, "space-")` (space.cpp): the object is
built with the class id `SPACE`; a new object has no children and no parent.
The base constructors that store the class id are in files outside the sources
at hand. -/
def Space.new (E : ClassIds) : Unit → Object :=
  fun _ => { m_classId := E.SPACE, m_children := [], m_parent := none, m_isModified := true }

/-- `static const ClassRegistrar<Space> s_factory("space", SPACE);` (space.cpp) -/
def Space.s_factory (E : ClassIds) (f : ObjectFactory) : ObjectFactory :=
  ClassRegistrar (Space.new E) "space" E.SPACE f

/-- One static `ClassRegistrar<T>` object of the program: the name, the class id
and the default constructor of `T`. -/
structure Registration where
  name : String
  classId : ClassId
  construct : Unit → Object

/-- The registration made by `s_factory` of space.cpp, with the class ids of
`classIdsExample`. -/
def spaceRegistration : Registration :=
  { name := "space", classId := classIdsExample.SPACE, construct := Space.new classIdsExample }

/-- The factory after the registrars of a list have run, in order. -/
def registerAll (regs : List Registration) (f : ObjectFactory) : ObjectFactory :=
  regs.foldl (fun g r => ClassRegistrar r.construct r.name r.classId g) f

/-- Every registered name has a constructor that builds an object of the
registered class id. -/
def ObjectFactory.Consistent (f : ObjectFactory) : Prop :=
  ∀ name tag, f.s_classIdsRegistry name = some tag →
    ∃ c, f.s_ctorsRegistry name = some c ∧ (c ()).m_classId = tag

/-! ## The eight class families -/

/-- `Object::IsControlElement`:
`return ((m_classId > CONTROL_ELEMENT) && (m_classId < CONTROL_ELEMENT_max));` -/
def IsControlElement (E : ClassIds) (h : Heap) (self : ObjId) : Bool :=
  decide (E.CONTROL_ELEMENT < (h self).m_classId) &&
    decide ((h self).m_classId < E.CONTROL_ELEMENT_max)

/-- `Object::IsLayerElement`:
`return ((m_classId > LAYER_ELEMENT) && (m_classId < LAYER_ELEMENT_max));` -/
def IsLayerElement (E : ClassIds) (h : Heap) (self : ObjId) : Bool :=
  decide (E.LAYER_ELEMENT < (h self).m_classId) &&
    decide ((h self).m_classId < E.LAYER_ELEMENT_max)

/-- `Object::IsPageElement`:
`return ((m_classId > PAGE_ELEMENT) && (m_classId < PAGE_ELEMENT_max));` -/
def IsPageElement (E : ClassIds) (h : Heap) (self : ObjId) : Bool :=
  decide (E.PAGE_ELEMENT < (h self).m_classId) &&
    decide ((h self).m_classId < E.PAGE_ELEMENT_max)

/-- `Object::IsRunningElement`:
`return ((m_classId > RUNNING_ELEMENT) && (m_classId < RUNNING_ELEMENT_max));` -/
def IsRunningElement (E : ClassIds) (h : Heap) (self : ObjId) : Bool :=
  decide (E.RUNNING_ELEMENT < (h self).m_classId) &&
    decide ((h self).m_classId < E.RUNNING_ELEMENT_max)

/-- `Object::IsScoreDefElement`:
`return ((m_classId > SCOREDEF_ELEMENT) && (m_classId < SCOREDEF_ELEMENT_max));` -/
def IsScoreDefElement (E : ClassIds) (h : Heap) (self : ObjId) : Bool :=
  decide (E.SCOREDEF_ELEMENT < (h self).m_classId) &&
    decide ((h self).m_classId < E.SCOREDEF_ELEMENT_max)

/-- `Object::IsSystemElement`:
`return ((m_classId > SYSTEM_ELEMENT) && (m_classId < SYSTEM_ELEMENT_max));` -/
def IsSystemElement (E : ClassIds) (h : Heap) (self : ObjId) : Bool :=
  decide (E.SYSTEM_ELEMENT < (h self).m_classId) &&
    decide ((h self).m_classId < E.SYSTEM_ELEMENT_max)

/-- `Object::IsTextElement`:
`return ((m_classId > TEXT_ELEMENT) && (m_classId < TEXT_ELEMENT_max));` -/
def IsTextElement (E : ClassIds) (h : Heap) (self : ObjId) : Bool :=
  decide (E.TEXT_ELEMENT < (h self).m_classId) &&
    decide ((h self).m_classId < E.TEXT_ELEMENT_max)

/-- The eight groups of class ids that object.h tests for. -/
inductive Family where
  | control
  | editorial
  | layer
  | page
  | running
  | scoreDef
  | system
  | text
  deriving DecidableEq, Repr

/-- The base tag of a family, such as `LAYER_ELEMENT`. -/
def Family.base (E : ClassIds) : Family → ClassId
  | .control => E.CONTROL_ELEMENT
  | .editorial => E.EDITORIAL_ELEMENT
  | .layer => E.LAYER_ELEMENT
  | .page => E.PAGE_ELEMENT
  | .running => E.RUNNING_ELEMENT
  | .scoreDef => E.SCOREDEF_ELEMENT
  | .system => E.SYSTEM_ELEMENT
  | .text => E.TEXT_ELEMENT

/-- The closing tag of a family, such as `LAYER_ELEMENT_max`. -/
def Family.max (E : ClassIds) : Family → ClassId
  | .control => E.CONTROL_ELEMENT_max
  | .editorial => E.EDITORIAL_ELEMENT_max
  | .layer => E.LAYER_ELEMENT_max
  | .page => E.PAGE_ELEMENT_max
  | .running => E.RUNNING_ELEMENT_max
  | .scoreDef => E.SCOREDEF_ELEMENT_max
  | .system => E.SYSTEM_ELEMENT_max
  | .text => E.TEXT_ELEMENT_max

/-- The membership test of object.h that belongs to a family. -/
def Family.test (E : ClassIds) (h : Heap) (self : ObjId) : Family → Bool
  | .control => IsControlElement E h self
  | .editorial => IsEditorialElement E h self
  | .layer => IsLayerElement E h self
  | .page => IsPageElement E h self
  | .running => IsRunningElement E h self
  | .scoreDef => IsScoreDefElement E h self
  | .system => IsSystemElement E h self
  | .text => IsTextElement E h self

/-- A store in which the object 50 carries the tag `LAYER_ELEMENT` (120) of
`classIdsExample`, 51 the tag of a layer element (150), 52 the tag
`LAYER_ELEMENT_max` (170) and 53 again the tag 150. -/
def heapFamily : Heap := fun i =>
  match i with
  | 50 => { m_classId := 120, m_children := [], m_parent := none, m_isModified := false }
  | 51 => { m_classId := 150, m_children := [], m_parent := none, m_isModified := false }
  | 52 => { m_classId := 170, m_children := [], m_parent := none, m_isModified := false }
  | 53 => { m_classId := 150, m_children := [50], m_parent := some 51, m_isModified := true }
  | _ => { m_classId := 0, m_children := [], m_parent := none, m_isModified := false }

/-! ## Saving a running element -/

/-- `RunningElement::Save` (runningelement.cpp):
```
if (this->IsGenerated()) { return FUNCTOR_SIBLINGS; }
else { return Object::Save(functorParams); }
```
`isGenerated` is the value of `this->IsGenerated()`, and `ObjectSave` is the base
`Object::Save` on this object, which acts on the parameter block. -/
def RunningElement.Save {σ : Type} (isGenerated : Bool) (ObjectSave : σ → FunctorCode × σ)
    (functorParams : σ) : FunctorCode × σ :=
  if isGenerated then (.FUNCTOR_SIBLINGS, functorParams) else ObjectSave functorParams

/-- `RunningElement::SaveEnd` (runningelement.cpp):
```
if (this->IsGenerated()) { return FUNCTOR_SIBLINGS; }
else { return Object::SaveEnd(functorParams); }
```
-/
def RunningElement.SaveEnd {σ : Type} (isGenerated : Bool)
    (ObjectSaveEnd : σ → FunctorCode × σ) (functorParams : σ) : FunctorCode × σ :=
  if isGenerated then (.FUNCTOR_SIBLINGS, functorParams) else ObjectSaveEnd functorParams

/-- A stand-in for the base `Object::Save`: it counts the objects written. -/
def countingSave : Nat → FunctorCode × Nat := fun n => (.FUNCTOR_CONTINUE, n + 1)

/-- What `RunningElement::FilterList` is to keep: a `REND` none of whose ancestors
is a `REND`, or a `FIG`. -/
def RunningElement.Keeps (E : ClassIds) (h : Heap) (x : ObjId) : Prop :=
  ((h x).m_classId = E.REND ∧
      ∀ k a, 0 < k → ancestorAt h k x = some a → (h a).m_classId ≠ E.REND) ∨
    (h x).m_classId = E.FIG

/-! ## The functor hooks of the base object -/

/-- The functor hooks that object.h declares on `Object`, by name, in the order of
the header. -/
inductive ObjectFunctor where
  | AddLayerElementToFlatList
  | InitProcessingLists
  | FindByID
  | FindByComparison
  | FindNextChildByComparison
  | FindPreviousChildByComparison
  | FindExtremeByComparison
  | FindAllByComparison
  | FindAllConstByComparison
  | FindAllBetween
  | FindAllConstBetween
  | FindAllReferencedObjects
  | LayerCountInTimeSpan
  | LayerElementsInTimeSpan
  | FindSpannedLayerElements
  | FindElementInLayerStaffDefsByID
  | GetAlignmentLeftRight
  | GetRelativeLayerElement
  | ConvertToPageBased
  | ConvertToPageBasedEnd
  | ConvertToCastOffMensural
  | ConvertToUnCastOffMensural
  | ConvertMarkupAnalytical
  | ConvertMarkupAnalyticalEnd
  | ConvertMarkupArtic
  | ConvertMarkupArticEnd
  | ConvertMarkupScoreDef
  | ConvertMarkupScoreDefEnd
  | Save
  | SaveEnd
  | ResetHorizontalAlignment
  | AlignHorizontally
  | AlignHorizontallyEnd
  | AlignMeasures
  | AlignMeasuresEnd
  | CalcAlignmentXPos
  | CalcAlignmentPitchPos
  | CalcStem
  | CalcChordNoteHeads
  | CalcDots
  | CalcSpanningBeamSpans
  | CalcSlurDirection
  | AdjustArpeg
  | AdjustArpegEnd
  | AdjustClefChanges
  | AdjustDots
  | AdjustDotsEnd
  | AdjustLayers
  | AdjustLayersEnd
  | AdjustGraceXPos
  | AdjustGraceXPosEnd
  | AdjustHarmGrpsSpacing
  | AdjustHarmGrpsSpacingEnd
  | AdjustAccidX
  | AdjustTempo
  | AdjustXOverflow
  | AdjustXOverflowEnd
  | AdjustXPos
  | AdjustXPosEnd
  | AdjustSylSpacing
  | AdjustSylSpacingEnd
  | AdjustTupletsX
  | CacheHorizontalLayout
  | ResetVerticalAlignment
  | AlignVertically
  | AlignVerticallyEnd
  | CalcLigatureNotePos
  | CalcLedgerLines
  | CalcLedgerLinesEnd
  | CalcArtic
  | AdjustBeams
  | AdjustBeamsEnd
  | AdjustSlurs
  | AdjustArtic
  | AdjustArticWithSlurs
  | AdjustCrossStaffYPos
  | AdjustFloatingPositioners
  | AdjustFloatingPositionersBetween
  | AdjustFloatingPositionerGrps
  | AdjustStaffOverlap
  | AdjustTupletsY
  | AdjustTupletNumOverlap
  | AdjustYPos
  | AdjustXRelForTranscription
  | CalcBBoxOverflows
  | CalcBBoxOverflowsEnd
  | AlignSystems
  | AlignSystemsEnd
  | ApplyPPUFactor
  | ReplaceDrawingValuesInStaffDef
  | ScoreDefSetCurrentPage
  | ScoreDefSetCurrentPageEnd
  | ScoreDefSetCurrent
  | ScoreDefOptimize
  | ScoreDefOptimizeEnd
  | SetCautionaryScoreDef
  | ScoreDefUnsetCurrent
  | SetStaffDefRedrawFlags
  | PrepareDataInitialization
  | PrepareCueSize
  | PrepareCrossStaff
  | PrepareCrossStaffEnd
  | ScoreDefSetGrpSym
  | PrepareAltSym
  | PrepareFacsimile
  | PrepareLinking
  | PreparePlist
  | PrepareProcessPlist
  | PrepareDuration
  | PrepareTimePointing
  | PrepareTimePointingEnd
  | PrepareTimeSpanning
  | PrepareTimeSpanningEnd
  | PrepareTimestamps
  | PrepareTimestampsEnd
  | PreparePointersByLayer
  | PrepareLyrics
  | PrepareLyricsEnd
  | PrepareLayerElementParts
  | PrepareRpt
  | PrepareDelayedTurns
  | PrepareMilestones
  | PrepareFloatingGrps
  | PrepareFloatingGrpsEnd
  | PrepareStaffCurrentTimeSpanning
  | PrepareStaffCurrentTimeSpanningEnd
  | PrepareRehPosition
  | PrepareBeamSpanElements
  | ResetData
  | JustifyX
  | JustifyY
  | JustifyYAdjustCrossStaff
  | CastOffSystems
  | CastOffSystemsEnd
  | CastOffPages
  | CastOffPagesEnd
  | CastOffEncoding
  | UnCastOff
  | CastOffToSelection
  | InitOnsetOffset
  | InitOnsetOffsetEnd
  | InitMaxMeasureDuration
  | InitMaxMeasureDurationEnd
  | InitTimemapTies
  | InitMIDI
  | GenerateMIDI
  | GenerateMIDIEnd
  | GenerateTimemap
  | GenerateFeatures
  | ReorderByXPos
  | Transpose
  | TransposeEnd
  deriving DecidableEq, Repr

/-- A functor hook of the mutable traversal: called on an object with the
parameter block of its pass, it returns a code and may change both the store
and the parameter block. -/
abbrev ObjectHook (σ : Type) := Heap → σ → ObjId → FunctorCode × Heap × σ

/-- Whether object.h gives the body of the hook inline, as
`{ return FUNCTOR_CONTINUE; }`; the other hooks are declared there and
implemented in object.cpp. -/
def ObjectFunctor.hasInlineBody : ObjectFunctor → Bool
  | .AddLayerElementToFlatList => false
  | .FindByID => false
  | .FindByComparison => false
  | .FindNextChildByComparison => false
  | .FindPreviousChildByComparison => false
  | .FindExtremeByComparison => false
  | .FindAllByComparison => false
  | .FindAllConstByComparison => false
  | .FindAllBetween => false
  | .FindAllConstBetween => false
  | .FindAllReferencedObjects => false
  | .GetAlignmentLeftRight => false
  | .ConvertToCastOffMensural => false
  | .Save => false
  | .SaveEnd => false
  | .CalcBBoxOverflows => false
  | .CalcBBoxOverflowsEnd => false
  | .ScoreDefSetCurrent => false
  | .SetCautionaryScoreDef => false
  | .PrepareAltSym => false
  | .PrepareFacsimile => false
  | .PrepareLinking => false
  | .PreparePlist => false
  | .PrepareProcessPlist => false
  | .GenerateFeatures => false
  | .ReorderByXPos => false
  | _ => true

/-- The hooks of the base `Object` as object.h gives them.  A hook with the
inline body `{ return FUNCTOR_CONTINUE; }` returns that code and touches neither
the store nor the parameter block.  A hook that is only declared there has its
body in object.cpp; its behaviour is taken from `outOfLine`. -/
def Object.functor {σ : Type} (outOfLine : ObjectFunctor → ObjectHook σ) :
    ObjectFunctor → ObjectHook σ
  | .AddLayerElementToFlatList => outOfLine .AddLayerElementToFlatList
  | .InitProcessingLists => fun h functorParams _ => (.FUNCTOR_CONTINUE, h, functorParams)
  | .FindByID => outOfLine .FindByID
  | .FindByComparison => outOfLine .FindByComparison
  | .FindNextChildByComparison => outOfLine .FindNextChildByComparison
  | .FindPreviousChildByComparison => outOfLine .FindPreviousChildByComparison
  | .FindExtremeByComparison => outOfLine .FindExtremeByComparison
  | .FindAllByComparison => outOfLine .FindAllByComparison
  | .FindAllConstByComparison => outOfLine .FindAllConstByComparison
  | .FindAllBetween => outOfLine .FindAllBetween
  | .FindAllConstBetween => outOfLine .FindAllConstBetween
  | .FindAllReferencedObjects => outOfLine .FindAllReferencedObjects
  | .LayerCountInTimeSpan => fun h functorParams _ => (.FUNCTOR_CONTINUE, h, functorParams)
  | .LayerElementsInTimeSpan => fun h functorParams _ => (.FUNCTOR_CONTINUE, h, functorParams)
  | .FindSpannedLayerElements => fun h functorParams _ => (.FUNCTOR_CONTINUE, h, functorParams)
  | .FindElementInLayerStaffDefsByID => fun h functorParams _ => (.FUNCTOR_CONTINUE, h, functorParams)
  | .GetAlignmentLeftRight => outOfLine .GetAlignmentLeftRight
  | .GetRelativeLayerElement => fun h functorParams _ => (.FUNCTOR_CONTINUE, h, functorParams)
  | .ConvertToPageBased => fun h functorParams _ => (.FUNCTOR_CONTINUE, h, functorParams)
  | .ConvertToPageBasedEnd => fun h functorParams _ => (.FUNCTOR_CONTINUE, h, functorParams)
  | .ConvertToCastOffMensural => outOfLine .ConvertToCastOffMensural
  | .ConvertToUnCastOffMensural => fun h functorParams _ => (.FUNCTOR_CONTINUE, h, functorParams)
  | .ConvertMarkupAnalytical => fun h functorParams _ => (.FUNCTOR_CONTINUE, h, functorParams)
  | .ConvertMarkupAnalyticalEnd => fun h functorParams _ => (.FUNCTOR_CONTINUE, h, functorParams)
  | .ConvertMarkupArtic => fun h functorParams _ => (.FUNCTOR_CONTINUE, h, functorParams)
  | .ConvertMarkupArticEnd => fun h functorParams _ => (.FUNCTOR_CONTINUE, h, functorParams)
  | .ConvertMarkupScoreDef => fun h functorParams _ => (.FUNCTOR_CONTINUE, h, functorParams)
  | .ConvertMarkupScoreDefEnd => fun h functorParams _ => (.FUNCTOR_CONTINUE, h, functorParams)
  | .Save => outOfLine .Save
  | .SaveEnd => outOfLine .SaveEnd
  | .ResetHorizontalAlignment => fun h functorParams _ => (.FUNCTOR_CONTINUE, h, functorParams)
  | .AlignHorizontally => fun h functorParams _ => (.FUNCTOR_CONTINUE, h, functorParams)
  | .AlignHorizontallyEnd => fun h functorParams _ => (.FUNCTOR_CONTINUE, h, functorParams)
  | .AlignMeasures => fun h functorParams _ => (.FUNCTOR_CONTINUE, h, functorParams)
  | .AlignMeasuresEnd => fun h functorParams _ => (.FUNCTOR_CONTINUE, h, functorParams)
  | .CalcAlignmentXPos => fun h functorParams _ => (.FUNCTOR_CONTINUE, h, functorParams)
  | .CalcAlignmentPitchPos => fun h functorParams _ => (.FUNCTOR_CONTINUE, h, functorParams)
  | .CalcStem => fun h functorParams _ => (.FUNCTOR_CONTINUE, h, functorParams)
  | .CalcChordNoteHeads => fun h functorParams _ => (.FUNCTOR_CONTINUE, h, functorParams)
  | .CalcDots => fun h functorParams _ => (.FUNCTOR_CONTINUE, h, functorParams)
  | .CalcSpanningBeamSpans => fun h functorParams _ => (.FUNCTOR_CONTINUE, h, functorParams)
  | .CalcSlurDirection => fun h functorParams _ => (.FUNCTOR_CONTINUE, h, functorParams)
  | .AdjustArpeg => fun h functorParams _ => (.FUNCTOR_CONTINUE, h, functorParams)
  | .AdjustArpegEnd => fun h functorParams _ => (.FUNCTOR_CONTINUE, h, functorParams)
  | .AdjustClefChanges => fun h functorParams _ => (.FUNCTOR_CONTINUE, h, functorParams)
  | .AdjustDots => fun h functorParams _ => (.FUNCTOR_CONTINUE, h, functorParams)
  | .AdjustDotsEnd => fun h functorParams _ => (.FUNCTOR_CONTINUE, h, functorParams)
  | .AdjustLayers => fun h functorParams _ => (.FUNCTOR_CONTINUE, h, functorParams)
  | .AdjustLayersEnd => fun h functorParams _ => (.FUNCTOR_CONTINUE, h, functorParams)
  | .AdjustGraceXPos => fun h functorParams _ => (.FUNCTOR_CONTINUE, h, functorParams)
  | .AdjustGraceXPosEnd => fun h functorParams _ => (.FUNCTOR_CONTINUE, h, functorParams)
  | .AdjustHarmGrpsSpacing => fun h functorParams _ => (.FUNCTOR_CONTINUE, h, functorParams)
  | .AdjustHarmGrpsSpacingEnd => fun h functorParams _ => (.FUNCTOR_CONTINUE, h, functorParams)
  | .AdjustAccidX => fun h functorParams _ => (.FUNCTOR_CONTINUE, h, functorParams)
  | .AdjustTempo => fun h functorParams _ => (.FUNCTOR_CONTINUE, h, functorParams)
  | .AdjustXOverflow => fun h functorParams _ => (.FUNCTOR_CONTINUE, h, functorParams)
  | .AdjustXOverflowEnd => fun h functorParams _ => (.FUNCTOR_CONTINUE, h, functorParams)
  | .AdjustXPos => fun h functorParams _ => (.FUNCTOR_CONTINUE, h, functorParams)
  | .AdjustXPosEnd => fun h functorParams _ => (.FUNCTOR_CONTINUE, h, functorParams)
  | .AdjustSylSpacing => fun h functorParams _ => (.FUNCTOR_CONTINUE, h, functorParams)
  | .AdjustSylSpacingEnd => fun h functorParams _ => (.FUNCTOR_CONTINUE, h, functorParams)
  | .AdjustTupletsX => fun h functorParams _ => (.FUNCTOR_CONTINUE, h, functorParams)
  | .CacheHorizontalLayout => fun h functorParams _ => (.FUNCTOR_CONTINUE, h, functorParams)
  | .ResetVerticalAlignment => fun h functorParams _ => (.FUNCTOR_CONTINUE, h, functorParams)
  | .AlignVertically => fun h functorParams _ => (.FUNCTOR_CONTINUE, h, functorParams)
  | .AlignVerticallyEnd => fun h functorParams _ => (.FUNCTOR_CONTINUE, h, functorParams)
  | .CalcLigatureNotePos => fun h functorParams _ => (.FUNCTOR_CONTINUE, h, functorParams)
  | .CalcLedgerLines => fun h functorParams _ => (.FUNCTOR_CONTINUE, h, functorParams)
  | .CalcLedgerLinesEnd => fun h functorParams _ => (.FUNCTOR_CONTINUE, h, functorParams)
  | .CalcArtic => fun h functorParams _ => (.FUNCTOR_CONTINUE, h, functorParams)
  | .AdjustBeams => fun h functorParams _ => (.FUNCTOR_CONTINUE, h, functorParams)
  | .AdjustBeamsEnd => fun h functorParams _ => (.FUNCTOR_CONTINUE, h, functorParams)
  | .AdjustSlurs => fun h functorParams _ => (.FUNCTOR_CONTINUE, h, functorParams)
  | .AdjustArtic => fun h functorParams _ => (.FUNCTOR_CONTINUE, h, functorParams)
  | .AdjustArticWithSlurs => fun h functorParams _ => (.FUNCTOR_CONTINUE, h, functorParams)
  | .AdjustCrossStaffYPos => fun h functorParams _ => (.FUNCTOR_CONTINUE, h, functorParams)
  | .AdjustFloatingPositioners => fun h functorParams _ => (.FUNCTOR_CONTINUE, h, functorParams)
  | .AdjustFloatingPositionersBetween => fun h functorParams _ => (.FUNCTOR_CONTINUE, h, functorParams)
  | .AdjustFloatingPositionerGrps => fun h functorParams _ => (.FUNCTOR_CONTINUE, h, functorParams)
  | .AdjustStaffOverlap => fun h functorParams _ => (.FUNCTOR_CONTINUE, h, functorParams)
  | .AdjustTupletsY => fun h functorParams _ => (.FUNCTOR_CONTINUE, h, functorParams)
  | .AdjustTupletNumOverlap => fun h functorParams _ => (.FUNCTOR_CONTINUE, h, functorParams)
  | .AdjustYPos => fun h functorParams _ => (.FUNCTOR_CONTINUE, h, functorParams)
  | .AdjustXRelForTranscription => fun h functorParams _ => (.FUNCTOR_CONTINUE, h, functorParams)
  | .CalcBBoxOverflows => outOfLine .CalcBBoxOverflows
  | .CalcBBoxOverflowsEnd => outOfLine .CalcBBoxOverflowsEnd
  | .AlignSystems => fun h functorParams _ => (.FUNCTOR_CONTINUE, h, functorParams)
  | .AlignSystemsEnd => fun h functorParams _ => (.FUNCTOR_CONTINUE, h, functorParams)
  | .ApplyPPUFactor => fun h functorParams _ => (.FUNCTOR_CONTINUE, h, functorParams)
  | .ReplaceDrawingValuesInStaffDef => fun h functorParams _ => (.FUNCTOR_CONTINUE, h, functorParams)
  | .ScoreDefSetCurrentPage => fun h functorParams _ => (.FUNCTOR_CONTINUE, h, functorParams)
  | .ScoreDefSetCurrentPageEnd => fun h functorParams _ => (.FUNCTOR_CONTINUE, h, functorParams)
  | .ScoreDefSetCurrent => outOfLine .ScoreDefSetCurrent
  | .ScoreDefOptimize => fun h functorParams _ => (.FUNCTOR_CONTINUE, h, functorParams)
  | .ScoreDefOptimizeEnd => fun h functorParams _ => (.FUNCTOR_CONTINUE, h, functorParams)
  | .SetCautionaryScoreDef => outOfLine .SetCautionaryScoreDef
  | .ScoreDefUnsetCurrent => fun h functorParams _ => (.FUNCTOR_CONTINUE, h, functorParams)
  | .SetStaffDefRedrawFlags => fun h functorParams _ => (.FUNCTOR_CONTINUE, h, functorParams)
  | .PrepareDataInitialization => fun h functorParams _ => (.FUNCTOR_CONTINUE, h, functorParams)
  | .PrepareCueSize => fun h functorParams _ => (.FUNCTOR_CONTINUE, h, functorParams)
  | .PrepareCrossStaff => fun h functorParams _ => (.FUNCTOR_CONTINUE, h, functorParams)
  | .PrepareCrossStaffEnd => fun h functorParams _ => (.FUNCTOR_CONTINUE, h, functorParams)
  | .ScoreDefSetGrpSym => fun h functorParams _ => (.FUNCTOR_CONTINUE, h, functorParams)
  | .PrepareAltSym => outOfLine .PrepareAltSym
  | .PrepareFacsimile => outOfLine .PrepareFacsimile
  | .PrepareLinking => outOfLine .PrepareLinking
  | .PreparePlist => outOfLine .PreparePlist
  | .PrepareProcessPlist => outOfLine .PrepareProcessPlist
  | .PrepareDuration => fun h functorParams _ => (.FUNCTOR_CONTINUE, h, functorParams)
  | .PrepareTimePointing => fun h functorParams _ => (.FUNCTOR_CONTINUE, h, functorParams)
  | .PrepareTimePointingEnd => fun h functorParams _ => (.FUNCTOR_CONTINUE, h, functorParams)
  | .PrepareTimeSpanning => fun h functorParams _ => (.FUNCTOR_CONTINUE, h, functorParams)
  | .PrepareTimeSpanningEnd => fun h functorParams _ => (.FUNCTOR_CONTINUE, h, functorParams)
  | .PrepareTimestamps => fun h functorParams _ => (.FUNCTOR_CONTINUE, h, functorParams)
  | .PrepareTimestampsEnd => fun h functorParams _ => (.FUNCTOR_CONTINUE, h, functorParams)
  | .PreparePointersByLayer => fun h functorParams _ => (.FUNCTOR_CONTINUE, h, functorParams)
  | .PrepareLyrics => fun h functorParams _ => (.FUNCTOR_CONTINUE, h, functorParams)
  | .PrepareLyricsEnd => fun h functorParams _ => (.FUNCTOR_CONTINUE, h, functorParams)
  | .PrepareLayerElementParts => fun h functorParams _ => (.FUNCTOR_CONTINUE, h, functorParams)
  | .PrepareRpt => fun h functorParams _ => (.FUNCTOR_CONTINUE, h, functorParams)
  | .PrepareDelayedTurns => fun h functorParams _ => (.FUNCTOR_CONTINUE, h, functorParams)
  | .PrepareMilestones => fun h functorParams _ => (.FUNCTOR_CONTINUE, h, functorParams)
  | .PrepareFloatingGrps => fun h functorParams _ => (.FUNCTOR_CONTINUE, h, functorParams)
  | .PrepareFloatingGrpsEnd => fun h functorParams _ => (.FUNCTOR_CONTINUE, h, functorParams)
  | .PrepareStaffCurrentTimeSpanning => fun h functorParams _ => (.FUNCTOR_CONTINUE, h, functorParams)
  | .PrepareStaffCurrentTimeSpanningEnd => fun h functorParams _ => (.FUNCTOR_CONTINUE, h, functorParams)
  | .PrepareRehPosition => fun h functorParams _ => (.FUNCTOR_CONTINUE, h, functorParams)
  | .PrepareBeamSpanElements => fun h functorParams _ => (.FUNCTOR_CONTINUE, h, functorParams)
  | .ResetData => fun h functorParams _ => (.FUNCTOR_CONTINUE, h, functorParams)
  | .JustifyX => fun h functorParams _ => (.FUNCTOR_CONTINUE, h, functorParams)
  | .JustifyY => fun h functorParams _ => (.FUNCTOR_CONTINUE, h, functorParams)
  | .JustifyYAdjustCrossStaff => fun h functorParams _ => (.FUNCTOR_CONTINUE, h, functorParams)
  | .CastOffSystems => fun h functorParams _ => (.FUNCTOR_CONTINUE, h, functorParams)
  | .CastOffSystemsEnd => fun h functorParams _ => (.FUNCTOR_CONTINUE, h, functorParams)
  | .CastOffPages => fun h functorParams _ => (.FUNCTOR_CONTINUE, h, functorParams)
  | .CastOffPagesEnd => fun h functorParams _ => (.FUNCTOR_CONTINUE, h, functorParams)
  | .CastOffEncoding => fun h functorParams _ => (.FUNCTOR_CONTINUE, h, functorParams)
  | .UnCastOff => fun h functorParams _ => (.FUNCTOR_CONTINUE, h, functorParams)
  | .CastOffToSelection => fun h functorParams _ => (.FUNCTOR_CONTINUE, h, functorParams)
  | .InitOnsetOffset => fun h functorParams _ => (.FUNCTOR_CONTINUE, h, functorParams)
  | .InitOnsetOffsetEnd => fun h functorParams _ => (.FUNCTOR_CONTINUE, h, functorParams)
  | .InitMaxMeasureDuration => fun h functorParams _ => (.FUNCTOR_CONTINUE, h, functorParams)
  | .InitMaxMeasureDurationEnd => fun h functorParams _ => (.FUNCTOR_CONTINUE, h, functorParams)
  | .InitTimemapTies => fun h functorParams _ => (.FUNCTOR_CONTINUE, h, functorParams)
  | .InitMIDI => fun h functorParams _ => (.FUNCTOR_CONTINUE, h, functorParams)
  | .GenerateMIDI => fun h functorParams _ => (.FUNCTOR_CONTINUE, h, functorParams)
  | .GenerateMIDIEnd => fun h functorParams _ => (.FUNCTOR_CONTINUE, h, functorParams)
  | .GenerateTimemap => fun h functorParams _ => (.FUNCTOR_CONTINUE, h, functorParams)
  | .GenerateFeatures => outOfLine .GenerateFeatures
  | .ReorderByXPos => outOfLine .ReorderByXPos
  | .Transpose => fun h functorParams _ => (.FUNCTOR_CONTINUE, h, functorParams)
  | .TransposeEnd => fun h functorParams _ => (.FUNCTOR_CONTINUE, h, functorParams)

/-- The out-of-line hooks for a range search up to the object `last`: the hook
`FindAllBetween` as modelled above, which leaves the store alone; every other
out-of-line hook is left inert. -/
def rangeSearchHooks (last : ObjId) : ObjectFunctor → ObjectHook FindAllBetweenParams
  | .FindAllBetween => fun h params self =>
    ((FindAllBetween (fun _ => true) last params self).1, h,
      (FindAllBetween (fun _ => true) last params self).2)
  | _ => fun h params _ => (.FUNCTOR_CONTINUE, h, params)

/-! ## Running element: supported children and the grid of cells -/

/-- `RunningElement::IsSupportedChild` (runningelement.cpp):
```
if (child->IsTextElement()) { assert(dynamic_cast<TextElement *>(child)); }
else if (child->IsEditorialElement()) { assert(dynamic_cast<EditorialElement *>(child)); }
else { return false; }
return true;
```
The two predicates stand for the dynamic casts: whether the object is a
`TextElement`, an `EditorialElement`, in its C++ type. -/
def RunningElement.IsSupportedChild (E : ClassIds) (isTextElementType : ObjId → Bool)
    (isEditorialElementType : ObjId → Bool) (h : Heap) (child : ObjId) : Except Fault Bool :=
  if IsTextElement E h child then
    if isTextElementType child then .ok true else .error .assertFailed
  else if IsEditorialElement E h child then
    if isEditorialElementType child then .ok true else .error .assertFailed
  else .ok false

/-- The values of the data type `data_HORIZONTALALIGNMENT`, `NONE` for an unset
attribute.  The type is declared in the attribute definitions, outside the
sources at hand. -/
inductive data_HORIZONTALALIGNMENT where
  | HORIZONTALALIGNMENT_NONE
  | HORIZONTALALIGNMENT_left
  | HORIZONTALALIGNMENT_right
  | HORIZONTALALIGNMENT_center
  | HORIZONTALALIGNMENT_justify
  deriving DecidableEq, Repr

/-- The values of the data type `data_VERTICALALIGNMENT`, `NONE` for an unset
attribute.  The type is declared in the attribute definitions, outside the
sources at hand. -/
inductive data_VERTICALALIGNMENT where
  | VERTICALALIGNMENT_NONE
  | VERTICALALIGNMENT_top
  | VERTICALALIGNMENT_middle
  | VERTICALALIGNMENT_bottom
  | VERTICALALIGNMENT_baseline
  deriving DecidableEq, Repr

/-- The position constants used by `GetAlignmentPos`.  They are declared in
runningelement.h; their values are taken as a parameter. -/
structure Positions where
  POSITION_LEFT : Int
  POSITION_CENTER : Int
  POSITION_RIGHT : Int
  POSITION_MIDDLE : Int
  POSITION_BOTTOM : Int

/-- The constants are the offsets of the three by three grid of cells that
`GetRowHeight` and `GetColHeight` walk as `row * 3 + i` and `i * 3 + col`:
columns 0, 1, 2 and rows starting at 0, 3, 6. -/
def Positions.IsGrid (P : Positions) : Prop :=
  P.POSITION_LEFT = 0 ∧ P.POSITION_CENTER = 1 ∧ P.POSITION_RIGHT = 2 ∧
    P.POSITION_MIDDLE = 3 ∧ P.POSITION_BOTTOM = 6

/-- The grid offsets as a table of constants. -/
def positionsGrid : Positions :=
  { POSITION_LEFT := 0, POSITION_CENTER := 1, POSITION_RIGHT := 2,
    POSITION_MIDDLE := 3, POSITION_BOTTOM := 6 }

/-- `RunningElement::GetAlignmentPos` (runningelement.cpp):
```
int pos = 0;
switch (h) {
    case (HORIZONTALALIGNMENT_left): break;
    case (HORIZONTALALIGNMENT_center): pos += POSITION_CENTER; break;
    case (HORIZONTALALIGNMENT_right): pos += POSITION_RIGHT; break;
    default: pos += POSITION_LEFT; break;
}
switch (v) {
    case (VERTICALALIGNMENT_top): break;
    case (VERTICALALIGNMENT_middle): pos += POSITION_MIDDLE; break;
    case (VERTICALALIGNMENT_bottom): pos += POSITION_BOTTOM; break;
    default: pos += POSITION_MIDDLE; break;
}
return pos;
```
-/
def RunningElement.GetAlignmentPos (P : Positions) (h : data_HORIZONTALALIGNMENT)
    (v : data_VERTICALALIGNMENT) : Int :=
  let pos : Int := 0
  let pos :=
    match h with
    | .HORIZONTALALIGNMENT_left => pos
    | .HORIZONTALALIGNMENT_center => pos + P.POSITION_CENTER
    | .HORIZONTALALIGNMENT_right => pos + P.POSITION_RIGHT
    | _ => pos + P.POSITION_LEFT
  match v with
  | .VERTICALALIGNMENT_top => pos
  | .VERTICALALIGNMENT_middle => pos + P.POSITION_MIDDLE
  | .VERTICALALIGNMENT_bottom => pos + P.POSITION_BOTTOM
  | _ => pos + P.POSITION_MIDDLE

/-- The value of type `int` that an arithmetic operation stores for the exact
result `x`: `int` has 32 bits and the result wraps around modulo 2^32 into the
range from -2^31 to 2^31 - 1. -/
def wrapInt (x : Int) : Int := (x + 2147483648) % 4294967296 - 2147483648

/-- The exact value `x` lies in the range of `int`. -/
def InInt (x : Int) : Prop := -2147483648 ≤ x ∧ x ≤ 2147483647

/-- The content bounding box of a text element as the running element reads it:
`HasContentBB()`, `GetContentX1()`, `GetContentX2()`, `GetContentY1()` and
`GetContentY2()`.  The accessors belong to the bounding box class, outside the
sources at hand; their values are taken as given and are not changed by the
methods of the running element. -/
structure ContentBB where
  HasContentBB : Bool
  ContentX1 : Int
  ContentX2 : Int
  ContentY1 : Int
  ContentY2 : Int
  deriving DecidableEq, Repr

/-- The content bounding box of every text element. -/
abbrev Boxes := ObjId → ContentBB

/-- The member `m_drawingYRel` of every text element, read by `GetDrawingYRel()`
and written by `SetDrawingYRel()`. -/
abbrev DrawingYRels := ObjId → Int

/-- The data members of `RunningElement` that its methods use: the flag
`m_isGenerated`, the array `m_drawingScalingPercent[3]` and the array
`m_cells[9]` of vectors of text element pointers.  An array is given by its
entries at the indices below its size; every access checks the index. -/
structure RunningElement where
  m_isGenerated : Bool
  m_drawingScalingPercent : Nat → Int
  m_cells : Nat → List ObjId

/-- The loop `for (i = start; i < start + count; ++i) body`, with the variables
it updates as the state. -/
def forLoop {α : Type} (body : Int → α → Except Fault α) : Nat → Int → α → Except Fault α
  | 0, _, a => .ok a
  | count + 1, i, a =>
    match body i a with
    | .error e => .error e
    | .ok a1 => forLoop body count (i + 1) a1

/-- The array access `m_cells[idx]`. -/
def RunningElement.cell (re : RunningElement) (idx : Int) : Except Fault (List ObjId) :=
  if 0 ≤ idx ∧ idx < 9 then .ok (re.m_cells idx.toNat) else .error .outOfBounds

/-- The loop of `GetCellHeight` over the elements of a cell:
```
if ((*iter)->HasContentBB()) {
    columnHeight += (*iter)->GetContentY2() - (*iter)->GetContentY1();
}
```
-/
def cellHeightLoop (boxes : Boxes) : List ObjId → Int → Int
  | [], columnHeight => columnHeight
  | x :: xs, columnHeight =>
    if (boxes x).HasContentBB then
      cellHeightLoop boxes xs
        (wrapInt (columnHeight + wrapInt ((boxes x).ContentY2 - (boxes x).ContentY1)))
    else cellHeightLoop boxes xs columnHeight

/-- `RunningElement::GetCellHeight` (runningelement.cpp):
`assert((cell >= 0) && (cell < 9));` followed by the loop over
`m_cells[cell]`. -/
def RunningElement.GetCellHeight (boxes : Boxes) (re : RunningElement) (cell : Int) :
    Except Fault Int :=
  if 0 ≤ cell ∧ cell < 9 then
    match re.cell cell with
    | .error e => .error e
    | .ok textElements => .ok (cellHeightLoop boxes textElements 0)
  else .error .assertFailed

/-- `RunningElement::GetRowHeight` (runningelement.cpp):
```
assert((row >= 0) && (row < 3));
int height = 0;
for (i = 0; i < 3; ++i) { height = std::max(height, this->GetCellHeight(row * 3 + i)); }
return height;
```
-/
def RunningElement.GetRowHeight (boxes : Boxes) (re : RunningElement) (row : Int) :
    Except Fault Int :=
  if 0 ≤ row ∧ row < 3 then
    forLoop (fun i height =>
      match RunningElement.GetCellHeight boxes re (row * 3 + i) with
      | .error e => .error e
      | .ok c => .ok (max height c)) 3 0 0
  else .error .assertFailed

/-- `RunningElement::GetColHeight` (runningelement.cpp):
```
assert((col >= 0) && (col < 3));
int height = 0;
for (i = 0; i < 3; ++i) { height += this->GetCellHeight(i * 3 + col); }
return height;
```
-/
def RunningElement.GetColHeight (boxes : Boxes) (re : RunningElement) (col : Int) :
    Except Fault Int :=
  if 0 ≤ col ∧ col < 3 then
    forLoop (fun i height =>
      match RunningElement.GetCellHeight boxes re (i * 3 + col) with
      | .error e => .error e
      | .ok c => .ok (wrapInt (height + c))) 3 0 0
  else .error .assertFailed

/-- `RunningElement::GetContentHeight` (runningelement.cpp):
```
int height = 0;
for (i = 0; i < 3; ++i) { height += this->GetRowHeight(i); }
return height;
```
-/
def RunningElement.GetContentHeight (boxes : Boxes) (re : RunningElement) : Except Fault Int :=
  forLoop (fun i height =>
    match RunningElement.GetRowHeight boxes re i with
    | .error e => .error e
    | .ok r => .ok (wrapInt (height + r))) 3 0 0

/-- The exact sum of the heights `Y2 - Y1` of the elements of a cell that have a
content bounding box. -/
def cellHeightOf (boxes : Boxes) (l : List ObjId) : Int :=
  ((l.filter (fun x => (boxes x).HasContentBB)).map
    (fun x => (boxes x).ContentY2 - (boxes x).ContentY1)).sum

/-- The height of a cell as `GetCellHeight` computes it in `int`. -/
def cellHeightInt (boxes : Boxes) (l : List ObjId) : Int := wrapInt (cellHeightOf boxes l)

/-- The height of a row of the grid as `GetRowHeight` computes it: the largest of
0 and of the `int` heights of its three cells. -/
def rowHeightOf (boxes : Boxes) (re : RunningElement) (row : Nat) : Int :=
  max (max (max 0 (cellHeightInt boxes (re.m_cells (row * 3))))
    (cellHeightInt boxes (re.m_cells (row * 3 + 1))))
    (cellHeightInt boxes (re.m_cells (row * 3 + 2)))

/-- The exact sum of the `int` heights of the three cells of a column. -/
def colHeightSum (boxes : Boxes) (re : RunningElement) (col : Nat) : Int :=
  cellHeightInt boxes (re.m_cells col) + cellHeightInt boxes (re.m_cells (3 + col)) +
    cellHeightInt boxes (re.m_cells (6 + col))

/-- The height of a column of the grid as `GetColHeight` computes it in `int`. -/
def colHeightOf (boxes : Boxes) (re : RunningElement) (col : Nat) : Int :=
  wrapInt (colHeightSum boxes re col)

/-- The exact sum of the three row heights. -/
def rowHeightSum (boxes : Boxes) (re : RunningElement) : Int :=
  rowHeightOf boxes re 0 + rowHeightOf boxes re 1 + rowHeightOf boxes re 2

/-- The content height as `GetContentHeight` computes it in `int`. -/
def contentHeightOf (boxes : Boxes) (re : RunningElement) : Int :=
  wrapInt (rowHeightSum boxes re)

/-- Class ids and C++ types for the examples: objects 60 and 61 carry text
element ids (203, 204), 62 an editorial id (105), 63 a layer element id. -/
def heapKinds : Heap := fun i =>
  match i with
  | 60 => { m_classId := 203, m_children := [], m_parent := none, m_isModified := false }
  | 61 => { m_classId := 204, m_children := [], m_parent := none, m_isModified := false }
  | 62 => { m_classId := 105, m_children := [], m_parent := none, m_isModified := false }
  | _ => { m_classId := 150, m_children := [], m_parent := none, m_isModified := false }

/-- Content boxes for the examples.  The elements 70 to 75 have a box of height
10, 20, 30, 5, 7, 40 and width 100, 200, 50, 300, 10, 20; the element 76 has a
box turned upside down, of height -15; every other element has none. -/
def boxesExample : Boxes := fun i =>
  match i with
  | 70 => { HasContentBB := true, ContentX1 := 0, ContentX2 := 100, ContentY1 := -10,
            ContentY2 := 0 }
  | 71 => { HasContentBB := true, ContentX1 := 0, ContentX2 := 200, ContentY1 := 0,
            ContentY2 := 20 }
  | 72 => { HasContentBB := true, ContentX1 := 10, ContentX2 := 60, ContentY1 := -5,
            ContentY2 := 25 }
  | 73 => { HasContentBB := true, ContentX1 := 0, ContentX2 := 300, ContentY1 := 0,
            ContentY2 := 5 }
  | 74 => { HasContentBB := true, ContentX1 := 0, ContentX2 := 10, ContentY1 := 3,
            ContentY2 := 10 }
  | 75 => { HasContentBB := true, ContentX1 := 0, ContentX2 := 20, ContentY1 := 0,
            ContentY2 := 40 }
  | 76 => { HasContentBB := true, ContentX1 := 0, ContentX2 := 5, ContentY1 := 15,
            ContentY2 := 0 }
  | _ => { HasContentBB := false, ContentX1 := 0, ContentX2 := 0, ContentY1 := 0,
           ContentY2 := 0 }

/-- A running element for the examples.  Top row: cell 0 holds 70 and 71, cell 1
holds 76.  Middle row: cell 4 holds 72.  Bottom row: cell 6 holds 73, 77 (no
box) and 74, cell 8 holds 75.  The scaling percents are 100, 80, 100. -/
def runningExample : RunningElement :=
  { m_isGenerated := false,
    m_drawingScalingPercent := fun i => if i = 1 then 80 else 100,
    m_cells := fun k =>
      match k with
      | 0 => [70, 71]
      | 1 => [76]
      | 4 => [72]
      | 6 => [73, 77, 74]
      | 8 => [75]
      | _ => [] }

/-- Content boxes near the ends of the range of `int`.  Widths: the element 80
spans from -2000000000 to 2000000000, 81 from 0 to 2000000000, 82 is turned
around, from 2000000000 to -2000000000.  Heights: 83 and 84 are 1073741824 high,
85 spans from -2000000000 to 2000000000, 86 is 10 high, 87 and 88 are 1500000000
high and 89 is flat.  Every other element has no box. -/
def boxesFar : Boxes := fun i =>
  match i with
  | 80 => { HasContentBB := true, ContentX1 := -2000000000, ContentX2 := 2000000000,
            ContentY1 := 0, ContentY2 := 0 }
  | 81 => { HasContentBB := true, ContentX1 := 0, ContentX2 := 2000000000,
            ContentY1 := 0, ContentY2 := 0 }
  | 82 => { HasContentBB := true, ContentX1 := 2000000000, ContentX2 := -2000000000,
            ContentY1 := 0, ContentY2 := 0 }
  | 83 => { HasContentBB := true, ContentX1 := 0, ContentX2 := 0,
            ContentY1 := 0, ContentY2 := 1073741824 }
  | 84 => { HasContentBB := true, ContentX1 := 0, ContentX2 := 0,
            ContentY1 := 0, ContentY2 := 1073741824 }
  | 85 => { HasContentBB := true, ContentX1 := 0, ContentX2 := 0,
            ContentY1 := -2000000000, ContentY2 := 2000000000 }
  | 86 => { HasContentBB := true, ContentX1 := 0, ContentX2 := 0,
            ContentY1 := 0, ContentY2 := 10 }
  | 87 => { HasContentBB := true, ContentX1 := 0, ContentX2 := 0,
            ContentY1 := 0, ContentY2 := 1500000000 }
  | 88 => { HasContentBB := true, ContentX1 := 0, ContentX2 := 0,
            ContentY1 := 0, ContentY2 := 1500000000 }
  | 89 => { HasContentBB := true, ContentX1 := 0, ContentX2 := 0,
            ContentY1 := 0, ContentY2 := 0 }
  | _ => { HasContentBB := false, ContentX1 := 0, ContentX2 := 0, ContentY1 := 0,
           ContentY2 := 0 }

/-- A running element whose cell 0 holds the one element `x`, every other cell
being empty, with the scaling percents 100. -/
def runningSingle (x : ObjId) : RunningElement :=
  { m_isGenerated := false,
    m_drawingScalingPercent := fun _ => 100,
    m_cells := fun k =>
      match k with
      | 0 => [x]
      | _ => [] }

/-- A running element with the element 83 in the cell 0 and 84 in the cell 3. -/
def runningTall : RunningElement :=
  { m_isGenerated := false,
    m_drawingScalingPercent := fun _ => 100,
    m_cells := fun k =>
      match k with
      | 0 => [83]
      | 3 => [84]
      | _ => [] }

/-- A running element whose cell 0 holds the elements 85 and 86. -/
def runningStack : RunningElement :=
  { m_isGenerated := false,
    m_drawingScalingPercent := fun _ => 100,
    m_cells := fun k =>
      match k with
      | 0 => [85, 86]
      | _ => [] }

/-- A running element with the element 87 in the cell 0, 88 in the cell 3 and 89
in the cell 6. -/
def runningDeep : RunningElement :=
  { m_isGenerated := false,
    m_drawingScalingPercent := fun _ => 100,
    m_cells := fun k =>
      match k with
      | 0 => [87]
      | 3 => [88]
      | 6 => [89]
      | _ => [] }

/-- The column of the grid that stands for a horizontal alignment: 0 for left,
1 for center, 2 for right, and 0 for anything else. -/
def columnOf : data_HORIZONTALALIGNMENT → Int
  | .HORIZONTALALIGNMENT_center => 1
  | .HORIZONTALALIGNMENT_right => 2
  | _ => 0

/-- The first cell of the row of the grid that stands for a vertical alignment:
0 for top, 3 for middle, 6 for bottom, and 3 for anything else. -/
def rowOf : data_VERTICALALIGNMENT → Int
  | .VERTICALALIGNMENT_top => 0
  | .VERTICALALIGNMENT_bottom => 6
  | _ => 3

/-! ## Running element: scaling -/

/-- The loop of `AdjustDrawingScaling` over the elements of a cell:
```
if ((*iter)->HasContentBB()) {
    int iterWidth = (*iter)->GetContentX2() - (*iter)->GetContentX1();
    columnWidth = std::max(columnWidth, iterWidth);
}
```
-/
def columnWidthLoop (boxes : Boxes) : List ObjId → Int → Int
  | [], columnWidth => columnWidth
  | x :: xs, columnWidth =>
    if (boxes x).HasContentBB then
      columnWidthLoop boxes xs
        (max columnWidth (wrapInt ((boxes x).ContentX2 - (boxes x).ContentX1)))
    else columnWidthLoop boxes xs columnWidth

/-- The division `a / b` of two `int`: it truncates towards zero and the quotient
is stored as an `int`, modulo 2^32 like every other result; a zero divisor has
no result. -/
def intDiv (a b : Int) : Except Fault Int :=
  if b = 0 then .error .divisionByZero else .ok (wrapInt (a.tdiv b))

/-- The assignment `m_drawingScalingPercent[i] = p`. -/
def RunningElement.setScalingPercent (re : RunningElement) (i : Int) (p : Int) :
    Except Fault RunningElement :=
  if 0 ≤ i ∧ i < 3 then
    .ok { re with m_drawingScalingPercent := Function.update re.m_drawingScalingPercent i.toNat p }
  else .error .outOfBounds

/-- The body of the outer loop of `AdjustDrawingScaling`, for the row `i`: the
loop over the three cells of the row, then
```
if (rowWidth && (rowWidth > width)) {
    m_drawingScalingPercent[i] = width * 100 / rowWidth;
    scale = true;
}
```
The state is the flag `scale` and the running element. -/
def adjustDrawingScalingRow (boxes : Boxes) (width : Int) (i : Int)
    (st : Bool × RunningElement) : Except Fault (Bool × RunningElement) :=
  match forLoop (fun j rowWidth =>
      match st.2.cell (i * 3 + j) with
      | .error e => .error e
      | .ok textElements =>
        .ok (wrapInt (rowWidth + columnWidthLoop boxes textElements 0))) 3 0 0 with
  | .error e => .error e
  | .ok rowWidth =>
    if rowWidth ≠ 0 ∧ rowWidth > width then
      match intDiv (wrapInt (width * 100)) rowWidth with
      | .error e => .error e
      | .ok p =>
        match st.2.setScalingPercent i p with
        | .error e => .error e
        | .ok re1 => .ok (true, re1)
    else .ok st

/-- `RunningElement::AdjustDrawingScaling` (runningelement.cpp):
```
bool scale = false;
for (i = 0; i < 3; ++i) {
    int rowWidth = 0;
    for (j = 0; j < 3; ++j) {
        ArrayOfTextElements *textElements = &m_cells[i * 3 + j];
        int columnWidth = 0;
        ... the loop over the elements ...
        rowWidth += columnWidth;
    }
    if (rowWidth && (rowWidth > width)) { ... }
}
return scale;
```
The result is the returned flag and the running element after the call. -/
def RunningElement.AdjustDrawingScaling (boxes : Boxes) (re : RunningElement) (width : Int) :
    Except Fault (Bool × RunningElement) :=
  forLoop (adjustDrawingScalingRow boxes width) 3 0 (false, re)

/-- The exact width of a cell: the largest content width `X2 - X1` among its
elements that have a content bounding box, and at least 0. -/
def columnWidthExact (boxes : Boxes) (l : List ObjId) : Int :=
  ((l.filter (fun x => (boxes x).HasContentBB)).map
    (fun x => (boxes x).ContentX2 - (boxes x).ContentX1)).foldr max 0

/-- The exact width of a row of the grid: the sum of the exact widths of its
three cells. -/
def rowWidthExact (boxes : Boxes) (re : RunningElement) (row : Nat) : Int :=
  columnWidthExact boxes (re.m_cells (row * 3)) +
    columnWidthExact boxes (re.m_cells (row * 3 + 1)) +
    columnWidthExact boxes (re.m_cells (row * 3 + 2))

/-- The width of a cell as `AdjustDrawingScaling` computes it: the largest of 0
and of the `int` differences `X2 - X1` of its elements that have a content
bounding box. -/
def columnWidthOf (boxes : Boxes) (l : List ObjId) : Int :=
  ((l.filter (fun x => (boxes x).HasContentBB)).map
    (fun x => wrapInt ((boxes x).ContentX2 - (boxes x).ContentX1))).foldr max 0

/-- The width of a row of the grid as `AdjustDrawingScaling` computes it in
`int`. -/
def rowWidthOf (boxes : Boxes) (re : RunningElement) (row : Nat) : Int :=
  wrapInt (columnWidthOf boxes (re.m_cells (row * 3)) +
    columnWidthOf boxes (re.m_cells (row * 3 + 1)) +
    columnWidthOf boxes (re.m_cells (row * 3 + 2)))

/-- No width overflows: the content width `X2 - X1` of every element of the cells
that has a content bounding box, and the exact width of every row, lie in the
range of `int`. -/
def RunningElement.WidthsInRange (boxes : Boxes) (re : RunningElement) : Prop :=
  (∀ k, k < 9 → ∀ x, x ∈ re.m_cells k → (boxes x).HasContentBB = true →
    InInt ((boxes x).ContentX2 - (boxes x).ContentX1)) ∧
    ∀ row, row < 3 → InInt (rowWidthExact boxes re row)

/-- One turn of the outer loop of `AdjustDrawingScaling`, for the row `i`. -/
def scaleRow (boxes : Boxes) (width : Int) (st : Bool × RunningElement) (i : Nat) :
    Bool × RunningElement :=
  if rowWidthOf boxes st.2 i ≠ 0 ∧ rowWidthOf boxes st.2 i > width then
    (true,
      { m_isGenerated := st.2.m_isGenerated,
        m_drawingScalingPercent :=
          Function.update st.2.m_drawingScalingPercent i
            (wrapInt ((wrapInt (width * 100)).tdiv (rowWidthOf boxes st.2 i))),
        m_cells := st.2.m_cells })
  else st

/-! ## Running element: vertical positions -/

/-- The first inner loop of `AdjustRunningElementYPos`, over the elements of a
cell, with the variable `cumulatedYRel` and the drawing positions as the state:
```
if (!(*iter)->HasContentBB()) { continue; }
int yShift = (*iter)->GetContentY2();
(*iter)->SetDrawingYRel(cumulatedYRel - yShift);
cumulatedYRel += ((*iter)->GetContentY1() - (*iter)->GetContentY2());
```
-/
def adjustCellLoop (boxes : Boxes) : List ObjId → Int → DrawingYRels → DrawingYRels
  | [], _, y => y
  | x :: xs, cumulatedYRel, y =>
    if !(boxes x).HasContentBB then adjustCellLoop boxes xs cumulatedYRel y
    else
      adjustCellLoop boxes xs
        (wrapInt (cumulatedYRel + wrapInt ((boxes x).ContentY1 - (boxes x).ContentY2)))
        (Function.update y x (wrapInt (cumulatedYRel - (boxes x).ContentY2)))

/-- The innermost loop of the second part of `AdjustRunningElementYPos`, over
the elements of a cell:
```
if (!(*iter)->HasContentBB()) { continue; }
(*iter)->SetDrawingYRel((*iter)->GetDrawingYRel() + rowYRel - colYShift);
```
-/
def shiftCellLoop (boxes : Boxes) (rowYRel colYShift : Int) :
    List ObjId → DrawingYRels → DrawingYRels
  | [], y => y
  | x :: xs, y =>
    if !(boxes x).HasContentBB then shiftCellLoop boxes rowYRel colYShift xs y
    else
      shiftCellLoop boxes rowYRel colYShift xs
        (Function.update y x (wrapInt (wrapInt (y x + rowYRel) - colYShift)))

/-- The body of the loop over the columns `j` of the row `i` in
`AdjustRunningElementYPos`:
```
int cell = i * 3 + j;
int colYShift = 0;
if (i == 1) { colYShift = (currentRowHeigt - this->GetCellHeight(cell)) / 2; }
else if (i == 2) { colYShift = (currentRowHeigt - this->GetCellHeight(cell)); }
ArrayOfTextElements *textElements = &m_cells[cell];
... the loop over the elements ...
```
-/
def adjustYPosCell (boxes : Boxes) (re : RunningElement) (i rowYRel currentRowHeigt : Int)
    (j : Int) (y : DrawingYRels) : Except Fault DrawingYRels :=
  let cell := i * 3 + j
  let colYShift : Except Fault Int :=
    if i = 1 then
      match RunningElement.GetCellHeight boxes re cell with
      | .error e => .error e
      | .ok cellHeight => intDiv (wrapInt (currentRowHeigt - cellHeight)) 2
    else if i = 2 then
      match RunningElement.GetCellHeight boxes re cell with
      | .error e => .error e
      | .ok cellHeight => .ok (wrapInt (currentRowHeigt - cellHeight))
    else .ok 0
  match colYShift with
  | .error e => .error e
  | .ok colYShift =>
    match re.cell cell with
    | .error e => .error e
    | .ok textElements => .ok (shiftCellLoop boxes rowYRel colYShift textElements y)

/-- The body of the loop over the rows `i` in `AdjustRunningElementYPos`, with
the variable `rowYRel` and the drawing positions as the state:
```
int currentRowHeigt = this->GetRowHeight(i);
for (j = 0; j < 3; ++j) { ... }
rowYRel -= currentRowHeigt;
```
-/
def adjustYPosRow (boxes : Boxes) (re : RunningElement) (i : Int) (st : Int × DrawingYRels) :
    Except Fault (Int × DrawingYRels) :=
  match RunningElement.GetRowHeight boxes re i with
  | .error e => .error e
  | .ok currentRowHeigt =>
    match forLoop (adjustYPosCell boxes re i st.1 currentRowHeigt) 3 0 st.2 with
    | .error e => .error e
    | .ok y1 => .ok (wrapInt (st.1 - currentRowHeigt), y1)

/-- `RunningElement::AdjustRunningElementYPos` (runningelement.cpp):
```
for (i = 0; i < 9; ++i) {
    int cumulatedYRel = 0;
    ArrayOfTextElements *textElements = &m_cells[i];
    ... the first loop over the elements ...
}
int rowYRel = 0;
for (i = 0; i < 3; ++i) { ... }
return true;
```
The result is the returned flag and the drawing positions after the call. -/
def RunningElement.AdjustRunningElementYPos (boxes : Boxes) (re : RunningElement)
    (y : DrawingYRels) : Except Fault (Bool × DrawingYRels) :=
  match forLoop (fun i y1 =>
      match re.cell i with
      | .error e => .error e
      | .ok textElements => .ok (adjustCellLoop boxes textElements 0 y1)) 9 0 y with
  | .error e => .error e
  | .ok y1 =>
    match forLoop (adjustYPosRow boxes re) 3 0 (0, y1) with
    | .error e => .error e
    | .ok st => .ok (true, st.2)

/-- The value of `rowYRel` while the cell `k` is shifted: minus the heights of
the rows above the row of the cell, in `int`. -/
def rowYRelOf (boxes : Boxes) (re : RunningElement) (k : Nat) : Int :=
  if k / 3 = 0 then 0
  else if k / 3 = 1 then wrapInt (0 - rowHeightOf boxes re 0)
  else wrapInt (wrapInt (0 - rowHeightOf boxes re 0) - rowHeightOf boxes re 1)

/-- The value of `colYShift` for the cell `k`: nothing in the top row, half of
the room left in the middle row, all of it in the bottom row, in `int`. -/
def colYShiftOf (boxes : Boxes) (re : RunningElement) (k : Nat) : Int :=
  if k / 3 = 1 then
    wrapInt ((wrapInt (rowHeightOf boxes re (k / 3) -
      cellHeightInt boxes (re.m_cells k))).tdiv 2)
  else if k / 3 = 2 then
    wrapInt (rowHeightOf boxes re (k / 3) - cellHeightInt boxes (re.m_cells k))
  else 0

/-- The first part of `AdjustRunningElementYPos` as a fold over the cells. -/
def stackCells (boxes : Boxes) (re : RunningElement) (ks : List Nat) (y : DrawingYRels) :
    DrawingYRels :=
  ks.foldl (fun y1 k => adjustCellLoop boxes (re.m_cells k) 0 y1) y

/-- The second part of `AdjustRunningElementYPos` as a fold over the cells. -/
def shiftCells (boxes : Boxes) (re : RunningElement) (ks : List Nat) (y : DrawingYRels) :
    DrawingYRels :=
  ks.foldl (fun y1 k =>
    shiftCellLoop boxes (rowYRelOf boxes re k) (colYShiftOf boxes re k) (re.m_cells k) y1) y

/-- No text element stands twice in the cells: no cell holds an element twice
and no two cells share an element.  This is the state that
`PrepareDataInitialization` leaves when the list it sorts into the cells has no
element twice. -/
def RunningElement.CellsDistinct (re : RunningElement) : Prop :=
  (∀ k, k < 9 → (re.m_cells k).Nodup) ∧
    ∀ k1, k1 < 9 → ∀ k2, k2 < 9 → k1 ≠ k2 → ∀ x, x ∈ re.m_cells k1 → x ∉ re.m_cells k2

/-- Drawing positions for the examples: 1000 plus the number of the element. -/
def drawingYRelsExample : DrawingYRels := fun x => 1000 + (x : Int)

/-! ## Running element: filling the cells -/

/-- The call `m_cells[pos].push_back(text)`. -/
def RunningElement.pushCell (re : RunningElement) (pos : Int) (text : ObjId) :
    Except Fault RunningElement :=
  if 0 ≤ pos ∧ pos < 9 then
    .ok { m_isGenerated := re.m_isGenerated,
          m_drawingScalingPercent := re.m_drawingScalingPercent,
          m_cells := Function.update re.m_cells pos.toNat (re.m_cells pos.toNat ++ [text]) }
  else .error .outOfBounds

/-- The loop of `PrepareDataInitialization` over the child list:
```
int pos = 0;
AreaPosInterface *interface = dynamic_cast<AreaPosInterface *>(*iter);
assert(interface);
pos = this->GetAlignmentPos(interface->GetHalign(), interface->GetValign());
TextElement *text = vrv_cast<TextElement *>(*iter);
assert(text);
m_cells[pos].push_back(text);
```
`areaPos` stands for the first cast and the two attributes it gives access to,
`none` when the object has no `AreaPosInterface`; `isTextElementType` stands for
the second cast. -/
def prepareDataLoop (P : Positions)
    (areaPos : ObjId → Option (data_HORIZONTALALIGNMENT × data_VERTICALALIGNMENT))
    (isTextElementType : ObjId → Bool) : List ObjId → RunningElement → Except Fault RunningElement
  | [], re => .ok re
  | x :: xs, re =>
    match areaPos x with
    | none => .error .assertFailed
    | some hv =>
      let pos := RunningElement.GetAlignmentPos P hv.1 hv.2
      if isTextElementType x then
        match re.pushCell pos x with
        | .error e => .error e
        | .ok re1 => prepareDataLoop P areaPos isTextElementType xs re1
      else .error .assertFailed

/-- The two loops at the head of `PrepareDataInitialization`:
```
for (i = 0; i < 9; ++i) { m_cells[i].clear(); }
for (i = 0; i < 3; ++i) { m_drawingScalingPercent[i] = 100; }
```
-/
def RunningElement.resetCells (re : RunningElement) : RunningElement :=
  { m_isGenerated := re.m_isGenerated,
    m_drawingScalingPercent := fun i => if i < 3 then 100 else re.m_drawingScalingPercent i,
    m_cells := fun k => if k < 9 then [] else re.m_cells k }

/-- `RunningElement::PrepareDataInitialization` (runningelement.cpp): the two
loops that reset the cells and the scaling percents, then
`const ListOfObjects &childList = this->GetList(this);`, the loop that sorts the
list into the cells, and `return FUNCTOR_CONTINUE;`.  The result is the code,
the running element, the store and the list cache after the call. -/
def RunningElement.PrepareDataInitialization (E : ClassIds) (P : Positions)
    (areaPos : ObjId → Option (data_HORIZONTALALIGNMENT × data_VERTICALALIGNMENT))
    (isTextElementType : ObjId → Bool) (fuel : Nat) (h : Heap) (cache : ListCache)
    (self : ObjId) (re : RunningElement) :
    Except Fault (FunctorCode × RunningElement × Heap × ListCache) :=
  match GetList E (RunningElement.FilterList E fuel) fuel h cache self with
  | .error e => .error e
  | .ok (childList, h1, cache1) =>
    match prepareDataLoop P areaPos isTextElementType childList re.resetCells with
    | .error e => .error e
    | .ok re1 => .ok (.FUNCTOR_CONTINUE, re1, h1, cache1)

/-- The cell that `GetAlignmentPos` gives for an element, from the alignments of
its `AreaPosInterface`; `none` when it has none. -/
def alignmentCell (P : Positions)
    (areaPos : ObjId → Option (data_HORIZONTALALIGNMENT × data_VERTICALALIGNMENT))
    (x : ObjId) : Option Int :=
  (areaPos x).map (fun hv => RunningElement.GetAlignmentPos P hv.1 hv.2)

/-- Alignments for the examples: the element 21 is centered at the bottom, every
other element has no alignment set. -/
def areaPosExample : ObjId → Option (data_HORIZONTALALIGNMENT × data_VERTICALALIGNMENT) :=
  fun x =>
    if x = 21 then some (.HORIZONTALALIGNMENT_center, .VERTICALALIGNMENT_bottom)
    else some (.HORIZONTALALIGNMENT_NONE, .VERTICALALIGNMENT_NONE)

/-! ## Cached child list: histories of calls -/

/-- The filter reads the class ids, the parents and the children of the store,
not the modified flags. -/
def IgnoresModified (F : Heap → List ObjId → Except Fault (List ObjId)) : Prop :=
  ∀ (h : Heap) (m : ObjId) (b : Bool) (l : List ObjId), F (h.setModified m b) l = F h l

/-- The cached list of `n` is up to date: when the modified flag of `n` is clear
and a list is cached for `n`, that list is the filter applied to the depth-first
flattening of the subtree of `n` as it now is. -/
def ListUpToDate (F : Heap → List ObjId → Except Fault (List ObjId)) (fuel : Nat) (h : Heap)
    (cache : ListCache) (n : ObjId) : Prop :=
  (h n).m_isModified = false → ∀ l0, cache n = some l0 →
    ∀ flat l, preorder h FORWARD fuel n = .ok flat → F h flat = .ok l → l0 = l

/-- The states `(h, cache)` reached from the state `(h0, cache0)` by a history of
calls in which every change of the store leaves `n` marked as modified:
`GetList(n)`, `GetList(m)` on another object with the filter of that object,
`Tuning::AddChild` on an object `p` below `n` (or on `n`), and any other change
of the store after which the modified flag of `n` is set. -/
inductive MarkedHistory (E : ClassIds) (F : Heap → List ObjId → Except Fault (List ObjId))
    (fuel : Nat) (n : ObjId) (h0 : Heap) (cache0 : ListCache) : Heap → ListCache → Prop where
  | start : MarkedHistory E F fuel n h0 cache0 h0 cache0
  | getList {h : Heap} {cache : ListCache} (l : List ObjId) (h' : Heap) (cache' : ListCache) :
      MarkedHistory E F fuel n h0 cache0 h cache →
      GetList E F fuel h cache n = .ok (l, h', cache') →
      MarkedHistory E F fuel n h0 cache0 h' cache'
  | getListOther {h : Heap} {cache : ListCache} (m : ObjId)
      (Fm : Heap → List ObjId → Except Fault (List ObjId)) (l : List ObjId) (h' : Heap)
      (cache' : ListCache) :
      MarkedHistory E F fuel n h0 cache0 h cache → m ≠ n →
      GetList E Fm fuel h cache m = .ok (l, h', cache') →
      MarkedHistory E F fuel n h0 cache0 h' cache'
  | addChild {h : Heap} {cache : ListCache} (fuel2 : Nat) (p c : ObjId) (h2 : Heap) (k : Nat) :
      MarkedHistory E F fuel n h0 cache0 h cache →
      Tuning.AddChild fuel2 h p c = .ok h2 → ancestorAt h2 k p = some n →
      MarkedHistory E F fuel n h0 cache0 h2 cache
  | marked {h : Heap} {cache : ListCache} (h2 : Heap) :
      MarkedHistory E F fuel n h0 cache0 h cache → (h2 n).m_isModified = true →
      MarkedHistory E F fuel n h0 cache0 h2 cache

/-- The store `heapRunning` with one more object: the fig 25, which has no
parent yet. -/
def heapRunningSpare : Heap := fun i =>
  match i with
  | 25 => { m_classId := 204, m_children := [], m_parent := none, m_isModified := true }
  | _ => heapRunning i

/-- The store after the first `GetList` on the running element 20 of
`heapRunningSpare`: the modified flag of 20 is clear. -/
def heapRunningListed : Heap := heapRunningSpare.setModified 20 false

/-- The list cache after the first `GetList` on the running element 20: the list
of 20 is the rend 21 and the fig 24. -/
def cacheRunningListed : ListCache := Function.update (fun _ => none) 20 (some [21, 24])

/-- The store after `Tuning::AddChild` has attached the fig 25 to the running
element 20 of `heapRunningListed`. -/
def heapRunningGrown : Heap :=
  match Tuning.AddChild 4 heapRunningListed 20 25 with
  | .ok h => h
  | .error _ => heapRunningListed

/-- The store after `DetachChild(1)` has taken the fig 24 out of the running
element 20 of `heapRunningListed`. -/
def heapRunningDetached : Heap := (DetachChild heapRunningListed 20 1).2

/-! ## Field assignments -/

@[simp] theorem Heap.setParent_parent (h : Heap) (x : ObjId) (p : Option ObjId) (y : ObjId) :
    (h.setParent x p y).m_parent = if y = x then p else (h y).m_parent := by
  by_cases e : y = x <;> simp [Heap.setParent, Function.update_apply, e]

@[simp] theorem Heap.setParent_children (h : Heap) (x : ObjId) (p : Option ObjId) (y : ObjId) :
    (h.setParent x p y).m_children = (h y).m_children := by
  by_cases e : y = x <;> simp [Heap.setParent, Function.update_apply, e]

@[simp] theorem Heap.setParent_classId (h : Heap) (x : ObjId) (p : Option ObjId) (y : ObjId) :
    (h.setParent x p y).m_classId = (h y).m_classId := by
  by_cases e : y = x <;> simp [Heap.setParent, Function.update_apply, e]

@[simp] theorem Heap.setParent_isModified (h : Heap) (x : ObjId) (p : Option ObjId)
    (y : ObjId) : (h.setParent x p y).m_isModified = (h y).m_isModified := by
  by_cases e : y = x <;> simp [Heap.setParent, Function.update_apply, e]

@[simp] theorem Heap.setChildren_children (h : Heap) (x : ObjId) (l : List ObjId) (y : ObjId) :
    (h.setChildren x l y).m_children = if y = x then l else (h y).m_children := by
  by_cases e : y = x <;> simp [Heap.setChildren, Function.update_apply, e]

@[simp] theorem Heap.setChildren_parent (h : Heap) (x : ObjId) (l : List ObjId) (y : ObjId) :
    (h.setChildren x l y).m_parent = (h y).m_parent := by
  by_cases e : y = x <;> simp [Heap.setChildren, Function.update_apply, e]

@[simp] theorem Heap.setChildren_classId (h : Heap) (x : ObjId) (l : List ObjId) (y : ObjId) :
    (h.setChildren x l y).m_classId = (h y).m_classId := by
  by_cases e : y = x <;> simp [Heap.setChildren, Function.update_apply, e]

@[simp] theorem Heap.setChildren_isModified (h : Heap) (x : ObjId) (l : List ObjId)
    (y : ObjId) : (h.setChildren x l y).m_isModified = (h y).m_isModified := by
  by_cases e : y = x <;> simp [Heap.setChildren, Function.update_apply, e]

@[simp] theorem Heap.setModified_isModified (h : Heap) (x : ObjId) (b : Bool) (y : ObjId) :
    (h.setModified x b y).m_isModified = if y = x then b else (h y).m_isModified := by
  by_cases e : y = x <;> simp [Heap.setModified, Function.update_apply, e]

@[simp] theorem Heap.setModified_parent (h : Heap) (x : ObjId) (b : Bool) (y : ObjId) :
    (h.setModified x b y).m_parent = (h y).m_parent := by
  by_cases e : y = x <;> simp [Heap.setModified, Function.update_apply, e]

@[simp] theorem Heap.setModified_children (h : Heap) (x : ObjId) (b : Bool) (y : ObjId) :
    (h.setModified x b y).m_children = (h y).m_children := by
  by_cases e : y = x <;> simp [Heap.setModified, Function.update_apply, e]

@[simp] theorem Heap.setModified_classId (h : Heap) (x : ObjId) (b : Bool) (y : ObjId) :
    (h.setModified x b y).m_classId = (h y).m_classId := by
  by_cases e : y = x <;> simp [Heap.setModified, Function.update_apply, e]

/-! ## Child attachment -/

theorem childIndexFrom_nonneg (c : ObjId) (l : List ObjId) (i : Int) (hi : 0 ≤ i)
    (hc : c ∈ l) : 0 ≤ childIndexFrom c l i := by
  induction l generalizing i with
  | nil => simp at hc
  | cons x xs ih =>
    unfold childIndexFrom
    by_cases hx : c = x
    · simp [hx, hi]
    · simp only [hx, if_false]
      have hmem : c ∈ xs := by
        rcases List.mem_cons.1 hc with h1 | h1
        · exact absurd h1 hx
        · exact h1
      exact ih (i + 1) (by omega) hmem

/-- What a returning `Modify(true)` leaves alone and what it sets. -/
theorem Modify_true_spec (fuel : Nat) : ∀ (h : Heap) (x : ObjId) (h' : Heap),
    Modify fuel h x true = .ok h' →
      (∀ y, (h' y).m_parent = (h y).m_parent) ∧
      (∀ y, (h' y).m_children = (h y).m_children) ∧
      (∀ y, (h' y).m_classId = (h y).m_classId) ∧
      (∀ y, (h y).m_isModified = true → (h' y).m_isModified = true) ∧
      (∀ k a, ancestorAt h k x = some a → (h' a).m_isModified = true) := by
  induction fuel with
  | zero => intro h x h' hm; simp [Modify] at hm
  | succ fuel ih =>
    intro h x h' hm
    unfold Modify at hm
    cases hp : (h x).m_parent with
    | none =>
      simp only [hp] at hm
      injection hm with hm
      subst hm
      refine ⟨?_, ?_, ?_, ?_, ?_⟩
      · intro y; simp
      · intro y; simp
      · intro y; simp
      · intro y hym; by_cases hy : y = x <;> simp [hy, hym]
      · intro k a hk
        cases k with
        | zero =>
          simp only [ancestorAt, Option.some.injEq] at hk
          subst hk
          simp
        | succ k => simp [ancestorAt, hp] at hk
    | some p =>
      simp only [hp] at hm
      cases hrec : Modify fuel h p true with
      | error e => simp [hrec] at hm
      | ok h1 =>
        simp only [hrec] at hm
        injection hm with hm
        subst hm
        obtain ⟨i1, i2, i3, i4, i5⟩ := ih h p h1 hrec
        refine ⟨?_, ?_, ?_, ?_, ?_⟩
        · intro y; simp [i1]
        · intro y; simp [i2]
        · intro y; simp [i3]
        · intro y hym; by_cases hy : y = x <;> simp [hy, i4 y hym]
        · intro k a hk
          cases k with
          | zero =>
            simp only [ancestorAt, Option.some.injEq] at hk
            subst hk
            simp
          | succ k =>
            simp only [ancestorAt, hp] at hk
            by_cases ha : a = x
            · simp [ha]
            · simp [ha, i5 k a hk]

/-- `Modify(true)` returns when the parent chain ends at a root within the fuel. -/
theorem Modify_true_returns (fuel : Nat) : ∀ (h : Heap) (x : ObjId) (d : Nat) (r : ObjId),
    ancestorAt h d x = some r → (h r).m_parent = none → d < fuel →
      ∃ h', Modify fuel h x true = .ok h' := by
  induction fuel with
  | zero => intro h x d r _ _ hd; omega
  | succ fuel ih =>
    intro h x d r hr hroot hd
    unfold Modify
    cases hp : (h x).m_parent with
    | none => exact ⟨_, rfl⟩
    | some p =>
      cases d with
      | zero =>
        simp only [ancestorAt, Option.some.injEq] at hr
        subst hr
        rw [hp] at hroot
        cases hroot
      | succ d =>
        simp only [ancestorAt, hp] at hr
        obtain ⟨h1, e1⟩ := ih h p d r hr hroot (by omega)
        simp only [e1]
        exact ⟨_, rfl⟩

/-- Changing the parent pointer of a parentless node that is not the root of
`x`'s chain leaves the chain of `x` as it was. -/
theorem ancestorAt_of_agree (h g : Heap) (c r : ObjId) (hc : (h c).m_parent = none)
    (hagree : ∀ y, y ≠ c → (g y).m_parent = (h y).m_parent) :
    ∀ (d : Nat) (x : ObjId), ancestorAt h d x = some r → ancestorAt g d x = some r := by
  intro d
  induction d with
  | zero => intro x hx; simpa [ancestorAt] using hx
  | succ d ih =>
    intro x hx
    cases hp : (h x).m_parent with
    | none => simp [ancestorAt, hp] at hx
    | some p =>
      have hxc : x ≠ c := by
        intro e
        rw [e, hc] at hp
        cases hp
      simp only [ancestorAt, hp] at hx
      simp only [ancestorAt, hagree x hxc, hp]
      exact ih p hx

theorem ancestorAt_congr (h g : Heap) (hpar : ∀ y, (g y).m_parent = (h y).m_parent) :
    ∀ (k : Nat) (x : ObjId), ancestorAt g k x = ancestorAt h k x := by
  intro k
  induction k with
  | zero => intro x; rfl
  | succ k ih =>
    intro x
    simp only [ancestorAt, hpar x]
    cases (h x).m_parent with
    | none => rfl
    | some p => exact ih p

/-- The effect of a returning `Tuning::AddChild`. -/
theorem Tuning.AddChild_spec (fuel : Nat) (h : Heap) (n c : ObjId) (h' : Heap)
    (hok : Tuning.AddChild fuel h n c = .ok h') :
    (h c).m_parent = none ∧ (h' c).m_parent = some n ∧
      (h' n).m_children = (h n).m_children ++ [c] ∧
      (∀ y, y ≠ c → (h' y).m_parent = (h y).m_parent) ∧
      (∀ y, y ≠ n → (h' y).m_children = (h y).m_children) ∧
      (∀ k a, ancestorAt h' k n = some a → (h' a).m_isModified = true) := by
  unfold Tuning.AddChild SetParent at hok
  cases hc : (h c).m_parent with
  | some p => simp [hc] at hok
  | none =>
    simp only [hc] at hok
    obtain ⟨i1, i2, _, _, i5⟩ := Modify_true_spec fuel _ n h' hok
    refine ⟨rfl, ?_, ?_, ?_, ?_, ?_⟩
    · rw [i1 c]; simp
    · rw [i2 n]; simp
    · intro y hy
      rw [i1 y]; simp [hy]
    · intro y hy
      rw [i2 y]; simp [hy]
    · intro k a hk
      apply i5 k a
      rw [← hk]
      exact (ancestorAt_congr _ h' i1 k n).symm

/-- `Tuning::AddChild` returns when the child has no parent and the parent chain
of the receiver ends, within the fuel, at a root other than the child. -/
theorem Tuning.AddChild_returns (fuel : Nat) (h : Heap) (n c : ObjId) (d : Nat) (r : ObjId)
    (hc : (h c).m_parent = none) (hr : ancestorAt h d n = some r)
    (hroot : (h r).m_parent = none) (hne : c ≠ r) (hd : d < fuel) :
    ∃ h', Tuning.AddChild fuel h n c = .ok h' := by
  unfold Tuning.AddChild SetParent
  simp only [hc]
  apply Modify_true_returns fuel _ n d r
  · apply ancestorAt_of_agree h _ c r hc _ d n hr
    intro y hy
    simp [hy]
  · have hrc : r ≠ c := fun e => hne e.symm
    simp [hrc, hroot]
  · exact hd

/-! ## Claims on child attachment -/

/-- C1. For a node `c` that has no parent, whenever `n.AddChild(c)`
(`Tuning::AddChild`) returns, the parent of `c` is `n` and `n.GetChildIndex(c)`
is at least 0; and the call does return when the parent chain of `n` ends
within the fuel at a root that is not `c` itself. -/
theorem Tuning.AddChild_sets_parent_and_index (fuel : Nat) (h : Heap) (n c : ObjId)
    (hc : GetParent h c = none) :
    (∀ h', Tuning.AddChild fuel h n c = .ok h' →
        GetParent h' c = some n ∧ 0 ≤ GetChildIndex h' n c) ∧
      (∀ d r, ancestorAt h d n = some r → GetParent h r = none → c ≠ r → d < fuel →
        ∃ h', Tuning.AddChild fuel h n c = .ok h') := by
  constructor
  · intro h' hok
    obtain ⟨_, j2, j3, _, _, _⟩ := Tuning.AddChild_spec fuel h n c h' hok
    refine ⟨j2, ?_⟩
    unfold GetChildIndex
    rw [j3]
    exact childIndexFrom_nonneg c _ 0 (le_refl 0) (by simp)
  · intro d r hr hroot hne hd
    exact Tuning.AddChild_returns fuel h n c d r hc hr hroot hne hd

/-- Witness for C1: adding the parentless node 2 to the tuning 1 of `heapChain`
returns, with parent 1 and a non-negative child index. -/
theorem Tuning.AddChild_sets_parent_and_index_witness :
    GetParent heapChain 2 = none ∧
      ∃ h', Tuning.AddChild 2 heapChain 1 2 = .ok h' ∧
        GetParent h' 2 = some 1 ∧ 0 ≤ GetChildIndex h' 1 2 := by
  have hc : GetParent heapChain 2 = none := rfl
  have key := Tuning.AddChild_sets_parent_and_index 2 heapChain 1 2 hc
  obtain ⟨h', hok⟩ := key.2 1 0 rfl rfl (by decide) (by decide)
  exact ⟨hc, h', hok, key.1 h' hok⟩

/-- C2 at the failing input.  In `heapChain` with a supported-child predicate
that refuses every child, the base `Object::AddChild` leaves the store as it is,
while `Tuning::AddChild`, which does not consult the predicate, appends node 2
to the children of the tuning 1 and sets its parent to 1. -/
theorem Tuning.AddChild_ignores_IsSupportedChild :
    Object.AddChild (fun _ _ _ => false) 2 heapChain 1 2 = .ok heapChain ∧
      ∃ h', Tuning.AddChild 2 heapChain 1 2 = .ok h' ∧
        (h' 1).m_children = [2] ∧ GetParent h' 2 = some 1 := by
  refine ⟨rfl, ?_⟩
  obtain ⟨h', hok⟩ := Tuning.AddChild_returns 2 heapChain 1 2 1 0 rfl rfl rfl (by decide)
    (by decide)
  obtain ⟨_, j2, j3, _, _, _⟩ := Tuning.AddChild_spec 2 heapChain 1 2 h' hok
  exact ⟨h', hok, by rw [j3]; rfl, j2⟩

/-- C3. When the parent of `c` is already non-null, `n.AddChild(c)`
(`Tuning::AddChild`) fails the precondition check of `SetParent`: the call ends
in an assertion failure and yields no store in which `c` is reparented or
appended to the children of `n`. -/
theorem Tuning.AddChild_rejects_parented (fuel : Nat) (h : Heap) (n c p : ObjId)
    (hp : GetParent h c = some p) :
    Tuning.AddChild fuel h n c = .error .assertFailed := by
  unfold GetParent at hp
  simp [Tuning.AddChild, SetParent, hp]

/-- Witness for C3: node 1 of `heapChain` already has parent 0, and adding it to
node 2 is an assertion failure. -/
theorem Tuning.AddChild_rejects_parented_witness :
    GetParent heapChain 1 = some 0 ∧
      Tuning.AddChild 5 heapChain 2 1 = .error .assertFailed :=
  ⟨rfl, Tuning.AddChild_rejects_parented 5 heapChain 2 1 0 rfl⟩

/-- C4. After `n.AddChild(c)` (`Tuning::AddChild`) has returned, `IsModified()`
is true for `n` and for every node on the parent chain of `n` up to the root,
whatever the flags were before the call. -/
theorem Tuning.AddChild_marks_ancestors (fuel : Nat) (h h' : Heap) (n c : ObjId)
    (hok : Tuning.AddChild fuel h n c = .ok h') :
    ∀ k a, ancestorAt h' k n = some a → IsModified h' a = true := by
  intro k a hk
  obtain ⟨_, _, _, _, _, j6⟩ := Tuning.AddChild_spec fuel h n c h' hok
  exact j6 k a hk

/-- Witness for C4: after adding node 2 to the tuning 1 of `heapChain`, whose
flags are all clear, both the tuning 1 and its parent 0 are modified. -/
theorem Tuning.AddChild_marks_ancestors_witness :
    ∃ h', Tuning.AddChild 2 heapChain 1 2 = .ok h' ∧
      IsModified h' 1 = true ∧ IsModified h' 0 = true := by
  obtain ⟨h', hok⟩ := Tuning.AddChild_returns 2 heapChain 1 2 1 0 rfl rfl rfl (by decide)
    (by decide)
  have hpar : ∀ y, y ≠ 2 → (h' y).m_parent = (heapChain y).m_parent :=
    (Tuning.AddChild_spec 2 heapChain 1 2 h' hok).2.2.2.1
  have key := Tuning.AddChild_marks_ancestors 2 heapChain h' 1 2 hok
  refine ⟨h', hok, key 0 1 rfl, key 1 0 ?_⟩
  simp only [ancestorAt, hpar 1 (by decide)]
  rfl

/-! ## The traversal as a walk along the document order -/

theorem runHook_append {σ : Type} (f : Hook σ) (a b : List ObjId) (s : σ) :
    runHook f (a ++ b) s =
      if (runHook f a s).1 = .FUNCTOR_STOP then (.FUNCTOR_STOP, (runHook f a s).2)
      else runHook f b (runHook f a s).2 := by
  induction a generalizing s with
  | nil => simp [runHook]
  | cons y ys ih =>
    simp only [List.cons_append, runHook]
    rcases hf : f s y with ⟨c, s1⟩
    cases c <;> simp [ih]

theorem runHook_code {σ : Type} (f : Hook σ) (l : List ObjId) (s : σ) :
    (runHook f l s).1 = .FUNCTOR_STOP ∨ (runHook f l s).1 = .FUNCTOR_CONTINUE := by
  induction l generalizing s with
  | nil => simp [runHook]
  | cons y ys ih =>
    simp only [runHook]
    rcases hf : f s y with ⟨c, s1⟩
    cases c <;> simp [ih]

theorem processChildren_eq_runHook {σ : Type} (f : Hook σ)
    (rec : ObjId → σ → Except Fault (FunctorCode × σ)) (pre : ObjId → Except Fault (List ObjId))
    (hrec : ∀ c L s, pre c = .ok L → rec c s = .ok (runHook f L s)) :
    ∀ (cs : List ObjId) (l : List ObjId) (s : σ), preorderChildren pre cs = .ok l →
      processChildren rec cs s = .ok (runHook f l s) := by
  intro cs
  induction cs with
  | nil =>
    intro l s hl
    simp only [preorderChildren, Except.ok.injEq] at hl
    subst hl
    rfl
  | cons c cs ih =>
    intro l s hl
    simp only [preorderChildren] at hl
    cases ha : pre c with
    | error e => simp [ha] at hl
    | ok a =>
      simp only [ha] at hl
      cases hb : preorderChildren pre cs with
      | error e => simp [hb] at hl
      | ok b =>
        simp only [hb, Except.ok.injEq] at hl
        subst hl
        simp only [processChildren, hrec c a s ha, runHook_append]
        rcases hr : runHook f a s with ⟨code, s1⟩
        have hcode := runHook_code f a s
        rw [hr] at hcode
        cases code with
        | FUNCTOR_STOP => simp
        | FUNCTOR_SIBLINGS => simp at hcode
        | FUNCTOR_CONTINUE => simpa using ih b s1 hb

/-- With no end functor, no filter and no depth limit, a hook that never answers
`FUNCTOR_SIBLINGS` is carried by `Process` along the depth-first order of the
subtree, up to the first `FUNCTOR_STOP`; the traversal returns whenever the
depth-first listing does. -/
theorem Process_eq_runHook {σ : Type} (E : ClassIds) (h : Heap) (f : Hook σ) (direction : Bool)
    (hns : ∀ s x, (f s x).1 ≠ .FUNCTOR_SIBLINGS) :
    ∀ (fuel : Nat) (x : ObjId) (L : List ObjId) (s : σ), preorder h direction fuel x = .ok L →
      Process E h f none none direction fuel UNLIMITED_DEPTH false x s =
        .ok (runHook f L s) := by
  intro fuel
  induction fuel with
  | zero => intro x L s hL; simp [preorder] at hL
  | succ fuel ih =>
    intro x L s hL
    simp only [preorder] at hL
    cases hl : preorderChildren (preorder h direction fuel) (childrenInOrder h direction x) with
    | error e => simp [hl] at hL
    | ok l =>
      simp only [hl, Except.ok.injEq] at hL
      subst hL
      have hch := processChildren_eq_runHook f
        (Process E h f none none direction fuel UNLIMITED_DEPTH false)
        (preorder h direction fuel) (fun c L s hc => ih c L s hc)
        (childrenInOrder h direction x) l
      simp only [Process, filtersAccept, runHook, childDeepness]
      rcases hf : f s x with ⟨c, s1⟩
      have hc := hns s x
      rw [hf] at hc
      cases c with
      | FUNCTOR_STOP => simp
      | FUNCTOR_SIBLINGS => simp at hc
      | FUNCTOR_CONTINUE =>
        simp only [Bool.not_true, Bool.and_false, Bool.false_eq_true, if_false, if_true,
          hch s1 hl]
        rcases hr : runHook f l s1 with ⟨code, s2⟩
        have hcode := runHook_code f l s1
        rw [hr] at hcode
        cases code with
        | FUNCTOR_STOP => simp
        | FUNCTOR_SIBLINGS => simp at hcode
        | FUNCTOR_CONTINUE => simp [callEndFunctor]

/-! ## The range search along the document order -/

theorem FindAllBetween_before (comparison : ObjId → Bool) (start last : ObjId)
    (el : List ObjId) : ∀ (pre : List ObjId), start ∉ pre →
      runHook (FindAllBetween comparison last) pre { m_start := some start, m_elements := el } =
        (.FUNCTOR_CONTINUE, { m_start := some start, m_elements := el }) := by
  intro pre
  induction pre with
  | nil => intro _; rfl
  | cons y ys ih =>
    intro hy
    have h1 : start ≠ y := fun e => hy (by simp [e])
    have h2 : start ∉ ys := fun e => hy (by simp [e])
    simp only [runHook, FindAllBetween]
    simp [h1, ih h2]

theorem FindAllBetween_inside (comparison : ObjId → Bool) (last : ObjId) (post : List ObjId) :
    ∀ (body : List ObjId) (el : List ObjId), last ∉ body →
      runHook (FindAllBetween comparison last) (body ++ last :: post)
          { m_start := none, m_elements := el } =
        (.FUNCTOR_STOP,
          { m_start := none, m_elements := el ++ (body ++ [last]).filter comparison }) := by
  intro body
  induction body with
  | nil =>
    intro el _
    simp only [List.nil_append, runHook, FindAllBetween]
    by_cases hc : comparison last = true <;> simp [hc]
  | cons y ys ih =>
    intro el hy
    have h1 : y ≠ last := fun e => hy (by simp [e])
    have h2 : last ∉ ys := fun e => hy (by simp [e])
    simp only [List.cons_append, runHook, FindAllBetween]
    by_cases hc : comparison y = true
    · simp [h1, hc, ih _ h2]
    · simp [h1, hc, ih _ h2]

theorem FindAllBetween_range (comparison : ObjId → Bool) (start last : ObjId)
    (pre body post el : List ObjId) (hhead : (body ++ [last]).head? = some start)
    (hs : start ∉ pre) (hl : last ∉ body) :
    runHook (FindAllBetween comparison last) (pre ++ body ++ last :: post)
        { m_start := some start, m_elements := el } =
      (.FUNCTOR_STOP,
        { m_start := none, m_elements := el ++ (body ++ [last]).filter comparison }) := by
  rw [List.append_assoc, runHook_append, FindAllBetween_before comparison start last el pre hs]
  simp only [reduceCtorEq, if_false]
  cases body with
  | nil =>
    simp only [List.nil_append, List.head?_cons, Option.some.injEq] at hhead
    subst hhead
    simp only [List.nil_append, runHook, FindAllBetween]
    by_cases hc : comparison last = true <;> simp [hc]
  | cons y ys =>
    simp only [List.cons_append, List.head?_cons, Option.some.injEq] at hhead
    subst hhead
    have h1 : y ≠ last := fun e => hl (by simp [e])
    have h2 : last ∉ ys := fun e => hl (by simp [e])
    simp only [List.cons_append, runHook, FindAllBetween]
    by_cases hc : comparison y = true
    · simp [h1, hc, FindAllBetween_inside comparison last post ys _ h2]
    · simp [h1, hc, FindAllBetween_inside comparison last post ys _ h2]

theorem FindAllBetween_no_siblings (comparison : ObjId → Bool) (last : ObjId)
    (params : FindAllBetweenParams) (x : ObjId) :
    (FindAllBetween comparison last params x).1 ≠ .FUNCTOR_SIBLINGS := by
  unfold FindAllBetween
  by_cases h1 : params.m_start ≠ none ∧ params.m_start ≠ some x
  · rw [if_pos h1]; simp
  · rw [if_neg h1]
    by_cases h2 : x = last <;> simp [h2]

/-! ## Shape of the depth-first order -/

theorem mem_childrenInOrder (h : Heap) (direction : Bool) (x c : ObjId) :
    c ∈ childrenInOrder h direction x ↔ c ∈ (h x).m_children := by
  unfold childrenInOrder
  cases direction <;> simp

theorem Descendant.head {h : Heap} {x c d : ObjId} (hc : c ∈ (h x).m_children)
    (hd : Descendant h c d) : Descendant h x d := by
  induction hd with
  | child hm => exact Descendant.step (Descendant.child hc) hm
  | step _ hm ih => exact Descendant.step ih hm

/-- Every sibling contributes its own list, as a sublist of the whole, and every
listed object comes from one sibling. -/
theorem preorderChildren_parts (pre : ObjId → Except Fault (List ObjId)) :
    ∀ (cs l : List ObjId), preorderChildren pre cs = .ok l →
      (∀ c, c ∈ cs → ∃ Lc, pre c = .ok Lc ∧ Lc.Sublist l) ∧
      (∀ z, z ∈ l → ∃ c, c ∈ cs ∧ ∃ Lc, pre c = .ok Lc ∧ z ∈ Lc) := by
  intro cs
  induction cs with
  | nil =>
    intro l hl
    simp only [preorderChildren, Except.ok.injEq] at hl
    subst hl
    simp
  | cons c cs ih =>
    intro l hl
    simp only [preorderChildren] at hl
    cases ha : pre c with
    | error e => simp [ha] at hl
    | ok a =>
      simp only [ha] at hl
      cases hb : preorderChildren pre cs with
      | error e => simp [hb] at hl
      | ok b =>
        simp only [hb, Except.ok.injEq] at hl
        subst hl
        obtain ⟨ih1, ih2⟩ := ih b hb
        constructor
        · intro c' hc'
          rcases List.mem_cons.1 hc' with e | e
          · subst e
            exact ⟨a, ha, List.sublist_append_left a b⟩
          · obtain ⟨Lc, h1, h2⟩ := ih1 c' e
            exact ⟨Lc, h1, h2.trans (List.sublist_append_right a b)⟩
        · intro z hz
          rcases List.mem_append.1 hz with e | e
          · exact ⟨c, List.mem_cons_self c cs, a, ha, e⟩
          · obtain ⟨c', h1, Lc, h2, h3⟩ := ih2 z e
            exact ⟨c', List.mem_cons_of_mem c h1, Lc, h2, h3⟩

theorem preorder_succ (h : Heap) (direction : Bool) (fuel : Nat) (y : ObjId) (L : List ObjId)
    (hL : preorder h direction (fuel + 1) y = .ok L) :
    ∃ l, preorderChildren (preorder h direction fuel) (childrenInOrder h direction y) = .ok l ∧
      L = y :: l := by
  simp only [preorder] at hL
  cases hl : preorderChildren (preorder h direction fuel) (childrenInOrder h direction y) with
  | error e => simp [hl] at hL
  | ok l =>
    simp only [hl, Except.ok.injEq] at hL
    exact ⟨l, rfl, hL.symm⟩

theorem preorder_self_mem (h : Heap) (direction : Bool) (fuel : Nat) (y : ObjId)
    (L : List ObjId) (hL : preorder h direction fuel y = .ok L) : y ∈ L := by
  cases fuel with
  | zero => simp [preorder] at hL
  | succ fuel =>
    obtain ⟨l, _, e⟩ := preorder_succ h direction fuel y L hL
    simp [e]

/-- The children of a listed object are listed, after the root. -/
theorem preorder_children_mem (h : Heap) (direction : Bool) :
    ∀ (fuel : Nat) (y : ObjId) (L : List ObjId), preorder h direction fuel y = .ok L →
      ∀ m, m ∈ L → ∀ z, z ∈ (h m).m_children → z ∈ L.tail := by
  intro fuel
  induction fuel with
  | zero => intro y L hL; simp [preorder] at hL
  | succ fuel ih =>
    intro y L hL m hm z hz
    obtain ⟨l, hl, e⟩ := preorder_succ h direction fuel y L hL
    subst e
    obtain ⟨p1, p2⟩ := preorderChildren_parts _ _ l hl
    simp only [List.tail_cons]
    rcases List.mem_cons.1 hm with e | e
    · subst e
      obtain ⟨Lz, h1, h2⟩ := p1 z ((mem_childrenInOrder h direction m z).2 hz)
      exact h2.subset (preorder_self_mem h direction fuel z Lz h1)
    · obtain ⟨c, hc, Lc, h1, h2⟩ := p2 m e
      obtain ⟨Lc', h3, h4⟩ := p1 c hc
      rw [h1] at h3
      injection h3 with h3
      subst h3
      exact h4.subset (List.mem_of_mem_tail (ih c Lc h1 m h2 z hz))

/-- The descendants of a listed object are listed, after the root. -/
theorem preorder_descendant_mem (h : Heap) (direction : Bool) (fuel : Nat) (y : ObjId)
    (L : List ObjId) (hL : preorder h direction fuel y = .ok L) (m z : ObjId) (hm : m ∈ L)
    (hd : Descendant h m z) : z ∈ L.tail := by
  induction hd with
  | child hc => exact preorder_children_mem h direction fuel y L hL _ hm _ hc
  | step _ hc ih =>
    exact preorder_children_mem h direction fuel y L hL _ (List.mem_of_mem_tail ih) _ hc

/-- A listed object is the root or one of its descendants. -/
theorem preorder_mem_descendant (h : Heap) (direction : Bool) :
    ∀ (fuel : Nat) (y : ObjId) (L : List ObjId), preorder h direction fuel y = .ok L →
      ∀ z, z ∈ L → z = y ∨ Descendant h y z := by
  intro fuel
  induction fuel with
  | zero => intro y L hL; simp [preorder] at hL
  | succ fuel ih =>
    intro y L hL z hz
    obtain ⟨l, hl, e⟩ := preorder_succ h direction fuel y L hL
    subst e
    obtain ⟨_, p2⟩ := preorderChildren_parts _ _ l hl
    rcases List.mem_cons.1 hz with e | e
    · exact Or.inl e
    · obtain ⟨c, hc, Lc, h1, h2⟩ := p2 z e
      have hcy : c ∈ (h y).m_children := (mem_childrenInOrder h direction y c).1 hc
      rcases ih c Lc h1 z h2 with e2 | e2
      · subst e2
        exact Or.inr (Descendant.child hcy)
      · exact Or.inr (Descendant.head hcy e2)

/-- In a listing without repetition no listed object is its own descendant. -/
theorem preorder_nodup_irrefl (h : Heap) (direction : Bool) :
    ∀ (fuel : Nat) (y : ObjId) (L : List ObjId), preorder h direction fuel y = .ok L →
      L.Nodup → ∀ m, m ∈ L → ¬ Descendant h m m := by
  intro fuel
  induction fuel with
  | zero => intro y L hL; simp [preorder] at hL
  | succ fuel ih =>
    intro y L hL hnd m hm hd
    obtain ⟨l, hl, e⟩ := preorder_succ h direction fuel y L hL
    subst e
    obtain ⟨p1, p2⟩ := preorderChildren_parts _ _ l hl
    by_cases hmy : m = y
    · subst hmy
      have := preorder_descendant_mem h direction (fuel + 1) m (m :: l) hL m m hm hd
      simp only [List.tail_cons] at this
      exact (List.nodup_cons.1 hnd).1 this
    · have hml : m ∈ l := by
        rcases List.mem_cons.1 hm with e | e
        · exact absurd e hmy
        · exact e
      obtain ⟨c, hc, Lc, h1, h2⟩ := p2 m hml
      obtain ⟨Lc', h3, h4⟩ := p1 c hc
      rw [h1] at h3
      injection h3 with h3
      subst h3
      exact ih c Lc h1 (h4.nodup (List.nodup_cons.1 hnd).2) m h2 hd

/-! ## The traversal cut below one object -/

theorem prunedPreorder_succ (h : Heap) (direction : Bool) (X : ObjId) (fuel : Nat) (y : ObjId)
    (P : List ObjId) (hP : prunedPreorder h direction X (fuel + 1) y = .ok P) :
    (y = X ∧ P = [y]) ∨
      (y ≠ X ∧ ∃ p, preorderChildren (prunedPreorder h direction X fuel)
        (childrenInOrder h direction y) = .ok p ∧ P = y :: p) := by
  simp only [prunedPreorder] at hP
  by_cases hy : y = X
  · simp only [hy, if_true, Except.ok.injEq] at hP
    exact Or.inl ⟨hy, by rw [← hP, hy]⟩
  · simp only [hy, if_false] at hP
    cases hl : preorderChildren (prunedPreorder h direction X fuel)
        (childrenInOrder h direction y) with
    | error e => simp [hl] at hP
    | ok l =>
      simp only [hl, Except.ok.injEq] at hP
      exact Or.inr ⟨hy, l, rfl, hP.symm⟩

theorem prunedPreorder_self_mem (h : Heap) (direction : Bool) (X : ObjId) (fuel : Nat)
    (y : ObjId) (P : List ObjId) (hP : prunedPreorder h direction X fuel y = .ok P) :
    y ∈ P := by
  cases fuel with
  | zero => simp [prunedPreorder] at hP
  | succ fuel =>
    rcases prunedPreorder_succ h direction X fuel y P hP with ⟨_, e⟩ | ⟨_, p, _, e⟩ <;>
      simp [e]

theorem preorderChildren_transfer (pre pre2 : ObjId → Except Fault (List ObjId))
    (hrel : ∀ c Lc, pre c = .ok Lc → ∃ Pc, pre2 c = .ok Pc ∧ Pc ⊆ Lc) :
    ∀ (cs l : List ObjId), preorderChildren pre cs = .ok l →
      ∃ p, preorderChildren pre2 cs = .ok p ∧ p ⊆ l := by
  intro cs
  induction cs with
  | nil =>
    intro l hl
    simp only [preorderChildren, Except.ok.injEq] at hl
    subst hl
    exact ⟨[], rfl, by simp⟩
  | cons c cs ih =>
    intro l hl
    simp only [preorderChildren] at hl
    cases ha : pre c with
    | error e => simp [ha] at hl
    | ok a =>
      simp only [ha] at hl
      cases hb : preorderChildren pre cs with
      | error e => simp [hb] at hl
      | ok b =>
        simp only [hb, Except.ok.injEq] at hl
        subst hl
        obtain ⟨pa, h1, h2⟩ := hrel c a ha
        obtain ⟨pb, h3, h4⟩ := ih b hb
        refine ⟨pa ++ pb, by simp [preorderChildren, h1, h3], ?_⟩
        intro z hz
        rcases List.mem_append.1 hz with e | e
        · exact List.mem_append_left _ (h2 e)
        · exact List.mem_append_right _ (h4 e)

/-- The cut traversal returns whenever the full one does, and lists no object
that the full one does not list. -/
theorem prunedPreorder_of_preorder (h : Heap) (direction : Bool) (X : ObjId) :
    ∀ (fuel : Nat) (y : ObjId) (L : List ObjId), preorder h direction fuel y = .ok L →
      ∃ P, prunedPreorder h direction X fuel y = .ok P ∧ P ⊆ L := by
  intro fuel
  induction fuel with
  | zero => intro y L hL; simp [preorder] at hL
  | succ fuel ih =>
    intro y L hL
    obtain ⟨l, hl, e⟩ := preorder_succ h direction fuel y L hL
    subst e
    by_cases hy : y = X
    · exact ⟨[y], by simp [prunedPreorder, hy], by simp⟩
    · obtain ⟨p, h1, h2⟩ := preorderChildren_transfer _ _ (ih) _ l hl
      refine ⟨y :: p, by simp [prunedPreorder, hy, h1], ?_⟩
      intro z hz
      rcases List.mem_cons.1 hz with e | e
      · simp [e]
      · exact List.mem_cons_of_mem _ (h2 e)

theorem prunedPreorder_subset (h : Heap) (direction : Bool) (X : ObjId) (fuel : Nat)
    (y : ObjId) (L P : List ObjId) (hL : preorder h direction fuel y = .ok L)
    (hP : prunedPreorder h direction X fuel y = .ok P) : P ⊆ L := by
  obtain ⟨P', h1, h2⟩ := prunedPreorder_of_preorder h direction X fuel y L hL
  rw [hP] at h1
  injection h1 with h1
  subst h1
  exact h2

theorem prunedChildren_subset (h : Heap) (direction : Bool) (X : ObjId) (fuel : Nat)
    (cs l p : List ObjId) (hl : preorderChildren (preorder h direction fuel) cs = .ok l)
    (hp : preorderChildren (prunedPreorder h direction X fuel) cs = .ok p) : p ⊆ l := by
  obtain ⟨p', h1, h2⟩ := preorderChildren_transfer _ _
    (prunedPreorder_of_preorder h direction X fuel) cs l hl
  rw [hp] at h1
  injection h1 with h1
  subst h1
  exact h2

theorem prunedChildren_avoid (h : Heap) (direction : Bool) (X D : ObjId)
    (hD : Descendant h X D) (fuel : Nat)
    (IH : ∀ (y : ObjId) (L P : List ObjId), preorder h direction fuel y = .ok L →
      prunedPreorder h direction X fuel y = .ok P → L.Nodup → X ∈ L → D ∈ P → False) :
    ∀ (cs l p : List ObjId), preorderChildren (preorder h direction fuel) cs = .ok l →
      preorderChildren (prunedPreorder h direction X fuel) cs = .ok p →
      l.Nodup → X ∈ l → D ∈ p → False := by
  intro cs
  induction cs with
  | nil =>
    intro l p hl _ _ hX _
    simp only [preorderChildren, Except.ok.injEq] at hl
    subst hl
    simp at hX
  | cons c cs ih =>
    intro l p hl hp hnd hX hDp
    simp only [preorderChildren] at hl hp
    cases ha : preorder h direction fuel c with
    | error e => simp [ha] at hl
    | ok a =>
      simp only [ha] at hl
      cases hb : preorderChildren (preorder h direction fuel) cs with
      | error e => simp [hb] at hl
      | ok b =>
        simp only [hb, Except.ok.injEq] at hl
        subst hl
        cases hpa : prunedPreorder h direction X fuel c with
        | error e => simp [hpa] at hp
        | ok pa =>
          simp only [hpa] at hp
          cases hpb : preorderChildren (prunedPreorder h direction X fuel) cs with
          | error e => simp [hpb] at hp
          | ok pb =>
            simp only [hpb, Except.ok.injEq] at hp
            subst hp
            have hsa : pa ⊆ a := prunedPreorder_subset h direction X fuel c a pa ha hpa
            have hsb : pb ⊆ b := prunedChildren_subset h direction X fuel cs b pb hb hpb
            obtain ⟨nda, ndb, hdis⟩ := List.nodup_append.1 hnd
            have inA : X ∈ a → D ∈ a := fun hx =>
              List.mem_of_mem_tail (preorder_descendant_mem h direction fuel c a ha X D hx hD)
            have inB : X ∈ b → D ∈ b := by
              intro hx
              obtain ⟨p1, p2⟩ := preorderChildren_parts _ _ b hb
              obtain ⟨c', hc', Lc, h1, h2⟩ := p2 X hx
              obtain ⟨Lc', h3, h4⟩ := p1 c' hc'
              rw [h1] at h3
              injection h3 with h3
              subst h3
              exact h4.subset (List.mem_of_mem_tail
                (preorder_descendant_mem h direction fuel c' Lc h1 X D h2 hD))
            rcases List.mem_append.1 hX with hXa | hXb
            · rcases List.mem_append.1 hDp with hDa | hDb
              · exact IH c a pa ha hpa nda hXa hDa
              · exact hdis (inA hXa) (hsb hDb)
            · rcases List.mem_append.1 hDp with hDa | hDb
              · exact hdis (hsa hDa) (inB hXb)
              · exact ih b pb hb hpb ndb hXb hDb

/-- In a tree (a listing without repetition) that contains `X`, the cut
traversal lists no proper descendant of `X`. -/
theorem prunedPreorder_avoid (h : Heap) (direction : Bool) (X D : ObjId)
    (hD : Descendant h X D) :
    ∀ (fuel : Nat) (y : ObjId) (L P : List ObjId), preorder h direction fuel y = .ok L →
      prunedPreorder h direction X fuel y = .ok P → L.Nodup → X ∈ L → D ∈ P → False := by
  intro fuel
  induction fuel with
  | zero => intro y L P hL; simp [preorder] at hL
  | succ fuel ih =>
    intro y L P hL hP hnd hX hDP
    obtain ⟨l, hl, e⟩ := preorder_succ h direction fuel y L hL
    subst e
    have hDl : D ∈ l := by
      simpa using preorder_descendant_mem h direction (fuel + 1) y (y :: l) hL X D hX hD
    rcases prunedPreorder_succ h direction X fuel y P hP with ⟨hy, e⟩ | ⟨hy, p, hp, e⟩
    · subst e
      have hDy : D = y := by simpa using hDP
      rw [hDy] at hDl
      exact (List.nodup_cons.1 hnd).1 hDl
    · subst e
      rcases List.mem_cons.1 hDP with hDy | hDp
      · rw [hDy] at hDl
        exact (List.nodup_cons.1 hnd).1 hDl
      · have hXl : X ∈ l := by
          rcases List.mem_cons.1 hX with e | e
          · exact absurd e.symm hy
          · exact e
        exact prunedChildren_avoid h direction X D hD fuel ih _ l p hl hp
          (List.nodup_cons.1 hnd).2 hXl hDp

/-- Every object of the subtree is listed by the cut traversal unless it is a
proper descendant of `X`. -/
theorem prunedPreorder_complete (h : Heap) (direction : Bool) (X : ObjId) :
    ∀ (fuel : Nat) (y : ObjId) (L P : List ObjId), preorder h direction fuel y = .ok L →
      prunedPreorder h direction X fuel y = .ok P →
      ∀ m, m ∈ L → m ∈ P ∨ Descendant h X m := by
  intro fuel
  induction fuel with
  | zero => intro y L P hL; simp [preorder] at hL
  | succ fuel ih =>
    intro y L P hL hP m hm
    obtain ⟨l, hl, e⟩ := preorder_succ h direction fuel y L hL
    subst e
    rcases prunedPreorder_succ h direction X fuel y P hP with ⟨hy, e⟩ | ⟨hy, p, hp, e⟩
    · subst e
      rcases preorder_mem_descendant h direction (fuel + 1) y (y :: l) hL m hm with e | e
      · exact Or.inl (by simp [e])
      · exact Or.inr (hy ▸ e)
    · subst e
      rcases List.mem_cons.1 hm with e | e
      · exact Or.inl (by simp [e])
      · obtain ⟨_, p2⟩ := preorderChildren_parts _ _ l hl
        obtain ⟨q1, _⟩ := preorderChildren_parts _ _ p hp
        obtain ⟨c, hc, Lc, h1, h2⟩ := p2 m e
        obtain ⟨Pc, h3, h4⟩ := q1 c hc
        rcases ih c Lc Pc h1 h3 m h2 with e2 | e2
        · exact Or.inl (List.mem_cons_of_mem _ (h4.subset e2))
        · exact Or.inr e2

/-- The children of an object listed by the cut traversal, other than `X`, are
listed too. -/
theorem prunedPreorder_children (h : Heap) (direction : Bool) (X : ObjId) :
    ∀ (fuel : Nat) (y : ObjId) (P : List ObjId), prunedPreorder h direction X fuel y = .ok P →
      ∀ m, m ∈ P → m ≠ X → ∀ z, z ∈ (h m).m_children → z ∈ P := by
  intro fuel
  induction fuel with
  | zero => intro y P hP; simp [prunedPreorder] at hP
  | succ fuel ih =>
    intro y P hP m hm hmX z hz
    rcases prunedPreorder_succ h direction X fuel y P hP with ⟨hy, e⟩ | ⟨hy, p, hp, e⟩
    · subst e
      have : m = y := by simpa using hm
      exact absurd (this.trans hy) hmX
    · subst e
      obtain ⟨q1, q2⟩ := preorderChildren_parts _ _ p hp
      rcases List.mem_cons.1 hm with e | e
      · subst e
        obtain ⟨Pz, h1, h2⟩ := q1 z ((mem_childrenInOrder h direction m z).2 hz)
        exact List.mem_cons_of_mem _
          (h2.subset (prunedPreorder_self_mem h direction X fuel z Pz h1))
      · obtain ⟨c, hc, Pc, h1, h2⟩ := q2 m e
        obtain ⟨Pc', h3, h4⟩ := q1 c hc
        rw [h1] at h3
        injection h3 with h3
        subst h3
        exact List.mem_cons_of_mem _ (h4.subset (ih c Pc h1 m h2 hmX z hz))

theorem processChildren_traced {σ : Type}
    (rec : ObjId → σ × List ObjId → Except Fault (FunctorCode × (σ × List ObjId)))
    (pre : ObjId → Except Fault (List ObjId))
    (hrec : ∀ c Pc s tr, pre c = .ok Pc →
      ∃ s', rec c (s, tr) = .ok (.FUNCTOR_CONTINUE, (s', tr ++ Pc))) :
    ∀ (cs p : List ObjId) (s : σ) (tr : List ObjId), preorderChildren pre cs = .ok p →
      ∃ s', processChildren rec cs (s, tr) = .ok (.FUNCTOR_CONTINUE, (s', tr ++ p)) := by
  intro cs
  induction cs with
  | nil =>
    intro p s tr hp
    simp only [preorderChildren, Except.ok.injEq] at hp
    subst hp
    exact ⟨s, by simp [processChildren]⟩
  | cons c cs ih =>
    intro p s tr hp
    simp only [preorderChildren] at hp
    cases ha : pre c with
    | error e => simp [ha] at hp
    | ok a =>
      simp only [ha] at hp
      cases hb : preorderChildren pre cs with
      | error e => simp [hb] at hp
      | ok b =>
        simp only [hb, Except.ok.injEq] at hp
        subst hp
        obtain ⟨s1, h1⟩ := hrec c a s tr ha
        obtain ⟨s2, h2⟩ := ih b s1 (tr ++ a) hb
        exact ⟨s2, by simp [processChildren, h1, h2]⟩

/-- A hook that answers `FUNCTOR_SIBLINGS` on `X` and `FUNCTOR_CONTINUE` everywhere
else is called by `Process` on exactly the objects of the cut traversal, in
that order. -/
theorem Process_traced_pruned {σ : Type} (E : ClassIds) (h : Heap) (f : Hook σ)
    (direction : Bool) (X : ObjId)
    (hf : ∀ t y, (f t y).1 = if y = X then .FUNCTOR_SIBLINGS else .FUNCTOR_CONTINUE) :
    ∀ (fuel : Nat) (y : ObjId) (P : List ObjId) (s : σ) (tr : List ObjId),
      prunedPreorder h direction X fuel y = .ok P →
      ∃ s', Process E h (traced f) none none direction fuel UNLIMITED_DEPTH false y (s, tr) =
        .ok (.FUNCTOR_CONTINUE, (s', tr ++ P)) := by
  intro fuel
  induction fuel with
  | zero => intro y P s tr hP; simp [prunedPreorder] at hP
  | succ fuel ih =>
    intro y P s tr hP
    rcases prunedPreorder_succ h direction X fuel y P hP with ⟨hy, e⟩ | ⟨hy, p, hp, e⟩
    · subst e
      refine ⟨(f s y).2, ?_⟩
      have e1 : traced f (s, tr) y = (.FUNCTOR_SIBLINGS, ((f s y).2, tr ++ [y])) := by
        simp [traced, hf, hy]
      simp [Process, filtersAccept, e1, callEndFunctor]
    · subst e
      have e1 : traced f (s, tr) y = (.FUNCTOR_CONTINUE, ((f s y).2, tr ++ [y])) := by
        simp [traced, hf, hy]
      obtain ⟨s2, h2⟩ := processChildren_traced
        (Process E h (traced f) none none direction fuel UNLIMITED_DEPTH false)
        (prunedPreorder h direction X fuel) (fun c Pc s tr hc => ih c Pc s tr hc)
        (childrenInOrder h direction y) p (f s y).2 (tr ++ [y]) hp
      refine ⟨s2, ?_⟩
      simp [Process, filtersAccept, e1, childDeepness, h2, callEndFunctor]

/-! ## Claims on the traversal -/

/-- C5. With an enter hook that returns `FUNCTOR_STOP` on every object, and
`skipFirst` false, `Process` calls the hook on the root and on no other object,
and returns `FUNCTOR_STOP`: this holds for every store (so for every size and
shape of tree), every end functor, depth, direction, and every filter that lets
the root through. -/
theorem Process_stop_visits_root_only {σ : Type} (E : ClassIds) (h : Heap) (functor : Hook σ)
    (endFunctor : Option (Hook (σ × List ObjId))) (filters : Option (ObjId → Bool))
    (direction : Bool) (fuel : Nat) (deepness : Int) (root : ObjId) (s : σ)
    (hstop : ∀ t x, (functor t x).1 = .FUNCTOR_STOP)
    (hfilter : filtersAccept filters root = true) :
    Process E h (traced functor) endFunctor filters direction (fuel + 1) deepness false root
        (s, []) = .ok (.FUNCTOR_STOP, ((functor s root).2, [root])) := by
  have e : traced functor (s, []) root = (.FUNCTOR_STOP, ((functor s root).2, [root])) := by
    simp [traced, hstop]
  simp [Process, hfilter, e]

/-- Witness for C5: on `heapChain`, whose root 0 has a child, the hook that
always stops is called once, on the root 0. -/
theorem Process_stop_visits_root_only_witness :
    Process classIdsExample heapChain (traced stopAlways) none none FORWARD 3 UNLIMITED_DEPTH
        false 0 (0, []) = .ok (.FUNCTOR_STOP, (1, [0])) :=
  Process_stop_visits_root_only classIdsExample heapChain stopAlways none none FORWARD 2
    UNLIMITED_DEPTH 0 0 (fun _ _ => rfl) rfl

/-- C6. Let the tree under `root` be listed without repetition and contain `X`,
and let the enter hook answer `FUNCTOR_SIBLINGS` on `X` and `FUNCTOR_CONTINUE` on
every other object.  Then `Process` (no end functor, no filter, no depth limit,
either direction) returns, the hook is called on `X`, on no proper descendant of
`X`, and on every child of the parent of `X`, that is on every sibling of `X`. -/
theorem Process_siblings_only {σ : Type} (E : ClassIds) (h : Heap) (f : Hook σ)
    (direction : Bool) (fuel : Nat) (root X : ObjId) (L : List ObjId) (s : σ)
    (hf : ∀ t y, (f t y).1 = if y = X then .FUNCTOR_SIBLINGS else .FUNCTOR_CONTINUE)
    (hpre : preorder h direction fuel root = .ok L) (hnd : L.Nodup) (hX : X ∈ L) :
    ∃ s' tr, Process E h (traced f) none none direction fuel UNLIMITED_DEPTH false root
        (s, []) = .ok (.FUNCTOR_CONTINUE, (s', tr)) ∧
      X ∈ tr ∧ (∀ D, Descendant h X D → D ∉ tr) ∧
      (∀ P S, P ∈ L → X ∈ (h P).m_children → S ∈ (h P).m_children → S ∈ tr) := by
  obtain ⟨P, hP, _⟩ := prunedPreorder_of_preorder h direction X fuel root L hpre
  obtain ⟨s', hs'⟩ := Process_traced_pruned E h f direction X hf fuel root P s [] hP
  have hirr : ¬ Descendant h X X := preorder_nodup_irrefl h direction fuel root L hpre hnd X hX
  refine ⟨s', P, by simpa using hs', ?_, ?_, ?_⟩
  · rcases prunedPreorder_complete h direction X fuel root L P hpre hP X hX with e | e
    · exact e
    · exact absurd e hirr
  · intro D hD hDP
    exact prunedPreorder_avoid h direction X D hD fuel root L P hpre hP hnd hX hDP
  · intro Q S hQ hXQ hSQ
    have hQX : Q ≠ X := by
      intro e
      rw [e] at hXQ
      exact hirr (Descendant.child hXQ)
    have hQP : Q ∈ P := by
      rcases prunedPreorder_complete h direction X fuel root L P hpre hP Q hQ with e | e
      · exact e
      · exact absurd (Descendant.step e hXQ) hirr
    exact prunedPreorder_children h direction X fuel root P hP Q hQP hQX S hSQ

/-- Witness for C6: in `heapFive`, with the hook answering `FUNCTOR_SIBLINGS` on
11, the hook is called on 11 and on its sibling 14 but on neither child 12 nor
13 of 11. -/
theorem Process_siblings_only_witness :
    ∃ s' tr, Process classIdsExample heapFive (traced (siblingsAt 11)) none none FORWARD 3
        UNLIMITED_DEPTH false 10 (0, []) = .ok (.FUNCTOR_CONTINUE, (s', tr)) ∧
      11 ∈ tr ∧ 12 ∉ tr ∧ 13 ∉ tr ∧ 14 ∈ tr := by
  have hpre : preorder heapFive FORWARD 3 10 = .ok [10, 11, 12, 13, 14] := rfl
  obtain ⟨s', tr, h1, h2, h3, h4⟩ :=
    Process_siblings_only classIdsExample heapFive (siblingsAt 11) FORWARD 3 10 11
      [10, 11, 12, 13, 14] 0 (fun _ _ => rfl) hpre (by decide) (by decide)
  have c12 : (12 : ObjId) ∈ (heapFive 11).m_children := by decide
  have c13 : (13 : ObjId) ∈ (heapFive 11).m_children := by decide
  have c11 : (11 : ObjId) ∈ (heapFive 10).m_children := by decide
  have c14 : (14 : ObjId) ∈ (heapFive 10).m_children := by decide
  exact ⟨s', tr, h1, h2, h3 12 (Descendant.child c12), h3 13 (Descendant.child c13),
    h4 10 14 (by decide) c11 c14⟩

/-- C7. Over a tree whose document order is `pre ++ body ++ last :: post`, where
`start` is the first object of `body ++ [last]`, does not occur in `pre`, and
`last` does not occur in `body`, `FindAllDescendantsBetween` returns the objects
of `body ++ [last]` that satisfy the comparison, in document order, both
endpoints included.  In particular, for a tree whose document order is
`[A, B, C, D, E]` (five distinct objects), a comparison that accepts every
object, start `B` and end `D`, it returns exactly `[B, C, D]`. -/
theorem FindAllDescendantsBetween_range (E : ClassIds) (h : Heap) (fuel : Nat) (root : ObjId)
    (objects : List ObjId) :
    (∀ (comparison : ObjId → Bool) (start last : ObjId) (pre body post : List ObjId),
      preorder h FORWARD fuel root = .ok (pre ++ body ++ last :: post) →
      (body ++ [last]).head? = some start → start ∉ pre → last ∉ body →
      FindAllDescendantsBetween E h fuel root objects comparison start last true
          UNLIMITED_DEPTH = .ok ((body ++ [last]).filter comparison)) ∧
    (∀ (A B C D F : ObjId), preorder h FORWARD fuel root = .ok [A, B, C, D, F] →
      [A, B, C, D, F].Nodup →
      FindAllDescendantsBetween E h fuel root objects (fun _ => true) B D true
          UNLIMITED_DEPTH = .ok [B, C, D]) := by
  have general : ∀ (comparison : ObjId → Bool) (start last : ObjId)
      (pre body post : List ObjId),
      preorder h FORWARD fuel root = .ok (pre ++ body ++ last :: post) →
      (body ++ [last]).head? = some start → start ∉ pre → last ∉ body →
      FindAllDescendantsBetween E h fuel root objects comparison start last true
          UNLIMITED_DEPTH = .ok ((body ++ [last]).filter comparison) := by
    intro comparison start last pre body post hpre hhead hs hl
    unfold FindAllDescendantsBetween
    rw [Process_eq_runHook E h (FindAllBetween comparison last) FORWARD
      (FindAllBetween_no_siblings comparison last) fuel root _ _ hpre]
    simp only [if_true]
    rw [FindAllBetween_range comparison start last pre body post [] hhead hs hl]
    simp
  refine ⟨general, ?_⟩
  intro A B C D F hpre hnd
  have hnd2 : A ≠ B ∧ B ≠ D ∧ C ≠ D := by
    simp only [List.nodup_cons, List.mem_cons, List.mem_singleton, not_or] at hnd
    exact ⟨hnd.1.1, hnd.2.1.2.1, hnd.2.2.1.1⟩
  have key := general (fun _ => true) B D [A] [B, C] [F] (by simpa using hpre) rfl
    (by simp [Ne.symm hnd2.1]) (by simp [Ne.symm hnd2.2.1, Ne.symm hnd2.2.2])
  simpa using key

/-- Witness for C7: in `heapFive` the document order from the root 10 is
`[10, 11, 12, 13, 14]`, and the search from 11 to 13 with a comparison that
accepts everything returns `[11, 12, 13]`, whatever the output list held. -/
theorem FindAllDescendantsBetween_range_witness :
    preorder heapFive FORWARD 3 10 = .ok [10, 11, 12, 13, 14] ∧
      FindAllDescendantsBetween classIdsExample heapFive 3 10 [99] (fun _ => true) 11 13 true
        UNLIMITED_DEPTH = .ok [11, 12, 13] :=
  ⟨rfl, (FindAllDescendantsBetween_range classIdsExample heapFive 3 10 [99]).2 10 11 12 13 14
    rfl (by decide)⟩

/-! ## Moving and relinquishing children -/

theorem foldl_setParent_spec (d : ObjId) : ∀ (moved : List ObjId) (h : Heap),
    (∀ y, ((moved.foldl (fun g c => g.setParent c (some d)) h) y).m_children =
        (h y).m_children) ∧
    (∀ y, ((moved.foldl (fun g c => g.setParent c (some d)) h) y).m_parent =
        if y ∈ moved then some d else (h y).m_parent) := by
  intro moved
  induction moved with
  | nil => intro h; simp
  | cons c cs ih =>
    intro h
    obtain ⟨i1, i2⟩ := ih (h.setParent c (some d))
    simp only [List.foldl_cons]
    constructor
    · intro y; rw [i1 y]; simp
    · intro y
      rw [i2 y]
      by_cases hy : y ∈ cs
      · simp [hy]
      · by_cases hyc : y = c <;> simp [hy, hyc]

/-- C9. For a destination `d` and a distinct source `s` of the same type, the
call `d.MoveChildrenFrom(s)` returns; afterwards the child count of `s` is 0, and
every child that `s` had before the call has `d` as its parent and is among the
children of `d`. -/
theorem MoveChildrenFrom_moves_all (h : Heap) (d s : ObjId) (idx : Int)
    (hty : GetClassId h d = GetClassId h s) (hne : d ≠ s) :
    ∃ h', MoveChildrenFrom h d s idx false = .ok h' ∧ GetChildCount h' s = 0 ∧
      ∀ c, c ∈ (h s).m_children → GetParent h' c = some d ∧ c ∈ (h' d).m_children := by
  unfold GetClassId at hty
  obtain ⟨i1, i2⟩ := foldl_setParent_spec d (h s).m_children h
  refine ⟨_, by simp only [MoveChildrenFrom, hty]; simp; rfl, ?_, ?_⟩
  · simp [GetChildCount, Ne.symm hne]
  · intro c hc
    constructor
    · simp [GetParent, i2, hc]
    · by_cases hidx : idx = -1 <;> simp [hidx, hc]

/-- Witness for C9: in `heapTwo` the containers 30 and 31 have the same class;
moving the children of 31 to 30 leaves 31 empty and makes 35 a child of 30. -/
theorem MoveChildrenFrom_moves_all_witness :
    GetClassId heapTwo 30 = GetClassId heapTwo 31 ∧ (30 : ObjId) ≠ 31 ∧
      ∃ h', MoveChildrenFrom heapTwo 30 31 (-1) false = .ok h' ∧ GetChildCount h' 31 = 0 ∧
        GetParent h' 35 = some 30 ∧ 35 ∈ (h' 30).m_children := by
  obtain ⟨h', h1, h2, h3⟩ := MoveChildrenFrom_moves_all heapTwo 30 31 (-1) rfl (by decide)
  exact ⟨rfl, by decide, h', h1, h2, h3 35 (by decide)⟩

theorem Relinquish_valid (h : Heap) (p : ObjId) (i : Nat) (c : ObjId)
    (hc : (h p).m_children[i]? = some c) :
    (Relinquish h p (i : Int)).2 = h.setParent c none := by
  have hneg : ¬ ((i : Int) < 0) := by omega
  simp [Relinquish, hneg, hc, ResetParent]

/-- The store after relinquishing a list of valid indices: no child sequence has
changed, and exactly the children at those indices have lost their parent. -/
theorem relinquishAll_spec (p : ObjId) : ∀ (idxs : List Nat) (h : Heap),
    (∀ i, i ∈ idxs → i < (h p).m_children.length) →
    (∀ y, ((relinquishAll h p idxs) y).m_children = (h y).m_children) ∧
    (∀ y, ((relinquishAll h p idxs) y).m_parent =
      if y ∈ idxs.filterMap (fun i => (h p).m_children[i]?) then none
      else (h y).m_parent) := by
  intro idxs
  induction idxs with
  | nil => intro h _; simp [relinquishAll]
  | cons i is ih =>
    intro h hval
    have hi : i < (h p).m_children.length := hval i (List.mem_cons_self i is)
    have hc : (h p).m_children[i]? = some ((h p).m_children[i]) := List.getElem?_eq_getElem hi
    have hstep : relinquishAll h p (i :: is) =
        relinquishAll (h.setParent ((h p).m_children[i]) none) p is := by
      simp only [relinquishAll, List.foldl_cons, Relinquish_valid h p i _ hc]
    have hch : ((h.setParent ((h p).m_children[i]) none) p).m_children = (h p).m_children := by
      simp
    obtain ⟨i1, i2⟩ := ih (h.setParent ((h p).m_children[i]) none) (by
      intro j hj
      rw [hch]
      exact hval j (List.mem_cons_of_mem i hj))
    rw [hstep]
    constructor
    · intro y; rw [i1 y]; simp
    · intro y
      rw [i2 y, hch]
      simp only [List.filterMap_cons, hc, List.mem_cons]
      by_cases hy : y ∈ List.filterMap (fun i => (h p).m_children[i]?) is
      · simp [hy]
      · by_cases hyc : y = (h p).m_children[i] <;> simp [hy, hyc]

theorem filterMap_getElem_length (l : List ObjId) : ∀ (idxs : List Nat),
    (∀ i, i ∈ idxs → i < l.length) → (idxs.filterMap (fun i => l[i]?)).length = idxs.length := by
  intro idxs
  induction idxs with
  | nil => intro _; rfl
  | cons i is ih =>
    intro hval
    have hi : i < l.length := hval i (List.mem_cons_self i is)
    simp only [List.filterMap_cons, List.getElem?_eq_getElem hi, List.length_cons]
    rw [ih (fun j hj => hval j (List.mem_cons_of_mem i hj))]

theorem filterMap_getElem_nodup (l : List ObjId) (hl : l.Nodup) : ∀ (idxs : List Nat),
    idxs.Nodup → (∀ i, i ∈ idxs → i < l.length) → (idxs.filterMap (fun i => l[i]?)).Nodup := by
  intro idxs
  induction idxs with
  | nil => intro _ _; simp
  | cons i is ih =>
    intro hnd hval
    have hi : i < l.length := hval i (List.mem_cons_self i is)
    simp only [List.filterMap_cons, List.getElem?_eq_getElem hi]
    refine List.nodup_cons.2 ⟨?_, ih (List.nodup_cons.1 hnd).2
      (fun j hj => hval j (List.mem_cons_of_mem i hj))⟩
    intro hmem
    obtain ⟨j, hj, hje⟩ := List.mem_filterMap.1 hmem
    have hij : i = j := List.getElem?_inj hi hl (by rw [hje, List.getElem?_eq_getElem hi])
    exact (List.nodup_cons.1 hnd).1 (hij ▸ hj)

/-- Removing from a sequence without repetition the entries found at `k`
distinct valid positions leaves `k` entries fewer. -/
theorem filter_not_mem_length (l : List ObjId) (hl : l.Nodup) (idxs : List Nat)
    (hnd : idxs.Nodup) (hval : ∀ i, i ∈ idxs → i < l.length) :
    (l.filter (fun c => decide (c ∉ idxs.filterMap (fun i => l[i]?)))).length + idxs.length =
      l.length := by
  have hR : (idxs.filterMap (fun i => l[i]?)).Nodup :=
    filterMap_getElem_nodup l hl idxs hnd hval
  have hperm : (l.filter (fun c => decide (c ∈ idxs.filterMap (fun i => l[i]?)))).Perm
      (idxs.filterMap (fun i => l[i]?)) := by
    apply (List.perm_ext_iff_of_nodup (hl.filter _) hR).2
    intro a
    simp only [List.mem_filter, decide_eq_true_eq, List.mem_filterMap]
    constructor
    · exact fun hx => hx.2
    · intro hx
      have hx' := hx
      obtain ⟨j, _, hje⟩ := hx'
      exact ⟨List.mem_iff_getElem?.2 ⟨j, hje⟩, hx⟩
  have hlen := List.length_eq_length_filter_add
    (fun c => decide (c ∈ idxs.filterMap (fun i => l[i]?))) (l := l)
  rw [hperm.length_eq, filterMap_getElem_length l idxs hval] at hlen
  have hfun : (fun c => !decide (c ∈ idxs.filterMap (fun i => l[i]?))) =
      (fun c => decide (c ∉ idxs.filterMap (fun i => l[i]?))) := by
    funext c
    exact (decide_not).symm
  rw [hfun] at hlen
  omega

/-- C10. Let every child of `p` have `p` as its parent and let the children of
`p` be distinct objects.  After `Relinquish` on each of `k` distinct valid
indices and then `ClearRelinquishedChildren`, the child count of `p` is reduced
by exactly `k`, the children left are the others in their original order, and
none of them has a null parent. -/
theorem Relinquish_then_clear (h : Heap) (p : ObjId) (idxs : List Nat)
    (hpar : ∀ c, c ∈ (h p).m_children → GetParent h c = some p)
    (hdist : (h p).m_children.Nodup) (hnd : idxs.Nodup)
    (hval : ∀ i, i ∈ idxs → i < (h p).m_children.length) :
    GetChildCount (ClearRelinquishedChildren (relinquishAll h p idxs) p) p =
        GetChildCount h p - (idxs.length : Int) ∧
      (ClearRelinquishedChildren (relinquishAll h p idxs) p p).m_children =
        (h p).m_children.filter
          (fun c => decide (c ∉ idxs.filterMap (fun i => (h p).m_children[i]?))) ∧
      ∀ c, c ∈ (ClearRelinquishedChildren (relinquishAll h p idxs) p p).m_children →
        GetParent (ClearRelinquishedChildren (relinquishAll h p idxs) p) c ≠ none := by
  obtain ⟨i1, i2⟩ := relinquishAll_spec p idxs h hval
  have hkept : (ClearRelinquishedChildren (relinquishAll h p idxs) p p).m_children =
      (h p).m_children.filter
        (fun c => decide (c ∉ idxs.filterMap (fun i => (h p).m_children[i]?))) := by
    simp only [ClearRelinquishedChildren, Heap.setChildren_children, if_true, i1]
    apply List.filter_congr
    intro c hc
    rw [i2 c]
    have hcp : (h c).m_parent = some p := hpar c hc
    by_cases hm : c ∈ idxs.filterMap (fun i => (h p).m_children[i]?) <;> simp [hm, hcp]
  refine ⟨?_, hkept, ?_⟩
  · have hlen := filter_not_mem_length (h p).m_children hdist idxs hnd hval
    simp only [GetChildCount, hkept]
    omega
  · intro c hc
    rw [hkept] at hc
    obtain ⟨hc1, hc2⟩ := List.mem_filter.1 hc
    have hc3 : c ∉ idxs.filterMap (fun i => (h p).m_children[i]?) := by simpa using hc2
    have hcp : (h c).m_parent = some p := hpar c hc1
    simp [GetParent, ClearRelinquishedChildren, i2, hc3, hcp]

/-- Witness for C10: in `heapTwo` the container 31 holds 34, 35 and 36;
relinquishing the indices 2 and 0 and clearing leaves the single child 35. -/
theorem Relinquish_then_clear_witness :
    GetChildCount (ClearRelinquishedChildren (relinquishAll heapTwo 31 [2, 0]) 31) 31 =
        GetChildCount heapTwo 31 - 2 ∧
      (ClearRelinquishedChildren (relinquishAll heapTwo 31 [2, 0]) 31 31).m_children = [35] ∧
      GetParent (ClearRelinquishedChildren (relinquishAll heapTwo 31 [2, 0]) 31) 35 ≠ none := by
  have hpar : ∀ c, c ∈ (heapTwo 31).m_children → GetParent heapTwo c = some 31 := by
    intro c hc
    have hc' : c = 34 ∨ c = 35 ∨ c = 36 := by simpa [heapTwo] using hc
    rcases hc' with e | e | e <;> subst e <;> rfl
  obtain ⟨h1, h2, h3⟩ := Relinquish_then_clear heapTwo 31 [2, 0] hpar (by decide) (by decide)
    (by decide)
  have h2' : (ClearRelinquishedChildren (relinquishAll heapTwo 31 [2, 0]) 31 31).m_children =
      [35] := by
    rw [h2]; decide
  exact ⟨h1, h2', h3 35 (by rw [h2']; simp)⟩

/-! ## Cached child list -/

theorem runHook_AddLayerElementToFlatList : ∀ (L l : List ObjId),
    runHook AddLayerElementToFlatList L l = (.FUNCTOR_CONTINUE, l ++ L) := by
  intro L
  induction L with
  | nil => intro l; simp [runHook]
  | cons y ys ih =>
    intro l
    simp [runHook, AddLayerElementToFlatList, ih]

/-- `FillFlatList` on an empty list yields the document order of the subtree. -/
theorem FillFlatList_eq_preorder (E : ClassIds) (h : Heap) (fuel : Nat) (n : ObjId)
    (flat : List ObjId) (hflat : preorder h FORWARD fuel n = .ok flat) :
    FillFlatList E h fuel n [] = .ok flat := by
  unfold FillFlatList
  rw [Process_eq_runHook E h AddLayerElementToFlatList FORWARD
    (fun s x => by simp [AddLayerElementToFlatList]) fuel n flat [] hflat,
    runHook_AddLayerElementToFlatList]
  simp

theorem GetList_rebuild (E : ClassIds) (F : Heap → List ObjId → Except Fault (List ObjId))
    (fuel : Nat) (h : Heap) (cache : ListCache) (n : ObjId) (flat l : List ObjId)
    (hflat : preorder h FORWARD fuel n = .ok flat) (hF : F h flat = .ok l)
    (hstale : (h n).m_isModified = true ∨ cache n = none) :
    GetList E F fuel h cache n =
      .ok (l, h.setModified n false, Function.update cache n (some l)) := by
  have hreset : ResetList E F fuel h cache n =
      .ok (l, h.setModified n false, Function.update cache n (some l)) := by
    simp [ResetList, FillFlatList_eq_preorder E h fuel n flat hflat, hF]
  unfold GetList
  rcases hstale with hm | hc
  · simp [hm, hreset]
  · rw [hc]
    cases (h n).m_isModified <;> simp [hreset]

theorem preorder_setModified (h : Heap) (m : ObjId) (b : Bool) (direction : Bool) :
    ∀ fuel, preorder (h.setModified m b) direction fuel = preorder h direction fuel := by
  intro fuel
  induction fuel with
  | zero => funext x; rfl
  | succ f ih =>
    funext x
    simp only [preorder, ih, childrenInOrder, Heap.setModified_children]

theorem GetFirstAncestor_setModified (h : Heap) (m : ObjId) (b : Bool) (classId : ClassId) :
    ∀ (fuel : Nat) (x : ObjId) (maxSteps : Int),
      GetFirstAncestor (h.setModified m b) classId fuel x maxSteps =
        GetFirstAncestor h classId fuel x maxSteps := by
  intro fuel
  induction fuel with
  | zero => intro x maxSteps; rfl
  | succ f ih =>
    intro x maxSteps
    simp only [GetFirstAncestor, Heap.setModified_parent, Heap.setModified_classId, ih]

theorem RunningElement.FilterList_ignoresModified (E : ClassIds) (fuel : Nat) :
    IgnoresModified (RunningElement.FilterList E fuel) := by
  intro h m b l
  induction l with
  | nil => rfl
  | cons x xs ih =>
    simp only [RunningElement.FilterList, Is, Heap.setModified_classId,
      GetFirstAncestor_setModified, ih]

theorem GetList_cases (E : ClassIds) (F : Heap → List ObjId → Except Fault (List ObjId))
    (fuel : Nat) (h : Heap) (cache : ListCache) (n : ObjId) (l : List ObjId) (h' : Heap)
    (cache' : ListCache) (hget : GetList E F fuel h cache n = .ok (l, h', cache')) :
    ((h n).m_isModified = false ∧ cache n = some l ∧ h' = h ∧ cache' = cache) ∨
      ∃ flat, FillFlatList E h fuel n [] = .ok flat ∧ F h flat = .ok l ∧
        h' = h.setModified n false ∧ cache' = Function.update cache n (some l) := by
  have hreset : ResetList E F fuel h cache n = .ok (l, h', cache') →
      ∃ flat, FillFlatList E h fuel n [] = .ok flat ∧ F h flat = .ok l ∧
        h' = h.setModified n false ∧ cache' = Function.update cache n (some l) := by
    intro hr
    unfold ResetList at hr
    cases hf : FillFlatList E h fuel n [] with
    | error e => simp [hf] at hr
    | ok flat =>
      cases hfl : F h flat with
      | error e => simp [hf, hfl] at hr
      | ok l1 =>
        simp only [hf, hfl, Except.ok.injEq, Prod.mk.injEq] at hr
        obtain ⟨e1, e2, e3⟩ := hr
        subst e1
        exact ⟨flat, rfl, hfl, e2.symm, e3.symm⟩
  unfold GetList at hget
  cases hm : (h n).m_isModified with
  | true =>
    simp only [hm] at hget
    exact Or.inr (hreset hget)
  | false =>
    cases hc : cache n with
    | none =>
      simp only [hm, hc] at hget
      exact Or.inr (hreset hget)
    | some l0 =>
      simp only [hm, hc, Except.ok.injEq, Prod.mk.injEq] at hget
      obtain ⟨e1, e2, e3⟩ := hget
      subst e1
      exact Or.inl ⟨rfl, rfl, e2.symm, e3.symm⟩

/-- The cached list of `n` stays up to date along a history in which every change
of the store leaves `n` marked as modified. -/
theorem ListUpToDate_of_history (E : ClassIds)
    (F : Heap → List ObjId → Except Fault (List ObjId)) (hF : IgnoresModified F) (fuel : Nat)
    (n : ObjId) (h0 : Heap) (cache0 : ListCache) (hstart : ListUpToDate F fuel h0 cache0 n)
    (h : Heap) (cache : ListCache) (hist : MarkedHistory E F fuel n h0 cache0 h cache) :
    ListUpToDate F fuel h cache n := by
  induction hist with
  | start => exact hstart
  | getList l h' cache' _ hget ih =>
    rcases GetList_cases E F fuel _ _ n l h' cache' hget with
      ⟨_, _, e1, e2⟩ | ⟨flat0, hflat0, hl, e1, e2⟩
    · rw [e1, e2]
      exact ih
    · intro _ l0 hl0 flat l2 hflat hl2
      rw [e2] at hl0
      rw [e1] at hflat hl2
      rw [preorder_setModified] at hflat
      rw [hF] at hl2
      have e3 : flat0 = flat :=
        Except.ok.inj (hflat0.symm.trans (FillFlatList_eq_preorder E _ fuel n flat hflat))
      subst e3
      have e4 : l0 = l := by simpa using hl0.symm
      rw [e4]
      exact Except.ok.inj (hl.symm.trans hl2)
  | @getListOther hc cc m Fm l h' cache' _ hne hget ih =>
    rcases GetList_cases E Fm fuel _ _ m l h' cache' hget with
      ⟨_, _, e1, e2⟩ | ⟨flat0, _, _, e1, e2⟩
    · rw [e1, e2]
      exact ih
    · intro hm l0 hl0 flat l2 hflat hl2
      have hne2 : n ≠ m := fun e => hne e.symm
      rw [e1] at hm hflat hl2
      rw [e2, Function.update_noteq hne2] at hl0
      rw [preorder_setModified] at hflat
      rw [hF] at hl2
      have hm2 : (hc n).m_isModified = false := by
        simpa [hne2] using hm
      exact ih hm2 l0 hl0 flat l2 hflat hl2
  | addChild fuel2 p c h2 k _ hadd hanc _ =>
    intro hm
    have hmod := (Tuning.AddChild_spec fuel2 _ p c h2 hadd).2.2.2.2.2 k n hanc
    rw [hm] at hmod
    exact Bool.noConfusion hmod
  | marked h2 _ hmark _ =>
    intro hm
    rw [hm] at hmark
    exact Bool.noConfusion hmark

/-- On a state in which the cached list of `n` is up to date, `GetList(n)`
returns the filtered flattening, and a second call returns the same and changes
nothing. -/
theorem GetList_of_upToDate (E : ClassIds)
    (F : Heap → List ObjId → Except Fault (List ObjId)) (fuel : Nat) (h : Heap)
    (cache : ListCache) (n : ObjId) (flat l : List ObjId)
    (hflat : preorder h FORWARD fuel n = .ok flat) (hFl : F h flat = .ok l)
    (hcoh : ListUpToDate F fuel h cache n) :
    ∃ h' cache', GetList E F fuel h cache n = .ok (l, h', cache') ∧
      GetList E F fuel h' cache' n = .ok (l, h', cache') := by
  by_cases hfresh : (h n).m_isModified = false ∧ ∃ l0, cache n = some l0
  · obtain ⟨hm, l0, hl0⟩ := hfresh
    have e : l0 = l := hcoh hm l0 hl0 flat l hflat hFl
    subst e
    have hget : GetList E F fuel h cache n = .ok (l0, h, cache) := by
      simp [GetList, hm, hl0]
    exact ⟨h, cache, hget, hget⟩
  · have hstale : (h n).m_isModified = true ∨ cache n = none := by
      by_cases hm : (h n).m_isModified = true
      · exact Or.inl hm
      · right
        cases hc : cache n with
        | none => rfl
        | some l0 => exact absurd ⟨by simpa using hm, l0, hc⟩ hfresh
    refine ⟨h.setModified n false, Function.update cache n (some l),
      GetList_rebuild E F fuel h cache n flat l hflat hFl hstale, ?_⟩
    simp [GetList]

/-- C11. `DetachChild(idx)` with `idx` out of range (negative, or not below the
child count) returns 'not found' and leaves every object unchanged; with `idx`
in range it returns the child that was at `idx`, the parent of that child is
null afterwards, and the child sequence of `n` is the old one with exactly the
entry at `idx` taken out, the others keeping their order. -/
theorem DetachChild_spec (h : Heap) (n : ObjId) :
    (∀ idx : Int, idx < 0 ∨ ((h n).m_children.length : Int) ≤ idx →
      DetachChild h n idx = (none, h)) ∧
    (∀ i : Nat, i < (h n).m_children.length →
      ∃ c, (h n).m_children[i]? = some c ∧ (DetachChild h n (i : Int)).1 = some c ∧
        GetParent (DetachChild h n (i : Int)).2 c = none ∧
        ((DetachChild h n (i : Int)).2 n).m_children =
          (h n).m_children.take i ++ (h n).m_children.drop (i + 1) ∧
        GetChildCount (DetachChild h n (i : Int)).2 n = GetChildCount h n - 1) := by
  constructor
  · intro idx hidx
    unfold DetachChild
    by_cases hneg : idx < 0
    · simp [hneg]
    · have hlen : (h n).m_children.length ≤ idx.toNat := by omega
      simp [hneg, List.getElem?_eq_none hlen]
  · intro i hi
    have hc : (h n).m_children[i]? = some ((h n).m_children[i]) := List.getElem?_eq_getElem hi
    have hneg : ¬ ((i : Int) < 0) := by omega
    refine ⟨(h n).m_children[i], hc, ?_, ?_, ?_, ?_⟩
    · simp [DetachChild, hneg, hc]
    · simp [DetachChild, hneg, hc, GetParent, ResetParent]
    · simp [DetachChild, hneg, hc, List.eraseIdx_eq_take_drop_succ]
    · simp only [DetachChild, hneg, hc, GetChildCount, if_false, Int.toNat_ofNat,
        Heap.setChildren_children, if_true, List.length_eraseIdx, hi]
      omega

/-- Witness for C11: in `heapTwo` the container 31 holds 34, 35, 36; detaching
at index 1 returns 35 and leaves 34, 36, and index 3 is not found. -/
theorem DetachChild_spec_witness :
    DetachChild heapTwo 31 3 = (none, heapTwo) ∧
      (DetachChild heapTwo 31 1).1 = some 35 ∧
      GetParent (DetachChild heapTwo 31 1).2 35 = none ∧
      ((DetachChild heapTwo 31 1).2 31).m_children = [34, 36] := by
  have key := DetachChild_spec heapTwo 31
  refine ⟨key.1 3 (Or.inr (by decide)), ?_⟩
  obtain ⟨c, hc, h1, h2, h3, _⟩ := key.2 1 (by decide)
  have hc35 : c = 35 := by
    have : (heapTwo 31).m_children[1]? = some 35 := rfl
    rw [this] at hc
    exact (Option.some.inj hc).symm
  subst hc35
  exact ⟨h1, h2, h3⟩

theorem StrictWeakOrder.le_trans {comp : ObjId → ObjId → Bool} (hc : StrictWeakOrder comp)
    (a b c : ObjId) (hab : (!comp b a) = true) (hbc : (!comp c b) = true) :
    (!comp c a) = true := by
  have hab' : comp b a = false := by simpa using hab
  have hbc' : comp c b = false := by simpa using hbc
  cases hca : comp c a with
  | false => rfl
  | true =>
    exfalso
    cases hbc2 : comp b c with
    | true =>
      have := hc.trans b c a hbc2 hca
      rw [hab'] at this
      cases this
    | false =>
      cases hab2 : comp a b with
      | true =>
        have := hc.trans c a b hca hab2
        rw [hbc'] at this
        cases this
      | false =>
        have := (hc.incomp_trans a b c hab2 hab' hbc2 hbc').2
        rw [hca] at this
        cases this

theorem StrictWeakOrder.le_total {comp : ObjId → ObjId → Bool} (hc : StrictWeakOrder comp)
    (a b : ObjId) : ((!comp b a) || (!comp a b)) = true := by
  cases hba : comp b a with
  | false => rfl
  | true =>
    cases hab : comp a b with
    | false => rfl
    | true =>
      have := hc.trans a b a hab hba
      rw [hc.irrefl a] at this
      cases this

theorem compClassId_strictWeakOrder (h : Heap) : StrictWeakOrder (compClassId h) := by
  refine ⟨?_, ?_, ?_⟩
  · intro a; simp [compClassId]
  · intro a b c hab hbc
    simp only [compClassId, decide_eq_true_eq] at hab hbc ⊢
    exact Nat.lt_trans hab hbc
  · intro a b c h1 h2 h3 h4
    simp only [compClassId, decide_eq_false_iff_not, Nat.not_lt] at h1 h2 h3 h4 ⊢
    exact ⟨Nat.le_trans h3 h1, Nat.le_trans h2 h4⟩

/-- C12. For a comparison that is a strict weak ordering, after `StableSort(cmp)`
(and so after `SortChildren(cmp)`) the children are a permutation of the
original child sequence, they are ordered by `cmp` (no child is strictly less
than one placed before it), and two children that compare equivalent keep their
original relative order. -/
theorem StableSort_sorted_perm_stable (h : Heap) (n : ObjId) (comp : ObjId → ObjId → Bool)
    (hc : StrictWeakOrder comp) :
    ((StableSort h n comp n).m_children.Perm (h n).m_children ∧
      (StableSort h n comp n).m_children.Pairwise (fun a b => comp b a = false) ∧
      (∀ a b, comp a b = false → comp b a = false → [a, b].Sublist (h n).m_children →
        [a, b].Sublist (StableSort h n comp n).m_children)) ∧
    ((SortChildren h n comp).2 n).m_children = (StableSort h n comp n).m_children := by
  have hch : (StableSort h n comp n).m_children =
      (h n).m_children.mergeSort (fun a b => !comp b a) := by
    simp [StableSort, stable_sort]
  refine ⟨⟨?_, ?_, ?_⟩, rfl⟩
  · rw [hch]
    exact List.mergeSort_perm _ _
  · rw [hch]
    have hs : ((h n).m_children.mergeSort (fun a b => !comp b a)).Pairwise
        (fun a b => (!comp b a) = true) :=
      List.sorted_mergeSort hc.le_trans hc.le_total (h n).m_children
    exact hs.imp (fun hab => by simpa using hab)
  · intro a b _ hba hsub
    rw [hch]
    have hle : (fun x y => !comp y x) a b = true := by simp [hba]
    exact List.pair_sublist_mergeSort hc.le_trans hc.le_total hle hsub

/-- Witness for C12: the children 41, 42, 43, 44 of node 40 in `heapSort` have the
class ids 5, 3, 5, 3; sorted by class id they become 42, 44, 41, 43, the
equivalent pairs 42, 44 and 41, 43 in their original order. -/
theorem StableSort_sorted_perm_stable_witness :
    StrictWeakOrder (compClassId heapSort) ∧
      (StableSort heapSort 40 (compClassId heapSort) 40).m_children = [42, 44, 41, 43] ∧
      [42, 44].Sublist (StableSort heapSort 40 (compClassId heapSort) 40).m_children := by
  have hsw := compClassId_strictWeakOrder heapSort
  have key := StableSort_sorted_perm_stable heapSort 40 (compClassId heapSort) hsw
  refine ⟨hsw, ?_, key.1.2.2 42 44 (by decide) (by decide) ?_⟩
  · simp [StableSort, stable_sort, heapSort, compClassId, List.mergeSort, List.splitInTwo,
      List.merge]
  · decide

/-- C13 at the failing inputs.  `SortChildren` is declared `void`: on node 40 of
`heapSort` the sort changes the order of the children, on node 45 it does not,
and the value of the call is the same in both cases, so it tells nothing about
a change of order. -/
theorem SortChildren_returns_no_value :
    ((SortChildren heapSort 40 (compClassId heapSort)).2 40).m_children ≠
        (heapSort 40).m_children ∧
      ((SortChildren heapSort 45 (compClassId heapSort)).2 45).m_children =
        (heapSort 45).m_children ∧
      (SortChildren heapSort 40 (compClassId heapSort)).1 =
        (SortChildren heapSort 45 (compClassId heapSort)).1 := by
  refine ⟨?_, ?_, rfl⟩
  · simp [SortChildren, StableSort, stable_sort, heapSort, compClassId, List.mergeSort,
      List.splitInTwo, List.merge]
  · simp [SortChildren, StableSort, stable_sort, heapSort, compClassId, List.mergeSort,
      List.splitInTwo, List.merge]

/-! ## Construction registry -/

theorem ClassRegistrar_consistent (f : ObjectFactory) (r : Registration)
    (hf : f.Consistent) (hr : (r.construct ()).m_classId = r.classId) :
    (ClassRegistrar r.construct r.name r.classId f).Consistent := by
  intro name tag htag
  by_cases hn : name = r.name
  · subst hn
    simp only [ClassRegistrar, ObjectFactory.Register, Function.update_same,
      Option.some.injEq] at htag ⊢
    subst htag
    exact ⟨_, rfl, hr⟩
  · simp only [ClassRegistrar, ObjectFactory.Register, Function.update_noteq hn] at htag ⊢
    exact hf name tag htag

theorem registerAll_consistent : ∀ (regs : List Registration) (f : ObjectFactory),
    f.Consistent → (∀ r, r ∈ regs → (r.construct ()).m_classId = r.classId) →
    (registerAll regs f).Consistent := by
  intro regs
  induction regs with
  | nil => intro f hf _; exact hf
  | cons r rs ih =>
    intro f hf hregs
    simp only [registerAll, List.foldl_cons]
    exact ih _ (ClassRegistrar_consistent f r hf (hregs r (List.mem_cons_self r rs)))
      (fun r' hr' => hregs r' (List.mem_cons_of_mem r hr'))

/-- C14. Let the registry be filled by `ClassRegistrar` objects, each for a class
whose default constructor builds an object of the class id given to the
registrar (as `Space` does with `SPACE`).  Then for every registered name,
`Create(name)` returns an object whose class id is the tag registered for that
name; in particular, once `s_factory` of space.cpp has run, `Create("space")`
returns an object with the class id `SPACE`, the tag registered for "space". -/
theorem Create_returns_registered_classId (E : ClassIds) (regs : List Registration)
    (hregs : ∀ r, r ∈ regs → (r.construct ()).m_classId = r.classId) :
    (∀ name tag, (registerAll regs ObjectFactory.empty).GetClassId name = some tag →
      ∃ obj, (registerAll regs ObjectFactory.empty).Create name = some obj ∧
        obj.m_classId = tag) ∧
    (∃ obj, (Space.s_factory E (registerAll regs ObjectFactory.empty)).Create "space" =
        some obj ∧ obj.m_classId = E.SPACE ∧
      (Space.s_factory E (registerAll regs ObjectFactory.empty)).GetClassId "space" =
        some E.SPACE) := by
  have hempty : ObjectFactory.empty.Consistent := by
    intro name tag htag
    simp [ObjectFactory.empty] at htag
  have hcons := registerAll_consistent regs ObjectFactory.empty hempty hregs
  constructor
  · intro name tag htag
    obtain ⟨c, hc, hid⟩ := hcons name tag htag
    exact ⟨c (), by simp [ObjectFactory.Create, hc], hid⟩
  · refine ⟨Space.new E (), ?_, rfl, ?_⟩
    · simp [Space.s_factory, ClassRegistrar, ObjectFactory.Register, ObjectFactory.Create]
    · simp [Space.s_factory, ClassRegistrar, ObjectFactory.Register, ObjectFactory.GetClassId]

/-- Witness for C14: with the registrar of `Space` as the only registration,
`Create("space")` yields an object of class id `SPACE` (150 in
`classIdsExample`). -/
theorem Create_returns_registered_classId_witness :
    ∃ obj, (registerAll [spaceRegistration] ObjectFactory.empty).Create "space" = some obj ∧
      obj.m_classId = 150 :=
  (Create_returns_registered_classId classIdsExample [spaceRegistration]
    (by intro r hr; simp only [List.mem_singleton] at hr; subst hr; rfl)).1 "space" 150
    (by simp [registerAll, ClassRegistrar, ObjectFactory.Register, ObjectFactory.GetClassId,
      spaceRegistration, classIdsExample])

/-! ## The eight class families -/

theorem Family.test_eq (E : ClassIds) (h : Heap) (x : ObjId) (fam : Family) :
    fam.test E h x =
      (decide (fam.base E < (h x).m_classId) && decide ((h x).m_classId < fam.max E)) := by
  cases fam <;> rfl

/-- C15 fails as stated: in `heapFamily` the object 50 carries the tag
`LAYER_ELEMENT`, the minimum tag of the layer family, and `IsLayerElement` is
false for it. -/
theorem IsLayerElement_excludes_base :
    (heapFamily 50).m_classId = classIdsExample.LAYER_ELEMENT ∧
      IsLayerElement classIdsExample heapFamily 50 = false := by
  decide

/-- C15, amended.  Family membership is the open range test `min < tag < max`: for
every family, an object whose tag equals the base tag of the family is not a
member, and an object whose tag equals the `_max` tag is not a member either. -/
theorem Family.test_excludes_both_ends (E : ClassIds) (h : Heap) (x : ObjId) (fam : Family) :
    ((h x).m_classId = fam.base E → fam.test E h x = false) ∧
      ((h x).m_classId = fam.max E → fam.test E h x = false) := by
  rw [Family.test_eq]
  constructor
  · intro e
    simp [e]
  · intro e
    simp [e]

/-- Witness for C15, amended: in `heapFamily` neither the object 50, with the
tag `LAYER_ELEMENT`, nor the object 52, with the tag `LAYER_ELEMENT_max`, is a
layer element. -/
theorem Family.test_excludes_both_ends_witness :
    Family.layer.test classIdsExample heapFamily 50 = false ∧
      Family.layer.test classIdsExample heapFamily 52 = false :=
  ⟨(Family.test_excludes_both_ends classIdsExample heapFamily 50 .layer).1 rfl,
    (Family.test_excludes_both_ends classIdsExample heapFamily 52 .layer).2 rfl⟩

/-- C16. For each of the eight families the membership test holds exactly when
the class id lies strictly between the base tag and the `_max` tag of the
family, and it depends on the object only through its class id: two objects
with the same class id, in any two stores, get the same answer. -/
theorem Family.test_iff_between (E : ClassIds) (fam : Family) :
    (∀ (h : Heap) (x : ObjId),
      fam.test E h x = true ↔ fam.base E < GetClassId h x ∧ GetClassId h x < fam.max E) ∧
    (∀ (h g : Heap) (x y : ObjId), GetClassId h x = GetClassId g y →
      fam.test E h x = fam.test E g y) := by
  constructor
  · intro h x
    rw [Family.test_eq]
    simp [GetClassId]
  · intro h g x y e
    unfold GetClassId at e
    rw [Family.test_eq, Family.test_eq, e]

/-- Witness for C16: the objects 51 and 53 of `heapFamily` differ in children,
parent and modified flag but share the class id 150, and both are layer
elements. -/
theorem Family.test_iff_between_witness :
    GetClassId heapFamily 51 = GetClassId heapFamily 53 ∧
      Family.layer.test classIdsExample heapFamily 51 =
        Family.layer.test classIdsExample heapFamily 53 ∧
      Family.layer.test classIdsExample heapFamily 51 = true :=
  ⟨rfl, (Family.test_iff_between classIdsExample .layer).2 heapFamily heapFamily 51 53 rfl,
    ((Family.test_iff_between classIdsExample .layer).1 heapFamily 51).2
      (by decide)⟩

/-! ## Saving a running element -/

/-- C18. For a generated running element, `Save` and `SaveEnd` return
`FUNCTOR_SIBLINGS` and leave the parameter block alone; for one that is not
generated they return exactly what the base `Object::Save` and `Object::SaveEnd`
return.  A traversal whose functor acts as the `Save` of a generated running
element on its root therefore calls the functor on the root only: the children
are not saved. -/
theorem RunningElement.Save_generated {σ : Type} (ObjectSave ObjectSaveEnd : σ → FunctorCode × σ)
    (functorParams : σ) :
    (RunningElement.Save true ObjectSave functorParams = (.FUNCTOR_SIBLINGS, functorParams) ∧
      RunningElement.SaveEnd true ObjectSaveEnd functorParams =
        (.FUNCTOR_SIBLINGS, functorParams)) ∧
    (RunningElement.Save false ObjectSave functorParams = ObjectSave functorParams ∧
      RunningElement.SaveEnd false ObjectSaveEnd functorParams =
        ObjectSaveEnd functorParams) ∧
    (∀ (E : ClassIds) (h : Heap) (f : Hook σ) (direction : Bool) (fuel : Nat) (deepness : Int)
      (root : ObjId),
      (∀ s, f s root = RunningElement.Save true ObjectSave s) →
      Process E h (traced f) none none direction (fuel + 1) deepness false root
        (functorParams, []) = .ok (.FUNCTOR_CONTINUE, (functorParams, [root]))) := by
  refine ⟨⟨rfl, rfl⟩, ⟨rfl, rfl⟩, ?_⟩
  intro E h f direction fuel deepness root hf
  have e : traced f (functorParams, []) root =
      (.FUNCTOR_SIBLINGS, (functorParams, [root])) := by
    simp [traced, hf, RunningElement.Save]
  simp [Process, filtersAccept, e, callEndFunctor]

/-- Witness for C18: a generated running element at the root 20 of `heapRunning`
is the only object the save functor is called on, and nothing is written. -/
theorem RunningElement.Save_generated_witness :
    Process classIdsExample heapRunning
        (traced (fun s x => RunningElement.Save (decide (x = 20)) countingSave s))
        none none FORWARD 4 UNLIMITED_DEPTH false 20 (0, []) =
      .ok (.FUNCTOR_CONTINUE, (0, [20])) :=
  (RunningElement.Save_generated countingSave countingSave 0).2.2 classIdsExample heapRunning
    (fun s x => RunningElement.Save (decide (x = 20)) countingSave s) FORWARD 3
    UNLIMITED_DEPTH 20 (fun _ => rfl)

/-! ## The filter of a running element -/

theorem GetFirstAncestor_some (h : Heap) (classId : ClassId) :
    ∀ (fuel : Nat) (x a : ObjId), GetFirstAncestor h classId fuel x (-1) = .ok (some a) →
      ∃ k, 0 < k ∧ ancestorAt h k x = some a ∧ (h a).m_classId = classId := by
  intro fuel
  induction fuel with
  | zero => intro x a hg; simp [GetFirstAncestor] at hg
  | succ fuel ih =>
    intro x a hg
    simp only [GetFirstAncestor, show ((-1 : Int) = 0) = False by simp, if_false, if_true] at hg
    cases hp : (h x).m_parent with
    | none => simp [hp] at hg
    | some p =>
      simp only [hp] at hg
      by_cases hc : (h p).m_classId = classId
      · simp only [hc, if_true, Except.ok.injEq, Option.some.injEq] at hg
        subst hg
        exact ⟨1, Nat.one_pos, by simp [ancestorAt, hp], hc⟩
      · simp only [hc, if_false] at hg
        obtain ⟨k, _, hk, hcl⟩ := ih p a hg
        exact ⟨k + 1, Nat.succ_pos k, by simp [ancestorAt, hp, hk], hcl⟩

theorem GetFirstAncestor_none (h : Heap) (classId : ClassId) :
    ∀ (fuel : Nat) (x : ObjId), GetFirstAncestor h classId fuel x (-1) = .ok none →
      ∀ k a, 0 < k → ancestorAt h k x = some a → (h a).m_classId ≠ classId := by
  intro fuel
  induction fuel with
  | zero => intro x hg; simp [GetFirstAncestor] at hg
  | succ fuel ih =>
    intro x hg k a hk ha
    simp only [GetFirstAncestor, show ((-1 : Int) = 0) = False by simp, if_false, if_true] at hg
    cases k with
    | zero => exact absurd hk (Nat.lt_irrefl 0)
    | succ k =>
      cases hp : (h x).m_parent with
      | none => simp [ancestorAt, hp] at ha
      | some p =>
        simp only [hp] at hg
        simp only [ancestorAt, hp] at ha
        by_cases hc : (h p).m_classId = classId
        · simp [hc] at hg
        · simp only [hc, if_false] at hg
          cases k with
          | zero =>
            simp only [ancestorAt, Option.some.injEq] at ha
            subst ha
            exact hc
          | succ k => exact ih p hg (k + 1) a (Nat.succ_pos k) ha

theorem GetFirstAncestor_returns (h : Heap) (classId : ClassId) :
    ∀ (fuel : Nat) (x : ObjId) (d : Nat) (r : ObjId), ancestorAt h d x = some r →
      (h r).m_parent = none → d < fuel →
      ∃ o, GetFirstAncestor h classId fuel x (-1) = .ok o := by
  intro fuel
  induction fuel with
  | zero => intro x d r _ _ hd; omega
  | succ fuel ih =>
    intro x d r hr hroot hd
    simp only [GetFirstAncestor, show ((-1 : Int) = 0) = False by simp, if_false, if_true]
    cases hp : (h x).m_parent with
    | none => exact ⟨none, rfl⟩
    | some p =>
      by_cases hc : (h p).m_classId = classId
      · exact ⟨some p, by simp [hc]⟩
      · cases d with
        | zero =>
          simp only [ancestorAt, Option.some.injEq] at hr
          subst hr
          rw [hp] at hroot
          cases hroot
        | succ d =>
          simp only [ancestorAt, hp] at hr
          obtain ⟨o, ho⟩ := ih p d r hr hroot (by omega)
          exact ⟨o, by simp [hc, ho]⟩

/-- A returning `FilterList` has asked `GetFirstAncestor` about every `REND` of the
list, and has kept those for which the answer was `NULL`. -/
theorem RunningElement.FilterList_rend (E : ClassIds) (fuel : Nat) (h : Heap) :
    ∀ (l r : List ObjId), RunningElement.FilterList E fuel h l = .ok r →
      ∀ x, x ∈ l → (h x).m_classId = E.REND →
        ∃ o, GetFirstAncestor h E.REND fuel x (-1) = .ok o ∧ (o = none → x ∈ r) := by
  intro l
  induction l with
  | nil => intro r _ x hx; simp at hx
  | cons y ys ih =>
    intro r hr x hx hxc
    simp only [RunningElement.FilterList, Is] at hr
    by_cases hy : (h y).m_classId = E.REND
    · simp only [hy, decide_True, if_true] at hr
      cases hg : GetFirstAncestor h E.REND fuel y (-1) with
      | error e => simp [hg] at hr
      | ok o =>
        cases o with
        | some b =>
          simp only [hg] at hr
          rcases List.mem_cons.1 hx with e | e
          · subst e
            exact ⟨some b, hg, fun e => by cases e⟩
          · exact ih r hr x e hxc
        | none =>
          simp only [hg] at hr
          cases hrest : RunningElement.FilterList E fuel h ys with
          | error e => simp [hrest] at hr
          | ok r' =>
            simp only [hrest, Except.ok.injEq] at hr
            subst hr
            rcases List.mem_cons.1 hx with e | e
            · subst e
              exact ⟨none, hg, fun _ => List.mem_cons_self _ _⟩
            · obtain ⟨o, h1, h2⟩ := ih r' hrest x e hxc
              exact ⟨o, h1, fun e => List.mem_cons_of_mem _ (h2 e)⟩
    · have hxy : x ≠ y := fun e => hy (e ▸ hxc)
      have hxys : x ∈ ys := by
        rcases List.mem_cons.1 hx with e | e
        · exact absurd e hxy
        · exact e
      simp only [hy, decide_False, Bool.false_eq_true, if_false] at hr
      by_cases hfig : (h y).m_classId = E.FIG
      · simp only [hfig, decide_True, Bool.not_true, Bool.false_eq_true, if_false] at hr
        cases hrest : RunningElement.FilterList E fuel h ys with
        | error e => simp [hrest] at hr
        | ok r' =>
          simp only [hrest, Except.ok.injEq] at hr
          subst hr
          obtain ⟨o, h1, h2⟩ := ih r' hrest x hxys hxc
          exact ⟨o, h1, fun e => List.mem_cons_of_mem _ (h2 e)⟩
      · simp only [hfig, decide_False, Bool.not_false, if_true] at hr
        exact ih r hr x hxys hxc

/-- A returning `FilterList` yields the input filtered by any test that decides
`Keeps`: the kept elements, each as often as it occurs, in their order. -/
theorem RunningElement.FilterList_eq_filter (E : ClassIds) (fuel : Nat) (h : Heap)
    (hne : E.REND ≠ E.FIG) :
    ∀ (l r : List ObjId), RunningElement.FilterList E fuel h l = .ok r →
      ∀ (p : ObjId → Bool), (∀ x, x ∈ l → (p x = true ↔ RunningElement.Keeps E h x)) →
        r = l.filter p := by
  intro l
  induction l with
  | nil =>
    intro r hr p _
    simp only [RunningElement.FilterList, Except.ok.injEq] at hr
    simp [← hr]
  | cons y ys ih =>
    intro r hr p hp
    have hpy := hp y (List.mem_cons_self y ys)
    have hpys : ∀ x, x ∈ ys → (p x = true ↔ RunningElement.Keeps E h x) :=
      fun x hx => hp x (List.mem_cons_of_mem y hx)
    simp only [RunningElement.FilterList, Is] at hr
    by_cases hy : (h y).m_classId = E.REND
    · have hnfig : (h y).m_classId ≠ E.FIG := fun e => hne (hy.symm.trans e)
      simp only [hy, decide_True, if_true] at hr
      cases hg : GetFirstAncestor h E.REND fuel y (-1) with
      | error e => simp [hg] at hr
      | ok o =>
        cases o with
        | some b =>
          simp only [hg] at hr
          obtain ⟨k, hk, hka, hkc⟩ := GetFirstAncestor_some h E.REND fuel y b hg
          have hnk : ¬ RunningElement.Keeps E h y := by
            rintro (⟨_, hno⟩ | hf)
            · exact hno k b hk hka hkc
            · exact hnfig hf
          have hpf : p y = false := by
            cases hpv : p y with
            | false => rfl
            | true => exact absurd (hpy.1 hpv) hnk
          rw [List.filter_cons, hpf]
          exact ih r hr p hpys
        | none =>
          simp only [hg] at hr
          cases hrest : RunningElement.FilterList E fuel h ys with
          | error e => simp [hrest] at hr
          | ok r' =>
            simp only [hrest, Except.ok.injEq] at hr
            subst hr
            have hpt : p y = true :=
              hpy.2 (Or.inl ⟨hy, GetFirstAncestor_none h E.REND fuel y hg⟩)
            rw [List.filter_cons, hpt, ih r' hrest p hpys]
            rfl
    · simp only [hy, decide_False, Bool.false_eq_true, if_false] at hr
      by_cases hfig : (h y).m_classId = E.FIG
      · simp only [hfig, decide_True, Bool.not_true, Bool.false_eq_true, if_false] at hr
        cases hrest : RunningElement.FilterList E fuel h ys with
        | error e => simp [hrest] at hr
        | ok r' =>
          simp only [hrest, Except.ok.injEq] at hr
          subst hr
          have hpt : p y = true := hpy.2 (Or.inr hfig)
          rw [List.filter_cons, hpt, ih r' hrest p hpys]
          rfl
      · simp only [hfig, decide_False, Bool.not_false, if_true] at hr
        have hnk : ¬ RunningElement.Keeps E h y := by
          rintro (⟨hr', _⟩ | hf)
          · exact hy hr'
          · exact hfig hf
        have hpf : p y = false := by
          cases hpv : p y with
          | false => rfl
          | true => exact absurd (hpy.1 hpv) hnk
        rw [List.filter_cons, hpf]
        exact ih r hr p hpys

theorem RunningElement.FilterList_returns (E : ClassIds) (fuel : Nat) (h : Heap) :
    ∀ (l : List ObjId),
      (∀ x, x ∈ l → (h x).m_classId = E.REND →
        ∃ d root, d < fuel ∧ ancestorAt h d x = some root ∧ (h root).m_parent = none) →
      ∃ r, RunningElement.FilterList E fuel h l = .ok r := by
  intro l
  induction l with
  | nil => intro _; exact ⟨[], rfl⟩
  | cons y ys ih =>
    intro hfuel
    obtain ⟨r', hr'⟩ := ih (fun x hx => hfuel x (List.mem_cons_of_mem y hx))
    simp only [RunningElement.FilterList, Is]
    by_cases hy : (h y).m_classId = E.REND
    · obtain ⟨d, root, hd, hroot, hpar⟩ := hfuel y (List.mem_cons_self y ys) hy
      obtain ⟨o, ho⟩ := GetFirstAncestor_returns h E.REND fuel y d root hroot hpar hd
      cases o with
      | some b => exact ⟨r', by simp [hy, ho, hr']⟩
      | none => exact ⟨y :: r', by simp [hy, ho, hr']⟩
    · by_cases hfig : (h y).m_classId = E.FIG
      · have hfr : ¬ E.FIG = E.REND := fun e => hy (hfig.trans e)
        exact ⟨y :: r', by simp [hfig, hfr, hr']⟩
      · exact ⟨r', by simp [hy, hfig, hr']⟩

/-- C19. With `REND` and `FIG` two different class ids, whenever
`RunningElement::FilterList` returns, its result is the input list filtered by
"a `REND` with no `REND` ancestor, or a `FIG`": exactly those elements are kept, in
their original relative order, and every nested `REND` and everything that is
neither a `REND` nor a `FIG` is removed.  It returns when the parent chain of
every `REND` of the list ends within the fuel. -/
theorem RunningElement.FilterList_keeps (E : ClassIds) (fuel : Nat) (h : Heap)
    (l : List ObjId) (hne : E.REND ≠ E.FIG) :
    (∀ r, RunningElement.FilterList E fuel h l = .ok r →
      r.Sublist l ∧ (∀ x, x ∈ r ↔ x ∈ l ∧ RunningElement.Keeps E h x) ∧
      ∀ (p : ObjId → Bool), (∀ x, x ∈ l → (p x = true ↔ RunningElement.Keeps E h x)) →
        r = l.filter p) ∧
    ((∀ x, x ∈ l → (h x).m_classId = E.REND →
        ∃ d root, d < fuel ∧ ancestorAt h d x = some root ∧ (h root).m_parent = none) →
      ∃ r, RunningElement.FilterList E fuel h l = .ok r) := by
  refine ⟨?_, RunningElement.FilterList_returns E fuel h l⟩
  intro r hr
  have hfil := RunningElement.FilterList_eq_filter E fuel h hne l r hr
  classical
  have hrp : r = l.filter (fun x => decide (RunningElement.Keeps E h x)) :=
    hfil _ (fun x _ => by simp)
  refine ⟨?_, ?_, hfil⟩
  · rw [hrp]
    exact List.filter_sublist l
  · intro x
    rw [hrp]
    simp [List.mem_filter]

/-- Witness for C19: on the flattening `[20, 21, 22, 23, 24]` of `heapRunning`
the filter returns `[21, 24]`, the top-level rend and the fig; the running
element 20, the nested rend 22 and the text 23 are removed. -/
theorem RunningElement.FilterList_keeps_witness :
    classIdsExample.REND ≠ classIdsExample.FIG ∧
      RunningElement.FilterList classIdsExample 4 heapRunning [20, 21, 22, 23, 24] =
        .ok [21, 24] ∧
      (∀ x, x ∈ [21, 24] ↔
        x ∈ [20, 21, 22, 23, 24] ∧ RunningElement.Keeps classIdsExample heapRunning x) :=
  ⟨by decide, rfl,
    ((RunningElement.FilterList_keeps classIdsExample 4 heapRunning [20, 21, 22, 23, 24]
      (by decide)).1 [21, 24] rfl).2.1⟩

theorem ancestorAt_add (h : Heap) : ∀ (a b : Nat) (x : ObjId),
    ancestorAt h (a + b) x = (ancestorAt h a x).bind (ancestorAt h b) := by
  intro a
  induction a with
  | zero => intro b x; simp [ancestorAt]
  | succ a ih =>
    intro b x
    rw [Nat.succ_add]
    simp only [ancestorAt]
    cases (h x).m_parent with
    | none => rfl
    | some p => exact ih b p

/-- In a subtree whose parent pointers agree with its child sequences, the
parent chain of every object of the subtree leads to the root of the subtree
through objects of the subtree. -/
theorem preorder_chain_to_root (h : Heap) (direction : Bool) (fuel : Nat) (n : ObjId)
    (L : List ObjId) (hL : preorder h direction fuel n = .ok L)
    (hwf : ∀ x, x ∈ L → ∀ c, c ∈ (h x).m_children → (h c).m_parent = some x) :
    ∀ x, x ∈ L → ∃ k, ancestorAt h k x = some n ∧
      ∀ j, j ≤ k → ∃ a, a ∈ L ∧ ancestorAt h j x = some a := by
  have hn : n ∈ L := preorder_self_mem h direction fuel n L hL
  have hdesc : ∀ x, Descendant h n x → ∃ k, ancestorAt h k x = some n ∧
      ∀ j, j ≤ k → ∃ a, a ∈ L ∧ ancestorAt h j x = some a := by
    intro x hx
    induction hx with
    | child hc =>
      rename_i c
      have hcL : c ∈ L :=
        List.mem_of_mem_tail (preorder_children_mem h direction fuel n L hL n hn c hc)
      have hpar := hwf n hn c hc
      refine ⟨1, by simp [ancestorAt, hpar], ?_⟩
      intro j hj
      rcases Nat.le_one_iff_eq_zero_or_eq_one.1 hj with e | e
      · exact ⟨c, hcL, by simp [e, ancestorAt]⟩
      · exact ⟨n, hn, by simp [e, ancestorAt, hpar]⟩
    | step hdm hc ih =>
      rename_i m d
      obtain ⟨k, hk, hchain⟩ := ih
      obtain ⟨m', hm'L, hm'⟩ := hchain 0 (Nat.zero_le k)
      have hmL : m ∈ L := by
        simp only [ancestorAt, Option.some.injEq] at hm'
        exact hm' ▸ hm'L
      have hdL : d ∈ L :=
        List.mem_of_mem_tail (preorder_children_mem h direction fuel n L hL m hmL d hc)
      have hpar := hwf m hmL d hc
      refine ⟨k + 1, by simp [ancestorAt, hpar, hk], ?_⟩
      intro j hj
      cases j with
      | zero => exact ⟨d, hdL, by simp [ancestorAt]⟩
      | succ j =>
        obtain ⟨a, haL, ha⟩ := hchain j (by omega)
        exact ⟨a, haL, by simp [ancestorAt, hpar, ha]⟩
  intro x hx
  rcases preorder_mem_descendant h direction fuel n L hL x hx with e | e
  · subst e
    exact ⟨0, by simp [ancestorAt], fun j hj => ⟨x, hx, by
      have : j = 0 := by omega
      simp [this, ancestorAt]⟩⟩
  · exact hdesc x e

/-- On the chain from a `REND` up to a root that neither is a `REND` nor has a
`REND` ancestor, the topmost `REND` has no `REND` ancestor. -/
theorem topmost_rend (E : ClassIds) (h : Heap) (n : ObjId) (L : List ObjId)
    (hn : (h n).m_classId ≠ E.REND)
    (hnanc : ∀ k a, 0 < k → ancestorAt h k n = some a → (h a).m_classId ≠ E.REND) :
    ∀ (k : Nat) (x : ObjId), ancestorAt h k x = some n →
      (∀ j, j ≤ k → ∃ a, a ∈ L ∧ ancestorAt h j x = some a) →
      (h x).m_classId = E.REND →
      ∃ j a, ancestorAt h j x = some a ∧ a ∈ L ∧ (h a).m_classId = E.REND ∧
        ∀ i b, 0 < i → ancestorAt h i a = some b → (h b).m_classId ≠ E.REND := by
  intro k
  induction k using Nat.strong_induction_on with
  | _ k ih =>
    intro x hk hchain hx
    by_cases htop : ∀ i b, 0 < i → ancestorAt h i x = some b → (h b).m_classId ≠ E.REND
    · obtain ⟨a, haL, ha⟩ := hchain 0 (Nat.zero_le k)
      have hax : a = x := by
        simp only [ancestorAt, Option.some.injEq] at ha
        exact ha.symm
      subst hax
      exact ⟨0, a, by simp [ancestorAt], haL, hx, htop⟩
    · have hex : ∃ m b, 0 < m ∧ ancestorAt h m x = some b ∧ (h b).m_classId = E.REND := by
        by_contra hcon
        apply htop
        intro i b hi hb hcl
        exact hcon ⟨i, b, hi, hb, hcl⟩
      obtain ⟨m, b, hm, hb, hbc⟩ := hex
      rcases Nat.lt_trichotomy m k with hlt | heq | hgt
      · have hkm : k = m + (k - m) := by omega
        have hbn : ancestorAt h (k - m) b = some n := by
          have := ancestorAt_add h m (k - m) x
          rw [← hkm, hk, hb] at this
          simpa using this.symm
        have hbchain : ∀ j, j ≤ k - m → ∃ a, a ∈ L ∧ ancestorAt h j b = some a := by
          intro j hj
          obtain ⟨a, haL, ha⟩ := hchain (m + j) (by omega)
          refine ⟨a, haL, ?_⟩
          have := ancestorAt_add h m j x
          rw [ha, hb] at this
          simpa using this.symm
        obtain ⟨j, a, hja, haL, hac, hatop⟩ := ih (k - m) (by omega) b hbn hbchain hbc
        refine ⟨m + j, a, ?_, haL, hac, hatop⟩
        rw [ancestorAt_add, hb]
        simpa using hja
      · subst heq
        rw [hk] at hb
        exact absurd ((Option.some.inj hb) ▸ hbc) hn
      · have hmk : m = k + (m - k) := by omega
        have := ancestorAt_add h k (m - k) x
        rw [← hmk, hb, hk] at this
        exact absurd hbc (hnanc (m - k) b (by omega) (by simpa using this.symm))

/-- C20. Let `L` be the depth-first flattening of the subtree of a running
element `n` whose parent pointers agree with its child sequences, where `n` is
not a `REND` and has no `REND` ancestor.  Then every `REND` of `L` that
`RunningElement::FilterList` drops has, among its proper ancestors, a `REND` that
`FilterList` keeps. -/
theorem RunningElement.FilterList_dropped_rend_nested (E : ClassIds) (h : Heap)
    (fuel fuel2 : Nat) (n : ObjId) (L r : List ObjId)
    (hflat : preorder h FORWARD fuel n = .ok L)
    (hwf : ∀ x, x ∈ L → ∀ c, c ∈ (h x).m_children → (h c).m_parent = some x)
    (hn : (h n).m_classId ≠ E.REND)
    (hnanc : ∀ k a, 0 < k → ancestorAt h k n = some a → (h a).m_classId ≠ E.REND)
    (hfilter : RunningElement.FilterList E fuel2 h L = .ok r) :
    ∀ x, x ∈ L → (h x).m_classId = E.REND → x ∉ r →
      ∃ j a, 0 < j ∧ ancestorAt h j x = some a ∧ (h a).m_classId = E.REND ∧ a ∈ r := by
  intro x hxL hxc hxr
  obtain ⟨k, hk, hchain⟩ := preorder_chain_to_root h FORWARD fuel n L hflat hwf x hxL
  obtain ⟨j, a, hja, haL, hac, hatop⟩ := topmost_rend E h n L hn hnanc k x hk hchain hxc
  obtain ⟨o, ho, hkeep⟩ := RunningElement.FilterList_rend E fuel2 h L r hfilter a haL hac
  have har : a ∈ r := by
    apply hkeep
    cases o with
    | none => rfl
    | some b =>
      obtain ⟨i, hi, hib, hbc⟩ := GetFirstAncestor_some h E.REND fuel2 a b ho
      exact absurd hbc (hatop i b hi hib)
  refine ⟨j, a, ?_, hja, hac, har⟩
  rcases Nat.eq_zero_or_pos j with e | e
  · subst e
    simp only [ancestorAt, Option.some.injEq] at hja
    exact absurd (hja ▸ har) hxr
  · exact e

/-- Witness for C20: in `heapRunning` the nested rend 22 is dropped by the filter
and its parent, the rend 21, is kept. -/
theorem RunningElement.FilterList_dropped_rend_nested_witness :
    (22 : ObjId) ∉ [21, 24] ∧
      ∃ j a, 0 < j ∧ ancestorAt heapRunning j 22 = some a ∧
        (heapRunning a).m_classId = classIdsExample.REND ∧ a ∈ [21, 24] := by
  have hflat : preorder heapRunning FORWARD 4 20 = .ok [20, 21, 22, 23, 24] := rfl
  have hwf : ∀ x, x ∈ [20, 21, 22, 23, 24] → ∀ c, c ∈ (heapRunning x).m_children →
      (heapRunning c).m_parent = some x := by decide
  have hnanc : ∀ k a, 0 < k → ancestorAt heapRunning k 20 = some a →
      (heapRunning a).m_classId ≠ classIdsExample.REND := by
    intro k a hk ha
    cases k with
    | zero => exact absurd hk (Nat.lt_irrefl 0)
    | succ k => simp [ancestorAt, heapRunning] at ha
  exact ⟨by decide,
    RunningElement.FilterList_dropped_rend_nested classIdsExample heapRunning 4 4 20
      [20, 21, 22, 23, 24] [21, 24] hflat hwf (by decide) hnanc rfl 22 (by decide) rfl
      (by decide)⟩

/-! ## The functor hooks of the base object -/

/-- C17 fails as stated: the base hook `FindAllBetween`, called on the end object
13 of a range search that has reached its start, returns `FUNCTOR_STOP` and
appends the object to the list in the parameter block. -/
theorem Object.functor_FindAllBetween_stops :
    Object.functor (rangeSearchHooks 13) .FindAllBetween heapFive
        { m_start := none, m_elements := [11, 12] } 13 =
      (.FUNCTOR_STOP, heapFive, { m_start := none, m_elements := [11, 12, 13] }) := by
  rfl

/-- C17, amended.  Every functor hook of the base `Object` whose body is given
inline in object.h returns `FUNCTOR_CONTINUE` for every object and every
parameter block, and changes neither the store nor the parameter block,
whatever the hooks implemented in object.cpp do. -/
theorem Object.functor_inline_continue {σ : Type} (outOfLine : ObjectFunctor → ObjectHook σ)
    (f : ObjectFunctor) (hf : f.hasInlineBody = true) (h : Heap) (functorParams : σ)
    (self : ObjId) :
    Object.functor outOfLine f h functorParams self = (.FUNCTOR_CONTINUE, h, functorParams) := by
  cases f <;> first | rfl | exact absurd hf (by decide)

/-- Witness for C17, amended: `Transpose` has an inline body, and on the object 10
of `heapFive` it returns `FUNCTOR_CONTINUE` and leaves the parameter block of the
range search as it was. -/
theorem Object.functor_inline_continue_witness :
    ObjectFunctor.Transpose.hasInlineBody = true ∧
      Object.functor (rangeSearchHooks 13) .Transpose heapFive
          { m_start := some 11, m_elements := [] } 10 =
        (.FUNCTOR_CONTINUE, heapFive, { m_start := some 11, m_elements := [] }) :=
  ⟨rfl, Object.functor_inline_continue (rangeSearchHooks 13) .Transpose rfl heapFive
    { m_start := some 11, m_elements := [] } 10⟩

/-! ## Running element: supported children and the grid of cells -/

/-- C21. Whenever `RunningElement::IsSupportedChild(c)` returns, it returns true
exactly when the class id of `c` lies in the text element family or in the
editorial element family, and false for every other class id; and it returns
(no assertion fails) when the C++ type of `c` agrees with the family of its class
id. -/
theorem RunningElement.IsSupportedChild_iff (E : ClassIds) (isTextElementType : ObjId → Bool)
    (isEditorialElementType : ObjId → Bool) (h : Heap) (c : ObjId) :
    (∀ b, RunningElement.IsSupportedChild E isTextElementType isEditorialElementType h c =
        .ok b → (b = true ↔ IsTextElement E h c = true ∨ IsEditorialElement E h c = true)) ∧
    ((IsTextElement E h c = true → isTextElementType c = true) →
      (IsEditorialElement E h c = true → isEditorialElementType c = true) →
      RunningElement.IsSupportedChild E isTextElementType isEditorialElementType h c =
        .ok (IsTextElement E h c || IsEditorialElement E h c)) := by
  unfold RunningElement.IsSupportedChild
  constructor
  · intro b hb
    cases ht : IsTextElement E h c <;> cases he : IsEditorialElement E h c <;>
      cases htt : isTextElementType c <;> cases het : isEditorialElementType c <;>
      simp [ht, he, htt, het] at hb ⊢ <;> exact hb
  · intro h1 h2
    cases ht : IsTextElement E h c <;> cases he : IsEditorialElement E h c <;>
      simp [ht, he] at h1 h2 ⊢ <;> simp [h1, h2]

/-- Witness for C21: with the class ids of `classIdsExample`, the rend 60 and
the editorial element 62 of `heapKinds` are supported children and the layer
element 63 is not. -/
theorem RunningElement.IsSupportedChild_iff_witness :
    RunningElement.IsSupportedChild classIdsExample (fun _ => true) (fun _ => true) heapKinds
        60 = .ok true ∧
      RunningElement.IsSupportedChild classIdsExample (fun _ => true) (fun _ => true) heapKinds
        62 = .ok true ∧
      RunningElement.IsSupportedChild classIdsExample (fun _ => true) (fun _ => true) heapKinds
        63 = .ok false :=
  ⟨(RunningElement.IsSupportedChild_iff classIdsExample (fun _ => true) (fun _ => true)
      heapKinds 60).2 (fun _ => rfl) (fun _ => rfl),
    (RunningElement.IsSupportedChild_iff classIdsExample (fun _ => true) (fun _ => true)
      heapKinds 62).2 (fun _ => rfl) (fun _ => rfl),
    (RunningElement.IsSupportedChild_iff classIdsExample (fun _ => true) (fun _ => true)
      heapKinds 63).2 (fun _ => rfl) (fun _ => rfl)⟩

/-- C23. With the position constants equal to the offsets of the grid, for every
horizontal alignment `h` and vertical alignment `v`, set or not,
`GetAlignmentPos(h, v)` is column plus row, the column being 0, 1 or 2 (left,
center, right; anything else counts as left) and the row 0, 3 or 6 (top, middle,
bottom; anything else counts as middle); the result is a cell index from 0 to 8,
and the nine combinations of left, center, right with top, middle, bottom give
nine different cells. -/
theorem RunningElement.GetAlignmentPos_grid (P : Positions) (hP : P.IsGrid) :
    (∀ h v, RunningElement.GetAlignmentPos P h v = columnOf h + rowOf v ∧
      (columnOf h = 0 ∨ columnOf h = 1 ∨ columnOf h = 2) ∧
      (rowOf v = 0 ∨ rowOf v = 3 ∨ rowOf v = 6) ∧
      0 ≤ RunningElement.GetAlignmentPos P h v ∧ RunningElement.GetAlignmentPos P h v < 9) ∧
    (∀ h h' v v',
      (h = .HORIZONTALALIGNMENT_left ∨ h = .HORIZONTALALIGNMENT_center ∨
        h = .HORIZONTALALIGNMENT_right) →
      (h' = .HORIZONTALALIGNMENT_left ∨ h' = .HORIZONTALALIGNMENT_center ∨
        h' = .HORIZONTALALIGNMENT_right) →
      (v = .VERTICALALIGNMENT_top ∨ v = .VERTICALALIGNMENT_middle ∨
        v = .VERTICALALIGNMENT_bottom) →
      (v' = .VERTICALALIGNMENT_top ∨ v' = .VERTICALALIGNMENT_middle ∨
        v' = .VERTICALALIGNMENT_bottom) →
      RunningElement.GetAlignmentPos P h v = RunningElement.GetAlignmentPos P h' v' →
      h = h' ∧ v = v') := by
  obtain ⟨p1, p2, p3, p4, p5⟩ := hP
  have hpos : ∀ h v, RunningElement.GetAlignmentPos P h v = columnOf h + rowOf v := by
    intro h v
    cases h <;> cases v <;> simp [RunningElement.GetAlignmentPos, columnOf, rowOf, p1, p2, p3,
      p4, p5]
  constructor
  · intro h v
    rw [hpos]
    cases h <;> cases v <;> simp [columnOf, rowOf]
  · intro h h' v v' hh hh' hv hv' e
    rw [hpos, hpos] at e
    rcases hh with r | r | r <;> rcases hh' with r' | r' | r' <;>
      rcases hv with q | q | q <;> rcases hv' with q' | q' | q' <;>
      subst r r' q q' <;> simp [columnOf, rowOf] at e ⊢

/-- Witness for C23: with the grid constants, an unset pair of alignments goes
to the cell 3 (left, middle) and the pair right, bottom to the cell 8. -/
theorem RunningElement.GetAlignmentPos_grid_witness :
    positionsGrid.IsGrid ∧
      RunningElement.GetAlignmentPos positionsGrid .HORIZONTALALIGNMENT_NONE
        .VERTICALALIGNMENT_NONE = 3 ∧
      RunningElement.GetAlignmentPos positionsGrid .HORIZONTALALIGNMENT_right
        .VERTICALALIGNMENT_bottom = 8 := by
  have hP : positionsGrid.IsGrid := ⟨rfl, rfl, rfl, rfl, rfl⟩
  have key := (RunningElement.GetAlignmentPos_grid positionsGrid hP).1
  exact ⟨hP, by rw [(key _ _).1]; rfl, by rw [(key _ _).1]; rfl⟩

theorem wrapInt_of_inInt (x : Int) (hx : InInt x) : wrapInt x = x := by
  unfold InInt at hx
  unfold wrapInt
  omega

theorem inInt_wrapInt (x : Int) : InInt (wrapInt x) := by
  unfold InInt wrapInt
  omega

theorem eq_of_wrapInt_eq {a b : Int} (h : wrapInt a = wrapInt b) (ha : InInt a)
    (hb : InInt b) : a = b := by
  rw [wrapInt_of_inInt a ha, wrapInt_of_inInt b hb] at h
  exact h

theorem cellHeightOf_cons (boxes : Boxes) (a : ObjId) (l : List ObjId) :
    cellHeightOf boxes (a :: l) =
      (if (boxes a).HasContentBB then (boxes a).ContentY2 - (boxes a).ContentY1 else 0) +
        cellHeightOf boxes l := by
  by_cases ha : (boxes a).HasContentBB = true
  · simp [cellHeightOf, ha]
  · simp [cellHeightOf, ha]

theorem cellHeightLoop_eq (boxes : Boxes) : ∀ (l : List ObjId) (acc : Int),
    cellHeightLoop boxes l (wrapInt acc) = wrapInt (acc + cellHeightOf boxes l) := by
  intro l
  induction l with
  | nil => intro acc; simp [cellHeightLoop, cellHeightOf]
  | cons x xs ih =>
    intro acc
    rw [cellHeightOf_cons]
    by_cases hx : (boxes x).HasContentBB = true
    · simp only [cellHeightLoop, hx, if_true]
      rw [ih]
      unfold wrapInt
      omega
    · simp only [cellHeightLoop, hx, Bool.false_eq_true, if_false]
      rw [ih]
      simp

theorem RunningElement.cell_eq (re : RunningElement) (k : Nat) (hk : k < 9) :
    re.cell (k : Int) = .ok (re.m_cells k) := by
  have h1 : (0 : Int) ≤ (k : Int) ∧ (k : Int) < 9 := by omega
  simp [RunningElement.cell, h1]

theorem RunningElement.GetCellHeight_eq (boxes : Boxes) (re : RunningElement) (k : Nat)
    (hk : k < 9) :
    RunningElement.GetCellHeight boxes re (k : Int) =
      .ok (cellHeightInt boxes (re.m_cells k)) := by
  have h1 : (0 : Int) ≤ (k : Int) ∧ (k : Int) < 9 := by omega
  have h0 : wrapInt 0 = 0 := by unfold wrapInt; omega
  have hloop := cellHeightLoop_eq boxes (re.m_cells k) 0
  rw [h0, Int.zero_add] at hloop
  simp [RunningElement.GetCellHeight, h1, RunningElement.cell_eq re k hk, hloop, cellHeightInt]

theorem RunningElement.GetRowHeight_eq (boxes : Boxes) (re : RunningElement) (r : Nat)
    (hr : r < 3) :
    RunningElement.GetRowHeight boxes re (r : Int) = .ok (rowHeightOf boxes re r) := by
  have c0 := RunningElement.GetCellHeight_eq boxes re (r * 3) (by omega)
  have c1 := RunningElement.GetCellHeight_eq boxes re (r * 3 + 1) (by omega)
  have c2 := RunningElement.GetCellHeight_eq boxes re (r * 3 + 2) (by omega)
  have h1 : (0 : Int) ≤ (r : Int) ∧ (r : Int) < 3 := by omega
  push_cast at c0 c1 c2
  simp [RunningElement.GetRowHeight, h1, forLoop, c0, c1, c2, rowHeightOf]

theorem RunningElement.GetColHeight_eq (boxes : Boxes) (re : RunningElement) (c : Nat)
    (hc : c < 3) :
    RunningElement.GetColHeight boxes re (c : Int) = .ok (colHeightOf boxes re c) := by
  have c0 := RunningElement.GetCellHeight_eq boxes re c (by omega)
  have c1 := RunningElement.GetCellHeight_eq boxes re (3 + c) (by omega)
  have c2 := RunningElement.GetCellHeight_eq boxes re (6 + c) (by omega)
  have h1 : (0 : Int) ≤ (c : Int) ∧ (c : Int) < 3 := by omega
  have hsum : ∀ a b d : Int,
      wrapInt (wrapInt (wrapInt a + b) + d) = wrapInt (a + b + d) := by
    intro a b d
    unfold wrapInt
    omega
  push_cast at c0 c1 c2
  simp [RunningElement.GetColHeight, h1, forLoop, c0, c1, c2, colHeightOf, colHeightSum, hsum]

theorem RunningElement.GetContentHeight_eq (boxes : Boxes) (re : RunningElement) :
    RunningElement.GetContentHeight boxes re = .ok (contentHeightOf boxes re) := by
  have r0 := RunningElement.GetRowHeight_eq boxes re 0 (by omega)
  have r1 := RunningElement.GetRowHeight_eq boxes re 1 (by omega)
  have r2 := RunningElement.GetRowHeight_eq boxes re 2 (by omega)
  have hsum : ∀ a b d : Int,
      wrapInt (wrapInt (wrapInt a + b) + d) = wrapInt (a + b + d) := by
    intro a b d
    unfold wrapInt
    omega
  push_cast at r0 r1 r2
  simp [RunningElement.GetContentHeight, forLoop, r0, r1, r2, contentHeightOf, rowHeightSum,
    hsum]

/-- Counterexample for C29: with a box of height 1073741824 in the cell 0 and
another in the cell 3, the rows 0 and 1 are each 1073741824 high and their sum
leaves the range of `int`: `GetContentHeight()` is -2147483648, which is below 0
and below `GetColHeight(1)`, which is 0. -/
theorem RunningElement.GetContentHeight_overflow :
    RunningElement.GetRowHeight boxesFar runningTall 0 = .ok 1073741824 ∧
      RunningElement.GetRowHeight boxesFar runningTall 1 = .ok 1073741824 ∧
      RunningElement.GetContentHeight boxesFar runningTall = .ok (-2147483648) ∧
      RunningElement.GetColHeight boxesFar runningTall 1 = .ok 0 := by
  refine ⟨?_, ?_, ?_, ?_⟩
  · exact (RunningElement.GetRowHeight_eq boxesFar runningTall 0 (by decide)).trans
      (congrArg Except.ok (by decide))
  · exact (RunningElement.GetRowHeight_eq boxesFar runningTall 1 (by decide)).trans
      (congrArg Except.ok (by decide))
  · exact (RunningElement.GetContentHeight_eq boxesFar runningTall).trans
      (congrArg Except.ok (by decide))
  · exact (RunningElement.GetColHeight_eq boxesFar runningTall 1 (by decide)).trans
      (congrArg Except.ok (by decide))

/-- C29, within the range of `int`.  Let the sum of the three row heights, and
the sum of the three cell heights of the column `col` (0 to 2), lie in the range
of `int`.  Then `GetContentHeight()` and `GetColHeight(col)` return and
`GetContentHeight() >= GetColHeight(col)`: each `GetRowHeight(row)` is the largest
of 0 and the three cell heights of the row, and `GetContentHeight` is the sum of
the three row heights; in particular `GetContentHeight() >= 0`, also when a cell
height is negative. -/
theorem RunningElement.GetContentHeight_ge_GetColHeight (boxes : Boxes) (re : RunningElement)
    (col : Nat) (hcol : col < 3) (hrows : InInt (rowHeightSum boxes re))
    (hcells : InInt (colHeightSum boxes re col)) :
    ∃ contentHeight colHeight,
      RunningElement.GetContentHeight boxes re = .ok contentHeight ∧
      RunningElement.GetColHeight boxes re (col : Int) = .ok colHeight ∧
      colHeight ≤ contentHeight ∧ 0 ≤ contentHeight ∧
      contentHeight = rowHeightOf boxes re 0 + rowHeightOf boxes re 1 + rowHeightOf boxes re 2 ∧
      colHeight = cellHeightInt boxes (re.m_cells col) +
        cellHeightInt boxes (re.m_cells (3 + col)) + cellHeightInt boxes (re.m_cells (6 + col)) ∧
      (∀ row : Nat, row < 3 →
        RunningElement.GetRowHeight boxes re (row : Int) =
          .ok (max (max (max 0 (cellHeightInt boxes (re.m_cells (row * 3))))
            (cellHeightInt boxes (re.m_cells (row * 3 + 1))))
            (cellHeightInt boxes (re.m_cells (row * 3 + 2))))) ∧
      ∀ cell : Nat, cell < 9 →
        RunningElement.GetCellHeight boxes re (cell : Int) =
          .ok (cellHeightInt boxes (re.m_cells cell)) := by
  have e1 : contentHeightOf boxes re = rowHeightSum boxes re := wrapInt_of_inInt _ hrows
  have e2 : colHeightOf boxes re col = colHeightSum boxes re col := wrapInt_of_inInt _ hcells
  refine ⟨_, _, RunningElement.GetContentHeight_eq boxes re,
    RunningElement.GetColHeight_eq boxes re col hcol, ?_, ?_, ?_, ?_, ?_, ?_⟩
  · rw [e1, e2]
    interval_cases col <;>
      simp only [colHeightSum, rowHeightSum, rowHeightOf, Nat.reduceMul, Nat.reduceAdd,
        Nat.zero_add, Nat.add_zero] <;> omega
  · rw [e1]
    simp only [rowHeightSum, rowHeightOf]
    omega
  · rw [e1]
    rfl
  · rw [e2]
    rfl
  · intro row hrow
    exact RunningElement.GetRowHeight_eq boxes re row hrow
  · intro cell hcell
    exact RunningElement.GetCellHeight_eq boxes re cell hcell

/-- Witness for C29: in `runningExample` with `boxesExample` the cell 1 has the
negative height -15; the content height is 30 + 30 + 40 = 100 and the height of
column 1 is -15 + 30 + 0 = 15. -/
theorem RunningElement.GetContentHeight_ge_GetColHeight_witness :
    cellHeightInt boxesExample (runningExample.m_cells 1) = -15 ∧
      RunningElement.GetContentHeight boxesExample runningExample = .ok 100 ∧
      RunningElement.GetColHeight boxesExample runningExample 1 = .ok 15 := by
  obtain ⟨ch, colh, h1, h2, _, _, h5, h6, _, _⟩ :=
    RunningElement.GetContentHeight_ge_GetColHeight boxesExample runningExample 1 (by decide)
      (by unfold InInt; decide) (by unfold InInt; decide)
  have e1 : ch = 100 := h5.trans (by decide)
  have e2 : colh = 15 := h6.trans (by decide)
  subst e1 e2
  exact ⟨by decide, h1, h2⟩

/-! ## Running element: scaling -/

theorem columnWidthOf_nonneg (boxes : Boxes) : ∀ (l : List ObjId), 0 ≤ columnWidthOf boxes l := by
  intro l
  induction l with
  | nil => simp [columnWidthOf]
  | cons x xs ih =>
    by_cases hx : (boxes x).HasContentBB = true
    · have e : columnWidthOf boxes (x :: xs) =
          max (wrapInt ((boxes x).ContentX2 - (boxes x).ContentX1)) (columnWidthOf boxes xs) := by
        simp [columnWidthOf, hx]
      rw [e]
      omega
    · have e : columnWidthOf boxes (x :: xs) = columnWidthOf boxes xs := by
        simp [columnWidthOf, hx]
      rw [e]
      exact ih

theorem columnWidthLoop_eq (boxes : Boxes) : ∀ (l : List ObjId) (acc : Int), 0 ≤ acc →
    columnWidthLoop boxes l acc = max acc (columnWidthOf boxes l) := by
  intro l
  induction l with
  | nil =>
    intro acc hacc
    simp only [columnWidthLoop, columnWidthOf, List.filter_nil, List.map_nil, List.foldr_nil]
    omega
  | cons x xs ih =>
    intro acc hacc
    by_cases hx : (boxes x).HasContentBB = true
    · have e : columnWidthOf boxes (x :: xs) =
          max (wrapInt ((boxes x).ContentX2 - (boxes x).ContentX1)) (columnWidthOf boxes xs) := by
        simp [columnWidthOf, hx]
      simp only [columnWidthLoop, hx, if_true]
      rw [ih _ (by omega), e]
      omega
    · have e : columnWidthOf boxes (x :: xs) = columnWidthOf boxes xs := by
        simp [columnWidthOf, hx]
      simp only [columnWidthLoop, hx, Bool.false_eq_true, if_false]
      rw [ih _ hacc, e]

theorem columnWidthLoop_zero (boxes : Boxes) (l : List ObjId) :
    columnWidthLoop boxes l 0 = columnWidthOf boxes l := by
  have h := columnWidthLoop_eq boxes l 0 (le_refl 0)
  have h0 := columnWidthOf_nonneg boxes l
  rw [h]
  omega

theorem columnWidthOf_eq_exact (boxes : Boxes) : ∀ (l : List ObjId),
    (∀ x, x ∈ l → (boxes x).HasContentBB = true →
      InInt ((boxes x).ContentX2 - (boxes x).ContentX1)) →
    columnWidthOf boxes l = columnWidthExact boxes l := by
  intro l
  induction l with
  | nil => intro _; rfl
  | cons x xs ih =>
    intro hl
    have hrest := ih (fun z hz => hl z (List.mem_cons_of_mem x hz))
    by_cases hx : (boxes x).HasContentBB = true
    · have e1 : columnWidthOf boxes (x :: xs) =
          max (wrapInt ((boxes x).ContentX2 - (boxes x).ContentX1)) (columnWidthOf boxes xs) := by
        simp [columnWidthOf, hx]
      have e2 : columnWidthExact boxes (x :: xs) =
          max ((boxes x).ContentX2 - (boxes x).ContentX1) (columnWidthExact boxes xs) := by
        simp [columnWidthExact, hx]
      rw [e1, e2, hrest, wrapInt_of_inInt _ (hl x (List.mem_cons_self _ _) hx)]
    · have e1 : columnWidthOf boxes (x :: xs) = columnWidthOf boxes xs := by
        simp [columnWidthOf, hx]
      have e2 : columnWidthExact boxes (x :: xs) = columnWidthExact boxes xs := by
        simp [columnWidthExact, hx]
      rw [e1, e2, hrest]

theorem rowWidthOf_eq_exact (boxes : Boxes) (re : RunningElement)
    (hrange : RunningElement.WidthsInRange boxes re) (row : Nat) (hrow : row < 3) :
    rowWidthOf boxes re row = rowWidthExact boxes re row := by
  have c0 := columnWidthOf_eq_exact boxes (re.m_cells (row * 3))
    (hrange.1 (row * 3) (by omega))
  have c1 := columnWidthOf_eq_exact boxes (re.m_cells (row * 3 + 1))
    (hrange.1 (row * 3 + 1) (by omega))
  have c2 := columnWidthOf_eq_exact boxes (re.m_cells (row * 3 + 2))
    (hrange.1 (row * 3 + 2) (by omega))
  have hsum := wrapInt_of_inInt _ (hrange.2 row hrow)
  unfold rowWidthOf
  rw [c0, c1, c2]
  exact hsum

theorem adjustDrawingScalingRow_eq (boxes : Boxes) (width : Int) (i : Nat) (hi : i < 3)
    (st : Bool × RunningElement) :
    adjustDrawingScalingRow boxes width (i : Int) st = .ok (scaleRow boxes width st i) := by
  have c0 := RunningElement.cell_eq st.2 (i * 3) (by omega)
  have c1 := RunningElement.cell_eq st.2 (i * 3 + 1) (by omega)
  have c2 := RunningElement.cell_eq st.2 (i * 3 + 2) (by omega)
  have hsum : ∀ a b d : Int,
      wrapInt (wrapInt (wrapInt a + b) + d) = wrapInt (a + b + d) := by
    intro a b d
    unfold wrapInt
    omega
  push_cast at c0 c1 c2
  have hrow : forLoop (fun j rowWidth =>
      match st.2.cell ((i : Int) * 3 + j) with
      | .error e => .error e
      | .ok textElements =>
        .ok (wrapInt (rowWidth + columnWidthLoop boxes textElements 0))) 3 0 0 =
      .ok (rowWidthOf boxes st.2 i) := by
    simp [forLoop, c0, c1, c2, columnWidthLoop_zero, rowWidthOf, hsum]
  have hidx : (0 : Int) ≤ (i : Int) ∧ (i : Int) < 3 := by omega
  unfold adjustDrawingScalingRow scaleRow
  rw [hrow]
  by_cases hover : rowWidthOf boxes st.2 i ≠ 0 ∧ rowWidthOf boxes st.2 i > width
  · simp [hover, intDiv, RunningElement.setScalingPercent, hidx]
  · simp [hover]

theorem RunningElement.AdjustDrawingScaling_eq (boxes : Boxes) (re : RunningElement)
    (width : Int) :
    RunningElement.AdjustDrawingScaling boxes re width =
      .ok (scaleRow boxes width (scaleRow boxes width (scaleRow boxes width (false, re) 0) 1)
        2) := by
  have r0 := fun st => adjustDrawingScalingRow_eq boxes width 0 (by omega) st
  have r1 := fun st => adjustDrawingScalingRow_eq boxes width 1 (by omega) st
  have r2 := fun st => adjustDrawingScalingRow_eq boxes width 2 (by omega) st
  push_cast at r0 r1 r2
  simp [RunningElement.AdjustDrawingScaling, forLoop, r0, r1, r2]

theorem scaleRow_cells (boxes : Boxes) (width : Int) (st : Bool × RunningElement) (i : Nat) :
    (scaleRow boxes width st i).2.m_cells = st.2.m_cells ∧
      (scaleRow boxes width st i).2.m_isGenerated = st.2.m_isGenerated := by
  unfold scaleRow
  by_cases hover : rowWidthOf boxes st.2 i ≠ 0 ∧ rowWidthOf boxes st.2 i > width
  · simp [hover]
  · simp [hover]

theorem rowWidthOf_congr (boxes : Boxes) (re re' : RunningElement)
    (hc : re'.m_cells = re.m_cells) (i : Nat) : rowWidthOf boxes re' i = rowWidthOf boxes re i := by
  simp [rowWidthOf, hc]

theorem scaleRow_flag (boxes : Boxes) (width : Int) (st : Bool × RunningElement) (i : Nat) :
    ((scaleRow boxes width st i).1 = true ↔
      st.1 = true ∨ (rowWidthOf boxes st.2 i ≠ 0 ∧ rowWidthOf boxes st.2 i > width)) := by
  unfold scaleRow
  by_cases hover : rowWidthOf boxes st.2 i ≠ 0 ∧ rowWidthOf boxes st.2 i > width
  · simp [hover]
  · simp [hover]

theorem scaleRow_percent (boxes : Boxes) (width : Int) (st : Bool × RunningElement) (i j : Nat) :
    (scaleRow boxes width st i).2.m_drawingScalingPercent j =
      if j = i ∧ (rowWidthOf boxes st.2 i ≠ 0 ∧ rowWidthOf boxes st.2 i > width) then
        wrapInt ((wrapInt (width * 100)).tdiv (rowWidthOf boxes st.2 i))
      else st.2.m_drawingScalingPercent j := by
  unfold scaleRow
  by_cases hover : rowWidthOf boxes st.2 i ≠ 0 ∧ rowWidthOf boxes st.2 i > width
  · by_cases hj : j = i
    · simp [hover, hj]
    · simp [hover, hj, Function.update_noteq hj]
  · simp [hover]

/-- The state after `AdjustDrawingScaling`, in terms of the row widths as the
method computes them in `int`: the flag, the scaling percents, and the members
that are left alone. -/
theorem RunningElement.AdjustDrawingScaling_spec (boxes : Boxes) (re : RunningElement)
    (width : Int) :
    ∃ scale re', RunningElement.AdjustDrawingScaling boxes re width = .ok (scale, re') ∧
      re'.m_cells = re.m_cells ∧ re'.m_isGenerated = re.m_isGenerated ∧
      (scale = true ↔ ∃ row, row < 3 ∧ rowWidthOf boxes re row ≠ 0 ∧
        rowWidthOf boxes re row > width) ∧
      (∀ j, re'.m_drawingScalingPercent j =
        if j < 3 ∧ (rowWidthOf boxes re j ≠ 0 ∧ rowWidthOf boxes re j > width) then
          wrapInt ((wrapInt (width * 100)).tdiv (rowWidthOf boxes re j))
        else re.m_drawingScalingPercent j) := by
  refine ⟨(scaleRow boxes width (scaleRow boxes width (scaleRow boxes width (false, re) 0) 1)
      2).1,
    (scaleRow boxes width (scaleRow boxes width (scaleRow boxes width (false, re) 0) 1) 2).2,
    RunningElement.AdjustDrawingScaling_eq boxes re width, ?_, ?_, ?_, ?_⟩
  · rw [(scaleRow_cells _ _ _ _).1, (scaleRow_cells _ _ _ _).1, (scaleRow_cells _ _ _ _).1]
  · rw [(scaleRow_cells _ _ _ _).2, (scaleRow_cells _ _ _ _).2, (scaleRow_cells _ _ _ _).2]
  · have hc1 := (scaleRow_cells boxes width (false, re) 0).1
    have hc2 := (scaleRow_cells boxes width (scaleRow boxes width (false, re) 0) 1).1
    have w1 := rowWidthOf_congr boxes re _ hc1
    have w2 := rowWidthOf_congr boxes _ _ hc2
    rw [scaleRow_flag, scaleRow_flag, scaleRow_flag]
    simp only [w2, w1]
    constructor
    · rintro (((hf | h0) | h1) | h2)
      · simp at hf
      · exact ⟨0, by omega, h0⟩
      · exact ⟨1, by omega, h1⟩
      · exact ⟨2, by omega, h2⟩
    · rintro ⟨row, hrow, hov⟩
      interval_cases row
      · exact Or.inl (Or.inl (Or.inr hov))
      · exact Or.inl (Or.inr hov)
      · exact Or.inr hov
  · intro j
    have hc1 := (scaleRow_cells boxes width (false, re) 0).1
    have hc2 := (scaleRow_cells boxes width (scaleRow boxes width (false, re) 0) 1).1
    have w1 := rowWidthOf_congr boxes re _ hc1
    have w2 := rowWidthOf_congr boxes _ _ hc2
    rw [scaleRow_percent, scaleRow_percent, scaleRow_percent]
    simp only [w2, w1]
    by_cases h2 : j = 2
    · subst h2
      simp
    · by_cases h1 : j = 1
      · subst h1
        simp
      · by_cases h0 : j = 0
        · subst h0
          simp
        · have hj : ¬ j < 3 := by omega
          simp [h0, h1, h2, hj]

theorem runningExample_widthsInRange :
    RunningElement.WidthsInRange boxesExample runningExample := by
  constructor
  · intro k hk
    interval_cases k <;> (unfold InInt; decide)
  · intro row hrow
    interval_cases row <;> (unfold InInt; decide)

/-- Counterexample for C25: the one element of the cell 0 spans from -2000000000
to 2000000000, so the row 0 is 4000000000 wide, which is not zero and more than
the width 10; the difference `X2 - X1` leaves the range of `int`, the method
finds the row width 0 and returns false. -/
theorem RunningElement.AdjustDrawingScaling_false_on_wide_row :
    rowWidthExact boxesFar (runningSingle 80) 0 = 4000000000 ∧
      ∃ re', RunningElement.AdjustDrawingScaling boxesFar (runningSingle 80) 10 =
        .ok (false, re') := by
  obtain ⟨scale, re', h1, _, _, h4, _⟩ :=
    RunningElement.AdjustDrawingScaling_spec boxesFar (runningSingle 80) 10
  have e : scale = false := by
    cases hs : scale with
    | false => rfl
    | true =>
      obtain ⟨row, hrow, hne, _⟩ := h4.1 hs
      interval_cases row <;> exact absurd (by decide) hne
  subst e
  exact ⟨by decide, re', h1⟩

/-- C25, within the range of `int`.  Let no width overflow: the content width
`X2 - X1` of every element with a content bounding box, and the sum over each row,
lie in the range of `int`.  Then for every width `AdjustDrawingScaling(width)`
returns, and it returns true if and only if some row has a non-zero row width
greater than `width`, the width of a row being the sum over its three cells of
the largest content width (`X2 - X1`, and at least 0) among the elements of the
cell that have a content bounding box. -/
theorem RunningElement.AdjustDrawingScaling_true_iff (boxes : Boxes) (re : RunningElement)
    (width : Int) (hrange : RunningElement.WidthsInRange boxes re) :
    ∃ scale re', RunningElement.AdjustDrawingScaling boxes re width = .ok (scale, re') ∧
      (scale = true ↔ ∃ row, row < 3 ∧ rowWidthExact boxes re row ≠ 0 ∧
        rowWidthExact boxes re row > width) ∧
      ∀ row, rowWidthExact boxes re row =
        columnWidthExact boxes (re.m_cells (row * 3)) +
          columnWidthExact boxes (re.m_cells (row * 3 + 1)) +
          columnWidthExact boxes (re.m_cells (row * 3 + 2)) := by
  obtain ⟨scale, re', h1, _, _, h4, _⟩ := RunningElement.AdjustDrawingScaling_spec boxes re width
  refine ⟨scale, re', h1, ?_, fun _ => rfl⟩
  rw [h4]
  constructor
  · rintro ⟨row, hrow, h⟩
    rw [rowWidthOf_eq_exact boxes re hrange row hrow] at h
    exact ⟨row, hrow, h⟩
  · rintro ⟨row, hrow, h⟩
    rw [← rowWidthOf_eq_exact boxes re hrange row hrow] at h
    exact ⟨row, hrow, h⟩

/-- Witness for C25: the rows of `runningExample` are 205, 50 and 320 wide; with
the width 160 the call returns true, with the width 320 it returns false. -/
theorem RunningElement.AdjustDrawingScaling_true_iff_witness :
    (∃ re', RunningElement.AdjustDrawingScaling boxesExample runningExample 160 =
        .ok (true, re')) ∧
      (∃ re', RunningElement.AdjustDrawingScaling boxesExample runningExample 320 =
        .ok (false, re')) := by
  obtain ⟨s1, r1, h1, h2, _⟩ :=
    RunningElement.AdjustDrawingScaling_true_iff boxesExample runningExample 160
      runningExample_widthsInRange
  obtain ⟨s2, r2, h3, h4, _⟩ :=
    RunningElement.AdjustDrawingScaling_true_iff boxesExample runningExample 320
      runningExample_widthsInRange
  have e1 : s1 = true := h2.2 ⟨0, by decide, by decide, by decide⟩
  have e2 : s2 = false := by
    cases hs : s2 with
    | false => rfl
    | true =>
      obtain ⟨row, hrow, _, hgt⟩ := h4.1 hs
      interval_cases row <;> exact absurd hgt (by decide)
  subst e1 e2
  exact ⟨⟨r1, h1⟩, ⟨r2, h3⟩⟩

/-- Counterexample for C26: the row 0 is 2000000000 wide, more than the width
1500000000, and `width * 100 / rowWidth` is 75; the product `width * 100` leaves
the range of `int` and the method stores the scaling percent 0. -/
theorem RunningElement.AdjustDrawingScaling_percent_overflow :
    rowWidthExact boxesFar (runningSingle 81) 0 = 2000000000 ∧
      (1500000000 * 100 : Int) / 2000000000 = 75 ∧
      ∃ scale re', RunningElement.AdjustDrawingScaling boxesFar (runningSingle 81) 1500000000 =
        .ok (scale, re') ∧ re'.m_drawingScalingPercent 0 = 0 := by
  obtain ⟨scale, re', h1, _, _, _, h5⟩ :=
    RunningElement.AdjustDrawingScaling_spec boxesFar (runningSingle 81) 1500000000
  exact ⟨by decide, by decide, scale, re', h1, (h5 0).trans (by decide)⟩

/-- C26, within the range of `int`.  Let no width overflow and let `width * 100`
lie in the range of `int`.  For every such width `>= 0` and every row whose row
width exceeds `width`, `AdjustDrawingScaling` returns (the divisor is not zero)
and sets the scaling percent of that row to `p = width * 100 / rowWidth`, the
integer division, with `0 <= p < 100` and `rowWidth * p <= width * 100`. -/
theorem RunningElement.AdjustDrawingScaling_percent (boxes : Boxes) (re : RunningElement)
    (width : Int) (row : Nat) (hrange : RunningElement.WidthsInRange boxes re)
    (hwidth : 0 ≤ width) (hmul : width * 100 ≤ 2147483647) (hrow : row < 3)
    (hover : rowWidthExact boxes re row > width) :
    ∃ scale re', RunningElement.AdjustDrawingScaling boxes re width = .ok (scale, re') ∧
      rowWidthExact boxes re row ≠ 0 ∧
      re'.m_drawingScalingPercent row = (width * 100).tdiv (rowWidthExact boxes re row) ∧
      re'.m_drawingScalingPercent row = width * 100 / rowWidthExact boxes re row ∧
      0 ≤ re'.m_drawingScalingPercent row ∧ re'.m_drawingScalingPercent row < 100 ∧
      rowWidthExact boxes re row * re'.m_drawingScalingPercent row ≤ width * 100 := by
  obtain ⟨scale, re', h1, _, _, _, h5⟩ := RunningElement.AdjustDrawingScaling_spec boxes re width
  have hw := rowWidthOf_eq_exact boxes re hrange row hrow
  have hpos : 0 < rowWidthExact boxes re row := by omega
  have hne : rowWidthExact boxes re row ≠ 0 := by omega
  have hdiv : (width * 100).tdiv (rowWidthExact boxes re row) =
      width * 100 / rowWidthExact boxes re row :=
    Int.tdiv_eq_ediv (by omega) (by omega)
  have hq0 : 0 ≤ width * 100 / rowWidthExact boxes re row :=
    Int.ediv_nonneg (by omega) (by omega)
  have hq1 : width * 100 / rowWidthExact boxes re row < 100 :=
    Int.ediv_lt_of_lt_mul hpos (by omega)
  have hp : re'.m_drawingScalingPercent row = (width * 100).tdiv (rowWidthExact boxes re row) := by
    rw [h5 row, hw]
    simp only [hrow, hne, hover, ne_eq, not_false_eq_true, and_self, if_true]
    rw [wrapInt_of_inInt (width * 100) ⟨by omega, hmul⟩, hdiv]
    exact wrapInt_of_inInt _ ⟨by omega, by omega⟩
  refine ⟨scale, re', h1, hne, hp, hp.trans hdiv, ?_, ?_, ?_⟩
  · rw [hp, hdiv]
    exact hq0
  · rw [hp, hdiv]
    exact hq1
  · rw [hp, hdiv]
    exact Int.mul_ediv_self_le hne

/-- Witness for C26: with the width 160 the top row of `runningExample`, 205
wide, gets the scaling percent 16000 / 205 = 78. -/
theorem RunningElement.AdjustDrawingScaling_percent_witness :
    rowWidthExact boxesExample runningExample 0 = 205 ∧
      ∃ scale re', RunningElement.AdjustDrawingScaling boxesExample runningExample 160 =
        .ok (scale, re') ∧ re'.m_drawingScalingPercent 0 = 78 := by
  obtain ⟨scale, re', h1, _, h3, _⟩ :=
    RunningElement.AdjustDrawingScaling_percent boxesExample runningExample 160 0
      runningExample_widthsInRange (by decide) (by decide) (by decide) (by decide)
  exact ⟨by decide, scale, re', h1, h3.trans (by decide)⟩

/-- Counterexample for C27: the one element of the cell 0 is turned around, from
2000000000 to -2000000000, so the row 0 is 0 wide and its scaling percent 100
should stay; the difference `X2 - X1` leaves the range of `int` and comes out as
294967296, more than the width 10, and the method returns true and stores the
scaling percent 0. -/
theorem RunningElement.AdjustDrawingScaling_changes_empty_row :
    rowWidthExact boxesFar (runningSingle 82) 0 = 0 ∧
      (runningSingle 82).m_drawingScalingPercent 0 = 100 ∧
      ∃ re', RunningElement.AdjustDrawingScaling boxesFar (runningSingle 82) 10 =
        .ok (true, re') ∧ re'.m_drawingScalingPercent 0 = 0 := by
  obtain ⟨scale, re', h1, _, _, h4, h5⟩ :=
    RunningElement.AdjustDrawingScaling_spec boxesFar (runningSingle 82) 10
  have e : scale = true := h4.2 ⟨0, by decide, by decide, by decide⟩
  subst e
  exact ⟨by decide, rfl, re', h1, (h5 0).trans (by decide)⟩

/-- C27, within the range of `int`.  Let no width overflow.  Then
`AdjustDrawingScaling(width)` changes only the scaling percent of the rows that
overflow: for every row whose row width is zero or at most `width` the stored
scaling percent keeps the value it had before the call, whatever that value was,
and the cells are unchanged. -/
theorem RunningElement.AdjustDrawingScaling_frame (boxes : Boxes) (re : RunningElement)
    (width : Int) (hrange : RunningElement.WidthsInRange boxes re) :
    ∃ scale re', RunningElement.AdjustDrawingScaling boxes re width = .ok (scale, re') ∧
      re'.m_cells = re.m_cells ∧ re'.m_isGenerated = re.m_isGenerated ∧
      ∀ row, row < 3 → (rowWidthExact boxes re row = 0 ∨ rowWidthExact boxes re row ≤ width) →
        re'.m_drawingScalingPercent row = re.m_drawingScalingPercent row := by
  obtain ⟨scale, re', h1, h2, h3, _, h5⟩ :=
    RunningElement.AdjustDrawingScaling_spec boxes re width
  refine ⟨scale, re', h1, h2, h3, ?_⟩
  intro row hrow3 hrow
  rw [h5 row, rowWidthOf_eq_exact boxes re hrange row hrow3]
  have hno : ¬ (rowWidthExact boxes re row ≠ 0 ∧ rowWidthExact boxes re row > width) := by
    rintro ⟨hne, hgt⟩
    rcases hrow with e | e
    · exact hne e
    · omega
  simp [hno]

/-- Witness for C27: the middle row of `runningExample` is 50 wide and has the
scaling percent 80; after `AdjustDrawingScaling(160)` it still has 80, not 100,
and the cell 6 still holds 73, 77, 74. -/
theorem RunningElement.AdjustDrawingScaling_frame_witness :
    ∃ scale re', RunningElement.AdjustDrawingScaling boxesExample runningExample 160 =
        .ok (scale, re') ∧ re'.m_drawingScalingPercent 1 = 80 ∧ re'.m_cells 6 = [73, 77, 74] := by
  obtain ⟨scale, re', h1, h2, _, h4⟩ :=
    RunningElement.AdjustDrawingScaling_frame boxesExample runningExample 160
      runningExample_widthsInRange
  exact ⟨scale, re', h1, (h4 1 (by decide) (Or.inr (by decide))).trans rfl, by rw [h2]; rfl⟩

/-! ## Running element: vertical positions -/

theorem forLoop_eq_foldl {α : Type} (body : Int → α → Except Fault α) (f : Nat → α → α) :
    ∀ (count n : Nat) (a : α),
      (∀ k, n ≤ k → k < n + count → ∀ b, body (k : Int) b = .ok (f k b)) →
      forLoop body count (n : Int) a =
        .ok ((List.range' n count).foldl (fun b k => f k b) a) := by
  intro count
  induction count with
  | zero => intro n a _; simp [forLoop]
  | succ c ih =>
    intro n a hbody
    have h0 := hbody n (Nat.le_refl n) (by omega) a
    have hrest := ih (n + 1) (f n a) (fun k hk1 hk2 b => hbody k (by omega) (by omega) b)
    push_cast at hrest
    simp only [forLoop, h0, hrest, List.range'_succ, List.foldl_cons]

theorem adjustCellLoop_other (boxes : Boxes) (x : ObjId) :
    ∀ (l : List ObjId) (cum : Int) (y : DrawingYRels),
      (x ∉ l ∨ (boxes x).HasContentBB = false) → adjustCellLoop boxes l cum y x = y x := by
  intro l
  induction l with
  | nil => intro cum y _; rfl
  | cons a as ih =>
    intro cum y hx
    have hx2 : x ∉ as ∨ (boxes x).HasContentBB = false := by
      rcases hx with h1 | h1
      · exact Or.inl (fun hm => h1 (List.mem_cons_of_mem a hm))
      · exact Or.inr h1
    by_cases ha : (boxes a).HasContentBB = true
    · have hne : x ≠ a := by
        rintro rfl
        rcases hx with h1 | h1
        · exact h1 (List.mem_cons_self _ _)
        · rw [ha] at h1; exact Bool.noConfusion h1
      simp only [adjustCellLoop, ha, Bool.not_true, Bool.false_eq_true, if_false]
      rw [ih _ _ hx2, Function.update_noteq hne]
    · have ha2 : (boxes a).HasContentBB = false := by simpa using ha
      simp only [adjustCellLoop, ha2, Bool.not_false, if_true]
      exact ih _ _ hx2

theorem adjustCellLoop_at (boxes : Boxes) (x : ObjId) (post : List ObjId)
    (hbb : (boxes x).HasContentBB = true) (hpost : x ∉ post) :
    ∀ (pre : List ObjId) (cum : Int) (y : DrawingYRels),
      adjustCellLoop boxes (pre ++ x :: post) cum y x =
        wrapInt (cum - cellHeightOf boxes pre - (boxes x).ContentY2) := by
  intro pre
  induction pre with
  | nil =>
    intro cum y
    simp only [List.nil_append, adjustCellLoop, hbb, Bool.not_true, Bool.false_eq_true, if_false]
    rw [adjustCellLoop_other boxes x post _ _ (Or.inl hpost), Function.update_same]
    simp [cellHeightOf]
  | cons a as ih =>
    intro cum y
    rw [cellHeightOf_cons]
    by_cases ha : (boxes a).HasContentBB = true
    · simp only [List.cons_append, adjustCellLoop, ha, Bool.not_true, Bool.false_eq_true,
        if_false, if_true, List.append_eq]
      rw [ih]
      unfold wrapInt
      omega
    · have ha2 : (boxes a).HasContentBB = false := by simpa using ha
      simp only [List.cons_append, adjustCellLoop, ha2, Bool.not_false, if_true,
        Bool.false_eq_true, if_false, List.append_eq]
      rw [ih]
      simp

theorem shiftCellLoop_other (boxes : Boxes) (r c : Int) (x : ObjId) :
    ∀ (l : List ObjId) (y : DrawingYRels),
      (x ∉ l ∨ (boxes x).HasContentBB = false) → shiftCellLoop boxes r c l y x = y x := by
  intro l
  induction l with
  | nil => intro y _; rfl
  | cons a as ih =>
    intro y hx
    have hx2 : x ∉ as ∨ (boxes x).HasContentBB = false := by
      rcases hx with h1 | h1
      · exact Or.inl (fun hm => h1 (List.mem_cons_of_mem a hm))
      · exact Or.inr h1
    by_cases ha : (boxes a).HasContentBB = true
    · have hne : x ≠ a := by
        rintro rfl
        rcases hx with h1 | h1
        · exact h1 (List.mem_cons_self _ _)
        · rw [ha] at h1; exact Bool.noConfusion h1
      simp only [shiftCellLoop, ha, Bool.not_true, Bool.false_eq_true, if_false]
      rw [ih _ hx2, Function.update_noteq hne]
    · have ha2 : (boxes a).HasContentBB = false := by simpa using ha
      simp only [shiftCellLoop, ha2, Bool.not_false, if_true]
      exact ih _ hx2

theorem shiftCellLoop_at (boxes : Boxes) (r c : Int) (x : ObjId) (post : List ObjId)
    (hbb : (boxes x).HasContentBB = true) (hpost : x ∉ post) :
    ∀ (pre : List ObjId) (y : DrawingYRels), x ∉ pre →
      shiftCellLoop boxes r c (pre ++ x :: post) y x = wrapInt (wrapInt (y x + r) - c) := by
  intro pre
  induction pre with
  | nil =>
    intro y _
    simp only [List.nil_append, shiftCellLoop, hbb, Bool.not_true, Bool.false_eq_true, if_false]
    rw [shiftCellLoop_other boxes r c x post _ (Or.inl hpost), Function.update_same]
  | cons a as ih =>
    intro y hpre
    have hne : x ≠ a := fun e => hpre (e ▸ List.mem_cons_self _ _)
    have hpre2 : x ∉ as := fun hm => hpre (List.mem_cons_of_mem a hm)
    by_cases ha : (boxes a).HasContentBB = true
    · simp only [List.cons_append, shiftCellLoop, ha, Bool.not_true, Bool.false_eq_true,
        if_false, List.append_eq]
      rw [ih _ hpre2, Function.update_noteq hne]
    · have ha2 : (boxes a).HasContentBB = false := by simpa using ha
      simp only [List.cons_append, shiftCellLoop, ha2, Bool.not_false, if_true, List.append_eq]
      exact ih _ hpre2

theorem foldl_cells_untouched (T : Nat → DrawingYRels → DrawingYRels) (x : ObjId) :
    ∀ (ks : List Nat), (∀ k, k ∈ ks → ∀ y, T k y x = y x) →
      ∀ y, (ks.foldl (fun y1 k => T k y1) y) x = y x := by
  intro ks
  induction ks with
  | nil => intro _ y; rfl
  | cons k ks ih =>
    intro hT y
    rw [List.foldl_cons, ih (fun k2 hk2 => hT k2 (List.mem_cons_of_mem k hk2)),
      hT k (List.mem_cons_self _ _)]

theorem foldl_cells_at (T : Nat → DrawingYRels → DrawingYRels) (x : ObjId) (g : Int → Int)
    (k0 : Nat) (hk0 : ∀ y, T k0 y x = g (y x)) :
    ∀ (ks : List Nat), ks.Nodup → k0 ∈ ks →
      (∀ k, k ∈ ks → k ≠ k0 → ∀ y, T k y x = y x) →
      ∀ y, (ks.foldl (fun y1 k => T k y1) y) x = g (y x) := by
  intro ks
  induction ks with
  | nil => intro _ hmem; exact absurd hmem (List.not_mem_nil _)
  | cons k ks ih =>
    intro hnd hmem hT y
    rw [List.foldl_cons]
    have hnd2 := List.nodup_cons.mp hnd
    by_cases hk : k = k0
    · subst hk
      rw [foldl_cells_untouched T x ks (fun k2 hk2 => hT k2 (List.mem_cons_of_mem k hk2)
        (fun e => hnd2.1 (e ▸ hk2))), hk0]
    · have hmem2 : k0 ∈ ks := by
        rcases List.mem_cons.mp hmem with e | e
        · exact absurd e.symm hk
        · exact e
      rw [ih hnd2.2 hmem2 (fun k2 hk2 => hT k2 (List.mem_cons_of_mem k hk2)),
        hT k (List.mem_cons_self _ _) hk]

theorem adjustYPosCell_eq (boxes : Boxes) (re : RunningElement) (i j : Nat) (hi : i < 3)
    (hj : j < 3) (r : Int) (y : DrawingYRels) :
    adjustYPosCell boxes re (i : Int) r (rowHeightOf boxes re i) (j : Int) y =
      .ok (shiftCellLoop boxes r (colYShiftOf boxes re (i * 3 + j)) (re.m_cells (i * 3 + j))
        y) := by
  have hc := RunningElement.cell_eq re (i * 3 + j) (by omega)
  have hh := RunningElement.GetCellHeight_eq boxes re (i * 3 + j) (by omega)
  have hdiv : (i * 3 + j) / 3 = i := by omega
  push_cast at hc hh
  unfold adjustYPosCell colYShiftOf
  simp only [hc, hh, hdiv]
  interval_cases i <;> simp [intDiv]

theorem adjustYPosRow_eq (boxes : Boxes) (re : RunningElement) (i : Nat) (hi : i < 3)
    (r : Int) (y : DrawingYRels) :
    adjustYPosRow boxes re (i : Int) (r, y) =
      .ok (wrapInt (r - rowHeightOf boxes re i),
        shiftCellLoop boxes r (colYShiftOf boxes re (i * 3 + 2)) (re.m_cells (i * 3 + 2))
          (shiftCellLoop boxes r (colYShiftOf boxes re (i * 3 + 1)) (re.m_cells (i * 3 + 1))
            (shiftCellLoop boxes r (colYShiftOf boxes re (i * 3)) (re.m_cells (i * 3)) y))) := by
  have c0 := fun y => adjustYPosCell_eq boxes re i 0 hi (by omega) r y
  have c1 := fun y => adjustYPosCell_eq boxes re i 1 hi (by omega) r y
  have c2 := fun y => adjustYPosCell_eq boxes re i 2 hi (by omega) r y
  push_cast at c0 c1 c2
  simp only [Nat.add_zero] at c0
  simp [adjustYPosRow, RunningElement.GetRowHeight_eq boxes re i hi, forLoop, c0, c1, c2]

theorem RunningElement.AdjustRunningElementYPos_eq (boxes : Boxes) (re : RunningElement)
    (y : DrawingYRels) :
    RunningElement.AdjustRunningElementYPos boxes re y =
      .ok (true, shiftCells boxes re (List.range 9) (stackCells boxes re (List.range 9) y)) := by
  have hfirst := forLoop_eq_foldl
    (fun i y1 =>
      match re.cell i with
      | .error e => .error e
      | .ok textElements => .ok (adjustCellLoop boxes textElements 0 y1))
    (fun k y1 => adjustCellLoop boxes (re.m_cells k) 0 y1) 9 0 y
    (fun k _ hk b => by simp [RunningElement.cell_eq re k (by omega)])
  have r0 := fun r y => adjustYPosRow_eq boxes re 0 (by omega) r y
  have r1 := fun r y => adjustYPosRow_eq boxes re 1 (by omega) r y
  have r2 := fun r y => adjustYPosRow_eq boxes re 2 (by omega) r y
  push_cast at hfirst r0 r1 r2
  unfold RunningElement.AdjustRunningElementYPos
  rw [hfirst]
  simp [forLoop, r0, r1, r2, shiftCells, stackCells, List.range, List.range.loop, List.range',
    rowYRelOf]

theorem cellHeightOf_append (boxes : Boxes) (l1 l2 : List ObjId) :
    cellHeightOf boxes (l1 ++ l2) = cellHeightOf boxes l1 + cellHeightOf boxes l2 := by
  simp [cellHeightOf]

theorem cellHeightOf_no_box (boxes : Boxes) (l : List ObjId)
    (hl : ∀ z, z ∈ l → (boxes z).HasContentBB = false) : cellHeightOf boxes l = 0 := by
  have hf : l.filter (fun x => (boxes x).HasContentBB) = [] := by
    rw [List.filter_eq_nil_iff]
    intro z hz
    simp [hl z hz]
  simp [cellHeightOf, hf]

theorem rowHeightOf_nonneg (boxes : Boxes) (re : RunningElement) (row : Nat) :
    0 ≤ rowHeightOf boxes re row := by
  simp only [rowHeightOf]
  omega

/-- The call of `AdjustRunningElementYPos` returns true for every running element.
An element without a content bounding box, and an element that stands in no
cell, keeps its position.  When no element stands twice in the cells, the
element `x` of the cell `k` that has a content bounding box ends at the `int`
value of: minus the heights of the boxes before it in the cell, minus its own
`ContentY2`, plus the row offset, minus the column shift of the cell. -/
theorem RunningElement.AdjustRunningElementYPos_spec (boxes : Boxes) (re : RunningElement)
    (y : DrawingYRels) :
    ∃ y', RunningElement.AdjustRunningElementYPos boxes re y = .ok (true, y') ∧
      (∀ z, (boxes z).HasContentBB = false → y' z = y z) ∧
      (∀ z, (∀ k, k < 9 → z ∉ re.m_cells k) → y' z = y z) ∧
      (re.CellsDistinct → ∀ (k : Nat) (pre : List ObjId) (x : ObjId) (post : List ObjId),
        k < 9 → re.m_cells k = pre ++ x :: post → (boxes x).HasContentBB = true →
        y' x = wrapInt (0 - cellHeightOf boxes pre - (boxes x).ContentY2 +
          rowYRelOf boxes re k - colYShiftOf boxes re k)) := by
  refine ⟨_, RunningElement.AdjustRunningElementYPos_eq boxes re y, ?_, ?_, ?_⟩
  · intro z hz
    unfold shiftCells stackCells
    rw [foldl_cells_untouched
        (fun k y1 => shiftCellLoop boxes (rowYRelOf boxes re k) (colYShiftOf boxes re k)
          (re.m_cells k) y1) z (List.range 9)
        (fun k _ y1 => shiftCellLoop_other boxes _ _ z _ y1 (Or.inr hz)),
      foldl_cells_untouched (fun k y1 => adjustCellLoop boxes (re.m_cells k) 0 y1) z
        (List.range 9) (fun k _ y1 => adjustCellLoop_other boxes z _ 0 y1 (Or.inr hz))]
  · intro z hz
    unfold shiftCells stackCells
    rw [foldl_cells_untouched
        (fun k y1 => shiftCellLoop boxes (rowYRelOf boxes re k) (colYShiftOf boxes re k)
          (re.m_cells k) y1) z (List.range 9)
        (fun k hk y1 => shiftCellLoop_other boxes _ _ z _ y1
          (Or.inl (hz k (List.mem_range.mp hk)))),
      foldl_cells_untouched (fun k y1 => adjustCellLoop boxes (re.m_cells k) 0 y1) z
        (List.range 9)
        (fun k hk y1 => adjustCellLoop_other boxes z _ 0 y1
          (Or.inl (hz k (List.mem_range.mp hk))))]
  · intro hd k pre x post hk hcell hbb
    have hnd : (pre ++ x :: post).Nodup := hcell ▸ hd.1 k hk
    have hparts := List.nodup_append.mp hnd
    have hpost : x ∉ post := (List.nodup_cons.mp hparts.2.1).1
    have hpre : x ∉ pre := fun hm => hparts.2.2 hm (List.mem_cons_self _ _)
    have hmem : x ∈ re.m_cells k := by rw [hcell]; simp
    have hother : ∀ k2, k2 ∈ List.range 9 → k2 ≠ k → x ∉ re.m_cells k2 :=
      fun k2 hk2 hne => hd.2 k hk k2 (List.mem_range.mp hk2) (fun e => hne e.symm) x hmem
    unfold shiftCells stackCells
    rw [foldl_cells_at
        (fun k y1 => shiftCellLoop boxes (rowYRelOf boxes re k) (colYShiftOf boxes re k)
          (re.m_cells k) y1) x
        (fun v => wrapInt (wrapInt (v + rowYRelOf boxes re k) - colYShiftOf boxes re k)) k
        (fun y1 => by
          show shiftCellLoop boxes _ _ (re.m_cells k) y1 x = _
          rw [hcell]
          exact shiftCellLoop_at boxes _ _ x post hbb hpost pre y1 hpre)
        (List.range 9) (List.nodup_range 9) (List.mem_range.mpr hk)
        (fun k2 hk2 hne y1 => shiftCellLoop_other boxes _ _ x _ y1 (Or.inl (hother k2 hk2 hne))),
      foldl_cells_at (fun k y1 => adjustCellLoop boxes (re.m_cells k) 0 y1) x
        (fun _ => wrapInt (0 - cellHeightOf boxes pre - (boxes x).ContentY2)) k
        (fun y1 => by
          show adjustCellLoop boxes (re.m_cells k) 0 y1 x = _
          rw [hcell]
          exact adjustCellLoop_at boxes x post hbb hpost pre 0 y1)
        (List.range 9) (List.nodup_range 9) (List.mem_range.mpr hk)
        (fun k2 hk2 hne y1 => adjustCellLoop_other boxes x _ 0 y1 (Or.inl (hother k2 hk2 hne)))]
    unfold wrapInt
    omega

theorem runningExample_cellsDistinct : runningExample.CellsDistinct := by
  constructor
  · intro k hk
    interval_cases k <;> decide
  · intro k1 h1 k2 h2 hne
    interval_cases k1 <;> interval_cases k2 <;> first | exact absurd rfl hne | decide

/-- Counterexample for C22: the rows 0 and 1 are each 1500000000 high and the row
2 is flat, so minus the sum of the three row heights is -3000000000; the offset
of the bottom row leaves the range of `int` and the flat box 89 of the cell 6
ends with its lower edge at 1294967296. -/
theorem RunningElement.AdjustRunningElementYPos_bottom_overflow :
    RunningElement.GetRowHeight boxesFar runningDeep 0 = .ok 1500000000 ∧
      RunningElement.GetRowHeight boxesFar runningDeep 1 = .ok 1500000000 ∧
      RunningElement.GetRowHeight boxesFar runningDeep 2 = .ok 0 ∧
      ∃ y', RunningElement.AdjustRunningElementYPos boxesFar runningDeep drawingYRelsExample =
          .ok (true, y') ∧
        y' 89 + (boxesFar 89).ContentY1 = 1294967296 := by
  refine ⟨?_, ?_, ?_, _,
    RunningElement.AdjustRunningElementYPos_eq boxesFar runningDeep drawingYRelsExample, ?_⟩
  · exact (RunningElement.GetRowHeight_eq boxesFar runningDeep 0 (by decide)).trans
      (congrArg Except.ok (by decide))
  · exact (RunningElement.GetRowHeight_eq boxesFar runningDeep 1 (by decide)).trans
      (congrArg Except.ok (by decide))
  · exact (RunningElement.GetRowHeight_eq boxesFar runningDeep 2 (by decide)).trans
      (congrArg Except.ok (by decide))
  · decide

/-- C22, in `int`.  Let no text element stand twice in the cells, and take the
content boxes as fixed values.  After `AdjustRunningElementYPos`, in every cell
`k` of the bottom row (6, 7, 8), the lower edge `DrawingYRel + ContentY1` of the
last element `e` with a content bounding box agrees modulo 2^32 with
`-(GetRowHeight(0) + GetRowHeight(1) + GetRowHeight(2))` and with
`-GetContentHeight()`, whatever the height of the cell; when the sum of the three
row heights and the lower edge lie in the range of `int`, the three are equal. -/
theorem RunningElement.AdjustRunningElementYPos_bottom_aligned (boxes : Boxes)
    (re : RunningElement) (y : DrawingYRels) (k : Nat) (pre : List ObjId) (e : ObjId)
    (post : List ObjId) (hdistinct : re.CellsDistinct) (hbottom : k = 6 ∨ k = 7 ∨ k = 8)
    (hcell : re.m_cells k = pre ++ e :: post) (hbb : (boxes e).HasContentBB = true)
    (hlast : ∀ z, z ∈ post → (boxes z).HasContentBB = false) :
    ∃ y' r0 r1 r2 contentHeight,
      RunningElement.AdjustRunningElementYPos boxes re y = .ok (true, y') ∧
      RunningElement.GetRowHeight boxes re 0 = .ok r0 ∧
      RunningElement.GetRowHeight boxes re 1 = .ok r1 ∧
      RunningElement.GetRowHeight boxes re 2 = .ok r2 ∧
      RunningElement.GetContentHeight boxes re = .ok contentHeight ∧
      wrapInt (y' e + (boxes e).ContentY1) = wrapInt (-(r0 + r1 + r2)) ∧
      wrapInt (y' e + (boxes e).ContentY1) = wrapInt (-contentHeight) ∧
      (InInt (r0 + r1 + r2) → InInt (y' e + (boxes e).ContentY1) →
        y' e + (boxes e).ContentY1 = -(r0 + r1 + r2) ∧
          y' e + (boxes e).ContentY1 = -contentHeight) ∧
      r0 = rowHeightOf boxes re 0 ∧ r1 = rowHeightOf boxes re 1 ∧
      r2 = rowHeightOf boxes re 2 := by
  obtain ⟨y', h1, _, _, h4⟩ := RunningElement.AdjustRunningElementYPos_spec boxes re y
  have hk : k < 9 := by omega
  have hy := h4 hdistinct k pre e post hk hcell hbb
  have hdiv : k / 3 = 2 := by omega
  have hheight : cellHeightOf boxes (re.m_cells k) =
      cellHeightOf boxes pre + ((boxes e).ContentY2 - (boxes e).ContentY1) := by
    rw [hcell, cellHeightOf_append, cellHeightOf_cons, cellHeightOf_no_box boxes post hlast]
    simp [hbb]
  have g0 := RunningElement.GetRowHeight_eq boxes re 0 (by omega)
  have g1 := RunningElement.GetRowHeight_eq boxes re 1 (by omega)
  have g2 := RunningElement.GetRowHeight_eq boxes re 2 (by omega)
  push_cast at g0 g1 g2
  have n0 := rowHeightOf_nonneg boxes re 0
  have n1 := rowHeightOf_nonneg boxes re 1
  have n2 := rowHeightOf_nonneg boxes re 2
  have hedge : wrapInt (y' e + (boxes e).ContentY1) =
      wrapInt (-(rowHeightOf boxes re 0 + rowHeightOf boxes re 1 + rowHeightOf boxes re 2)) := by
    rw [hy]
    simp only [rowYRelOf, colYShiftOf, hdiv, cellHeightInt, hheight]
    simp only [Nat.reduceEqDiff, if_false, if_true]
    unfold wrapInt
    omega
  have hcontent : wrapInt (-(rowHeightOf boxes re 0 + rowHeightOf boxes re 1 +
      rowHeightOf boxes re 2)) = wrapInt (-contentHeightOf boxes re) := by
    unfold contentHeightOf rowHeightSum wrapInt
    omega
  refine ⟨y', _, _, _, _, h1, g0, g1, g2, RunningElement.GetContentHeight_eq boxes re, hedge,
    hedge.trans hcontent, ?_, rfl, rfl, rfl⟩
  intro hsum hlow
  have hneg : InInt (-(rowHeightOf boxes re 0 + rowHeightOf boxes re 1 +
      rowHeightOf boxes re 2)) := by
    unfold InInt at hsum ⊢
    omega
  have e1 := eq_of_wrapInt_eq hedge hlow hneg
  have e2 : contentHeightOf boxes re =
      rowHeightOf boxes re 0 + rowHeightOf boxes re 1 + rowHeightOf boxes re 2 :=
    wrapInt_of_inInt _ hsum
  exact ⟨e1, by rw [e2]; exact e1⟩

/-- Witness for C22: in `runningExample` the cell 6 holds 73, 77 and 74, with the
height 12 in a row of height 40; the row heights are 30, 30 and 40.  The last
box 74, whose `ContentY1` is 3, ends with its lower edge at -100. -/
theorem RunningElement.AdjustRunningElementYPos_bottom_aligned_witness :
    ∃ y', RunningElement.AdjustRunningElementYPos boxesExample runningExample
        drawingYRelsExample = .ok (true, y') ∧
      RunningElement.GetContentHeight boxesExample runningExample = .ok 100 ∧
      y' 74 + 3 = -100 := by
  obtain ⟨y', r0, r1, r2, ch, h1, _, _, _, h5, _, _, h8, e0, e1, e2⟩ :=
    RunningElement.AdjustRunningElementYPos_bottom_aligned boxesExample runningExample
      drawingYRelsExample 6 [73, 77] 74 [] runningExample_cellsDistinct (Or.inl rfl) rfl rfl
      (fun z hz => absurd hz (List.not_mem_nil z))
  have hsum : r0 + r1 + r2 = 100 := by rw [e0, e1, e2]; decide
  have hy : y' = shiftCells boxesExample runningExample (List.range 9)
      (stackCells boxesExample runningExample (List.range 9) drawingYRelsExample) :=
    (congrArg Prod.snd (Except.ok.inj
      ((RunningElement.AdjustRunningElementYPos_eq boxesExample runningExample
        drawingYRelsExample).symm.trans h1))).symm
  have hy74 : y' 74 = -103 := by rw [hy]; decide
  have hch : ch = 100 :=
    (Except.ok.inj (h5.symm.trans
      (RunningElement.GetContentHeight_eq boxesExample runningExample))).trans (by decide)
  have hlow : y' 74 + (boxesExample 74).ContentY1 = -(r0 + r1 + r2) :=
    (h8 (by rw [hsum]; unfold InInt; decide) (by rw [hy74]; unfold InInt; decide)).1
  subst hch
  refine ⟨y', h1, h5, ?_⟩
  rw [hsum] at hlow
  exact hlow

/-- Counterexample for C28: the cell 0 holds the box 85, from -2000000000 to
2000000000, and then the box 86, from 0 to 10; the height of 85 leaves the range
of `int`, and the upper edge of 86 ends at 294967296 while the lower edge of 85
is at -4000000000. -/
theorem RunningElement.AdjustRunningElementYPos_stack_overflow :
    ∃ y', RunningElement.AdjustRunningElementYPos boxesFar runningStack drawingYRelsExample =
        .ok (true, y') ∧
      y' 86 + (boxesFar 86).ContentY2 = 294967296 ∧
      y' 85 + (boxesFar 85).ContentY1 = -4000000000 :=
  ⟨_, RunningElement.AdjustRunningElementYPos_eq boxesFar runningStack drawingYRelsExample,
    by decide, by decide⟩

/-- C28, in `int`.  Let no text element stand twice in the cells, and take the
content boxes as fixed values.  After `AdjustRunningElementYPos`, for two
elements `a` then `b` of one cell that have a content bounding box, with none
that has one between them, `DrawingYRel(b) + ContentY2(b)` and
`DrawingYRel(a) + ContentY1(a)` agree modulo 2^32, and they are equal when both
lie in the range of `int`; and every element without a content bounding box
keeps its `DrawingYRel`. -/
theorem RunningElement.AdjustRunningElementYPos_stacked (boxes : Boxes)
    (re : RunningElement) (y : DrawingYRels) (k : Nat) (pre : List ObjId) (a : ObjId)
    (mid : List ObjId) (b : ObjId) (post : List ObjId) (hdistinct : re.CellsDistinct)
    (hk : k < 9) (hcell : re.m_cells k = pre ++ a :: (mid ++ b :: post))
    (ha : (boxes a).HasContentBB = true) (hb : (boxes b).HasContentBB = true)
    (hmid : ∀ z, z ∈ mid → (boxes z).HasContentBB = false) :
    ∃ y', RunningElement.AdjustRunningElementYPos boxes re y = .ok (true, y') ∧
      wrapInt (y' b + (boxes b).ContentY2) = wrapInt (y' a + (boxes a).ContentY1) ∧
      (InInt (y' b + (boxes b).ContentY2) → InInt (y' a + (boxes a).ContentY1) →
        y' b + (boxes b).ContentY2 = y' a + (boxes a).ContentY1) ∧
      ∀ z, (boxes z).HasContentBB = false → y' z = y z := by
  obtain ⟨y', h1, h2, _, h4⟩ := RunningElement.AdjustRunningElementYPos_spec boxes re y
  have hya := h4 hdistinct k pre a (mid ++ b :: post) hk hcell ha
  have hcell2 : re.m_cells k = (pre ++ a :: mid) ++ b :: post := by
    rw [hcell]; simp
  have hyb := h4 hdistinct k (pre ++ a :: mid) b post hk hcell2 hb
  have hheight : cellHeightOf boxes (pre ++ a :: mid) =
      cellHeightOf boxes pre + ((boxes a).ContentY2 - (boxes a).ContentY1) := by
    rw [cellHeightOf_append, cellHeightOf_cons, cellHeightOf_no_box boxes mid hmid]
    simp [ha]
  have hmod : wrapInt (y' b + (boxes b).ContentY2) = wrapInt (y' a + (boxes a).ContentY1) := by
    rw [hya, hyb, hheight]
    unfold wrapInt
    omega
  exact ⟨y', h1, hmod, fun hb2 ha2 => eq_of_wrapInt_eq hmod hb2 ha2, h2⟩

/-- Witness for C28: in the cell 6 of `runningExample` the boxes 73 and 74 are
consecutive, with the element 77 without a box between them.  The upper edge
of 74, whose `ContentY2` is 10, meets the lower edge of 73, whose `ContentY1` is
0, and 77 keeps the position 1077. -/
theorem RunningElement.AdjustRunningElementYPos_stacked_witness :
    ∃ y', RunningElement.AdjustRunningElementYPos boxesExample runningExample
        drawingYRelsExample = .ok (true, y') ∧
      y' 74 + 10 = y' 73 + 0 ∧ y' 73 = -93 ∧ y' 77 = 1077 := by
  obtain ⟨y', h1, _, h3, h4⟩ :=
    RunningElement.AdjustRunningElementYPos_stacked boxesExample runningExample
      drawingYRelsExample 6 [] 73 [77] 74 [] runningExample_cellsDistinct (by decide) rfl rfl rfl
      (fun z hz => by
        have e : z = 77 := by simpa using hz
        subst e
        rfl)
  have hy : y' = shiftCells boxesExample runningExample (List.range 9)
      (stackCells boxesExample runningExample (List.range 9) drawingYRelsExample) :=
    (congrArg Prod.snd (Except.ok.inj
      ((RunningElement.AdjustRunningElementYPos_eq boxesExample runningExample
        drawingYRelsExample).symm.trans h1))).symm
  have hy74 : y' 74 = -103 := by rw [hy]; decide
  have hy73 : y' 73 = -93 := by rw [hy]; decide
  have hedges := h3 (by rw [hy74]; unfold InInt; decide) (by rw [hy73]; unfold InInt; decide)
  exact ⟨y', h1, hedges, hy73, (h4 77 rfl).trans rfl⟩

/-- C24. From inside the class no range assertion and no array index can fail:
for every running element `GetContentHeight()` returns, `GetRowHeight(row)` and
`GetColHeight(col)` return for the arguments 0 to 2, `GetCellHeight(cell)`
returns for the arguments 0 to 8, and `AdjustDrawingScaling(width)` and
`AdjustRunningElementYPos()` return.  Each of these calls fails as soon as a
nested call has an argument out of range or `m_cells` is read at an index
outside 0 to 8: the three accessors with an argument fail on every argument
out of their range. -/
theorem RunningElement.accessors_in_range (boxes : Boxes) (re : RunningElement)
    (y : DrawingYRels) (width : Int) :
    (∃ v, RunningElement.GetContentHeight boxes re = .ok v) ∧
      (∀ row : Nat, row < 3 → ∃ v, RunningElement.GetRowHeight boxes re (row : Int) = .ok v) ∧
      (∀ col : Nat, col < 3 → ∃ v, RunningElement.GetColHeight boxes re (col : Int) = .ok v) ∧
      (∀ cell : Nat, cell < 9 →
        ∃ v, RunningElement.GetCellHeight boxes re (cell : Int) = .ok v) ∧
      (∃ r, RunningElement.AdjustDrawingScaling boxes re width = .ok r) ∧
      (∃ y', RunningElement.AdjustRunningElementYPos boxes re y = .ok (true, y')) ∧
      (∀ cell : Int, ¬ (0 ≤ cell ∧ cell < 9) →
        RunningElement.GetCellHeight boxes re cell = .error .assertFailed) ∧
      (∀ row : Int, ¬ (0 ≤ row ∧ row < 3) →
        RunningElement.GetRowHeight boxes re row = .error .assertFailed) ∧
      (∀ col : Int, ¬ (0 ≤ col ∧ col < 3) →
        RunningElement.GetColHeight boxes re col = .error .assertFailed) ∧
      (∀ idx : Int, ¬ (0 ≤ idx ∧ idx < 9) → re.cell idx = .error .outOfBounds) := by
  refine ⟨⟨_, RunningElement.GetContentHeight_eq boxes re⟩,
    fun row hrow => ⟨_, RunningElement.GetRowHeight_eq boxes re row hrow⟩,
    fun col hcol => ⟨_, RunningElement.GetColHeight_eq boxes re col hcol⟩,
    fun cell hcell => ⟨_, RunningElement.GetCellHeight_eq boxes re cell hcell⟩,
    ⟨_, RunningElement.AdjustDrawingScaling_eq boxes re width⟩,
    ⟨_, RunningElement.AdjustRunningElementYPos_eq boxes re y⟩, ?_, ?_, ?_, ?_⟩
  · intro cell hcell
    simp only [RunningElement.GetCellHeight, hcell, if_false]
  · intro row hrow
    simp only [RunningElement.GetRowHeight, hrow, if_false]
  · intro col hcol
    simp only [RunningElement.GetColHeight, hcol, if_false]
  · intro idx hidx
    simp only [RunningElement.cell, hidx, if_false]

/-- Witness for C24: on `runningExample` the row 2 has the height 40 and the cell
8 the height 40, while `GetCellHeight(9)` and `GetRowHeight(3)` fail their
assertion. -/
theorem RunningElement.accessors_in_range_witness :
    RunningElement.GetRowHeight boxesExample runningExample 2 = .ok 40 ∧
      RunningElement.GetCellHeight boxesExample runningExample 8 = .ok 40 ∧
      RunningElement.GetCellHeight boxesExample runningExample 9 = .error .assertFailed ∧
      RunningElement.GetRowHeight boxesExample runningExample 3 = .error .assertFailed := by
  have h := RunningElement.accessors_in_range boxesExample runningExample drawingYRelsExample 0
  obtain ⟨v1, hv1⟩ := h.2.1 2 (by decide)
  obtain ⟨v2, hv2⟩ := h.2.2.2.1 8 (by decide)
  have e1 := RunningElement.GetRowHeight_eq boxesExample runningExample 2 (by decide)
  have e2 := RunningElement.GetCellHeight_eq boxesExample runningExample 8 (by decide)
  refine ⟨e1.trans ?_, e2.trans ?_, h.2.2.2.2.2.2.1 9 (by decide), h.2.2.2.2.2.2.2.1 3 (by decide)⟩
  · exact congrArg Except.ok (by decide)
  · exact congrArg Except.ok (by decide)

/-! ## Running element: filling the cells -/

theorem RunningElement.GetAlignmentPos_range (P : Positions) (hP : P.IsGrid)
    (h : data_HORIZONTALALIGNMENT) (v : data_VERTICALALIGNMENT) :
    0 ≤ RunningElement.GetAlignmentPos P h v ∧ RunningElement.GetAlignmentPos P h v < 9 := by
  obtain ⟨h1, h2, h3, h4, h5⟩ := hP
  cases h <;> cases v <;> simp [RunningElement.GetAlignmentPos, h1, h2, h3, h4, h5]

theorem prepareDataLoop_spec (P : Positions) (hP : P.IsGrid)
    (areaPos : ObjId → Option (data_HORIZONTALALIGNMENT × data_VERTICALALIGNMENT))
    (isTextElementType : ObjId → Bool) :
    ∀ (l : List ObjId) (re : RunningElement),
      (∀ x, x ∈ l → (areaPos x).isSome = true ∧ isTextElementType x = true) →
      ∃ re', prepareDataLoop P areaPos isTextElementType l re = .ok re' ∧
        re'.m_isGenerated = re.m_isGenerated ∧
        re'.m_drawingScalingPercent = re.m_drawingScalingPercent ∧
        ∀ k : Nat, re'.m_cells k =
          re.m_cells k ++ l.filter (fun x => decide (alignmentCell P areaPos x = some (k : Int))) := by
  intro l
  induction l with
  | nil =>
    intro re _
    exact ⟨re, rfl, rfl, rfl, fun k => by simp⟩
  | cons x xs ih =>
    intro re hcast
    obtain ⟨hsome, htext⟩ := hcast x (List.mem_cons_self _ _)
    obtain ⟨hv, hhv⟩ := Option.isSome_iff_exists.mp hsome
    have hrange := RunningElement.GetAlignmentPos_range P hP hv.1 hv.2
    obtain ⟨re', hre', hgen, hpct, hcells⟩ := ih
      { m_isGenerated := re.m_isGenerated,
        m_drawingScalingPercent := re.m_drawingScalingPercent,
        m_cells := Function.update re.m_cells (RunningElement.GetAlignmentPos P hv.1 hv.2).toNat
          (re.m_cells (RunningElement.GetAlignmentPos P hv.1 hv.2).toNat ++ [x]) }
      (fun z hz => hcast z (List.mem_cons_of_mem x hz))
    refine ⟨re', ?_, hgen, hpct, ?_⟩
    · simp only [prepareDataLoop, hhv, htext, if_true, RunningElement.pushCell, hrange,
        and_self]
      exact hre'
    · intro k
      rw [hcells k]
      have hcellx : alignmentCell P areaPos x = some (RunningElement.GetAlignmentPos P hv.1 hv.2) := by
        simp [alignmentCell, hhv]
      by_cases hk : k = (RunningElement.GetAlignmentPos P hv.1 hv.2).toNat
      · have hpos : RunningElement.GetAlignmentPos P hv.1 hv.2 = (k : Int) := by omega
        have hdec : decide (alignmentCell P areaPos x = some (k : Int)) = true := by
          simp [hcellx, hpos]
        rw [List.filter_cons]
        simp only [hdec, if_true]
        rw [← hk, Function.update_same]
        simp
      · have hpos : RunningElement.GetAlignmentPos P hv.1 hv.2 ≠ (k : Int) := by omega
        have hdec : ¬ decide (alignmentCell P areaPos x = some (k : Int)) = true := by
          simp [hcellx, hpos]
        rw [List.filter_cons]
        simp only [hdec, if_false]
        simp [Function.update_noteq hk]

theorem sum_cell_lengths (c : ObjId → Option Int) :
    ∀ (l : List ObjId), (∀ x, x ∈ l → ∃ k : Nat, k < 9 ∧ c x = some (k : Int)) →
      ((List.range 9).map
        (fun k : Nat => (l.filter (fun x => decide (c x = some (k : Int)))).length)).sum =
        l.length := by
  intro l
  induction l with
  | nil => intro _; simp
  | cons x xs ih =>
    intro hl
    have hrest := ih (fun z hz => hl z (List.mem_cons_of_mem x hz))
    obtain ⟨k0, hk0, hc⟩ := hl x (List.mem_cons_self _ _)
    have hsplit : ∀ k : Nat,
        ((x :: xs).filter (fun z => decide (c z = some (k : Int)))).length =
          (if k0 = k then 1 else 0) +
            (xs.filter (fun z => decide (c z = some (k : Int)))).length := by
      intro k
      by_cases hk : k0 = k
      · have hdec : decide (c x = some (k : Int)) = true := by simp [hc, hk]
        rw [List.filter_cons]
        simp only [hdec, if_true, hk, List.length_cons]
        omega
      · have hne : ((k0 : Nat) : Int) ≠ (k : Int) := by omega
        have hdec : ¬ decide (c x = some (k : Int)) = true := by simp [hc, hne]
        rw [List.filter_cons]
        simp [hdec, hk]
    have hone : ((List.range 9).map (fun k : Nat => if k0 = k then 1 else 0)).sum = 1 := by
      interval_cases k0 <;> decide
    simp only [hsplit, List.sum_map_add, hrest, hone, List.length_cons]
    omega

/-- C30. Let `GetList` return the list `l` for the running element, and let every
element of `l` pass the two casts of the loop.  With the position constants of
the grid, `PrepareDataInitialization` returns `FUNCTOR_CONTINUE` and, whatever
the cells held before, leaves in every cell `k` from 0 to 8 the elements of `l`
for which `GetAlignmentPos` gives `k`, in the order of `l`: every element of `l`
has one cell from 0 to 8 and stands in that cell and in no other, the sizes of
the nine cells sum to the length of `l`, and the three scaling percents are
100. -/
theorem RunningElement.PrepareDataInitialization_partition (E : ClassIds) (P : Positions)
    (areaPos : ObjId → Option (data_HORIZONTALALIGNMENT × data_VERTICALALIGNMENT))
    (isTextElementType : ObjId → Bool) (fuel : Nat) (h : Heap) (cache : ListCache)
    (self : ObjId) (re : RunningElement) (l : List ObjId) (h1 : Heap) (cache1 : ListCache)
    (hP : P.IsGrid)
    (hlist : GetList E (RunningElement.FilterList E fuel) fuel h cache self = .ok (l, h1, cache1))
    (hcast : ∀ x, x ∈ l → (areaPos x).isSome = true ∧ isTextElementType x = true) :
    ∃ re', RunningElement.PrepareDataInitialization E P areaPos isTextElementType fuel h cache
        self re = .ok (.FUNCTOR_CONTINUE, re', h1, cache1) ∧
      (∀ k : Nat, k < 9 → re'.m_cells k =
        l.filter (fun x => decide (alignmentCell P areaPos x = some (k : Int)))) ∧
      (∀ x, x ∈ l → ∃ k : Nat, k < 9 ∧ alignmentCell P areaPos x = some (k : Int)) ∧
      (∀ (x : ObjId) (k : Nat), k < 9 →
        (x ∈ re'.m_cells k ↔ x ∈ l ∧ alignmentCell P areaPos x = some (k : Int))) ∧
      (∀ k : Nat, k < 9 → (re'.m_cells k).Sublist l) ∧
      ((List.range 9).map (fun k : Nat => (re'.m_cells k).length)).sum = l.length ∧
      (∀ i : Nat, i < 3 → re'.m_drawingScalingPercent i = 100) := by
  obtain ⟨re', hre', _, hpct, hcells⟩ :=
    prepareDataLoop_spec P hP areaPos isTextElementType l re.resetCells hcast
  have hcellk : ∀ k : Nat, k < 9 → re'.m_cells k =
      l.filter (fun x => decide (alignmentCell P areaPos x = some (k : Int))) := by
    intro k hk
    rw [hcells k]
    simp [RunningElement.resetCells, hk]
  have hhas : ∀ x, x ∈ l → ∃ k : Nat, k < 9 ∧ alignmentCell P areaPos x = some (k : Int) := by
    intro x hx
    obtain ⟨hv, hhv⟩ := Option.isSome_iff_exists.mp (hcast x hx).1
    have hrange := RunningElement.GetAlignmentPos_range P hP hv.1 hv.2
    refine ⟨(RunningElement.GetAlignmentPos P hv.1 hv.2).toNat, by omega, ?_⟩
    simp only [alignmentCell, hhv, Option.map_some', Option.some.injEq]
    omega
  refine ⟨re', ?_, hcellk, hhas, ?_, ?_, ?_, ?_⟩
  · simp only [RunningElement.PrepareDataInitialization, hlist, hre']
  · intro x k hk
    rw [hcellk k hk]
    simp [List.mem_filter]
  · intro k hk
    rw [hcellk k hk]
    exact List.filter_sublist l
  · have hsum := sum_cell_lengths (alignmentCell P areaPos) l hhas
    rw [← hsum]
    apply congrArg
    apply List.map_congr_left
    intro k hk
    rw [hcellk k (List.mem_range.mp hk)]
  · intro i hi
    rw [hpct]
    simp [RunningElement.resetCells, hi]

/-- Witness for C30: for the running element 20 of `heapRunning` the list is
`[21, 24]`; the rend 21 is centered at the bottom and goes to the cell 7, the
fig 24 has no alignment set and goes to the cell 3.  The cells and the percent
80 of `runningExample` are gone. -/
theorem RunningElement.PrepareDataInitialization_partition_witness :
    ∃ re' h1 cache1, RunningElement.PrepareDataInitialization classIdsExample positionsGrid
        areaPosExample (fun _ => true) 4 heapRunning (fun _ => none) 20 runningExample =
        .ok (.FUNCTOR_CONTINUE, re', h1, cache1) ∧
      re'.m_cells 7 = [21] ∧ re'.m_cells 3 = [24] ∧ re'.m_cells 6 = [] ∧
      re'.m_drawingScalingPercent 1 = 100 := by
  have hlist := GetList_rebuild classIdsExample (RunningElement.FilterList classIdsExample 4) 4
    heapRunning (fun _ => none) 20 [20, 21, 22, 23, 24] [21, 24] rfl rfl (Or.inl rfl)
  obtain ⟨re', h1, h2, _, _, _, _, h7⟩ :=
    RunningElement.PrepareDataInitialization_partition classIdsExample positionsGrid
      areaPosExample (fun _ => true) 4 heapRunning (fun _ => none) 20 runningExample [21, 24]
      _ _ ⟨rfl, rfl, rfl, rfl, rfl⟩ hlist
      (fun x _ => ⟨by unfold areaPosExample; split <;> rfl, rfl⟩)
  exact ⟨re', _, _, h1, (h2 7 (by decide)).trans (by decide), (h2 3 (by decide)).trans (by decide),
    (h2 6 (by decide)).trans (by decide), h7 1 (by decide)⟩

/-- The cells that `PrepareDataInitialization` leaves hold no element twice when
the list it sorts has none twice. -/
theorem RunningElement.CellsDistinct_of_filter (re : RunningElement) (c : ObjId → Option Int)
    (l : List ObjId) (hl : l.Nodup)
    (hcells : ∀ k : Nat, k < 9 →
      re.m_cells k = l.filter (fun x => decide (c x = some (k : Int)))) :
    re.CellsDistinct := by
  constructor
  · intro k hk
    rw [hcells k hk]
    exact hl.filter _
  · intro k1 hk1 k2 hk2 hne x hx1 hx2
    rw [hcells k1 hk1] at hx1
    rw [hcells k2 hk2] at hx2
    have e1 : c x = some (k1 : Int) := by simpa using (List.mem_filter.mp hx1).2
    have e2 : c x = some (k2 : Int) := by simpa using (List.mem_filter.mp hx2).2
    rw [e1] at e2
    have e3 : (k1 : Int) = (k2 : Int) := Option.some.inj e2
    omega

end Vrv
